import Mathlib

/-! advanced-vector: `RawMemory<T>` and `Vector<T>` (vector.h)

A shallow embedding of `src/advanced-vector/vector.h`.

* A block of raw storage is a list of slots; a slot either holds a live object
  (`some x`) or is raw, unconstructed storage (`none`).
* A pointer into a block is the offset of the slot it addresses, an iterator of a
  vector is its offset from `begin()`.
* Every operation returns an `Option`: `none` stands for a call without defined
  behaviour (a slot outside the block is touched, an object that is not alive is
  read, assigned or destroyed, an iterator range is handed over whose first bound
  lies behind its last one, pointer arithmetic leaves the block downwards, or the
  instantiated statement is not valid C++).
* The operations are first given on the paths on which nothing throws; the
  section on exceptions adds `operator new` and the constructor of a new element
  as sources of exceptions.
* Sizes and capacities are natural numbers. Where the caller chooses the number of
  elements to allocate (`Reserve`, `Resize`), the byte count `n * sizeof(T)` is also
  given as the code computes it, modulo `2 ^ 64` (`Reserve_sized`, `Resize_sized`).
-/

namespace AdvancedVector

/-! ## Element type -/

/-- The facts about the element type `T` that the code looks at: the value produced by
value-initialisation `T()`, the state an object is left in after it has been moved from
(the identity for `int`), and the `std::is_..._v<T>` traits used in `if constexpr`. -/
structure ElemTraits (α : Type) where
  value_init : α
  moved_from : α → α
  is_nothrow_move_constructible : Bool
  is_copy_constructible : Bool
  is_move_constructible : Bool
  is_move_assignable : Bool
  is_nothrow_move_assignable : Bool

/-- The element type `int`. -/
def intTraits : ElemTraits Int where
  value_init := 0
  moved_from := fun x => x
  is_nothrow_move_constructible := true
  is_copy_constructible := true
  is_move_constructible := true
  is_move_assignable := true
  is_nothrow_move_assignable := true

/-! ## Raw storage blocks and the standard algorithms used by the code -/

/-- One slot of raw storage: `some x` is a live object with value `x`. -/
abbrev Slot (α : Type) := Option α

/-- A block obtained from `operator new`. -/
abbrev Block (α : Type) := List (Slot α)

/-- The live object in slot `i` of block `b` (`none`: no such slot, or no object in it). -/
def obj {α : Type} (b : Block α) (i : Nat) : Option α :=
  match b[i]? with
  | some (some x) => some x
  | _ => none

/-- Pointer subtraction `p - n`; the result must not precede the block. -/
def ptr_sub (p n : Nat) : Option Nat :=
  if n ≤ p then some (p - n) else none

/-- Placement `new (b + i) T(x)`. -/
def construct_at {α : Type} (b : Block α) (i : Nat) (x : α) : Option (Block α) :=
  if i < b.length then some (b.set i (some x)) else none

/-- Assignment `b[i] = x` to the live object in slot `i`. -/
def assign_at {α : Type} (b : Block α) (i : Nat) (x : α) : Option (Block α) :=
  match obj b i with
  | some _ => some (b.set i (some x))
  | none => none

/-- The call `std::destroy_at(b + i)`. -/
def destroy_at {α : Type} (b : Block α) (i : Nat) : Option (Block α) :=
  match obj b i with
  | some _ => some (b.set i none)
  | none => none

/-- The call `std::destroy_n(b + first, count)`. -/
def destroy_n {α : Type} : Block α → Nat → Nat → Option (Block α)
  | b, _, 0 => some b
  | b, first, count + 1 =>
    match destroy_at b first with
    | some b1 => destroy_n b1 (first + 1) count
    | none => none

/-- The call `std::uninitialized_value_construct_n(b + first, count)`. -/
def uninitialized_value_construct_n {α : Type} (E : ElemTraits α) :
    Block α → Nat → Nat → Option (Block α)
  | b, _, 0 => some b
  | b, first, count + 1 =>
    match construct_at b first E.value_init with
    | some b1 => uninitialized_value_construct_n E b1 (first + 1) count
    | none => none

/-- The call `std::uninitialized_copy_n(src + first, count, dst + d_first)` between two blocks;
the result is the destination block. -/
def uninitialized_copy_n {α : Type} (src : Block α) :
    Nat → Nat → Block α → Nat → Option (Block α)
  | _, 0, dst, _ => some dst
  | first, count + 1, dst, d_first =>
    match obj src first with
    | some x =>
      match construct_at dst d_first x with
      | some dst1 => uninitialized_copy_n src (first + 1) count dst1 (d_first + 1)
      | none => none
    | none => none

/-- The call `std::uninitialized_move_n(src + first, count, dst + d_first)` between two blocks;
the result is the source block (its objects moved from) and the destination block. -/
def uninitialized_move_n {α : Type} (E : ElemTraits α) :
    Block α → Nat → Nat → Block α → Nat → Option (Block α × Block α)
  | src, _, 0, dst, _ => some (src, dst)
  | src, first, count + 1, dst, d_first =>
    match obj src first with
    | some x =>
      match construct_at dst d_first x with
      | some dst1 =>
        uninitialized_move_n E (src.set first (some (E.moved_from x))) (first + 1) count
          dst1 (d_first + 1)
      | none => none
    | none => none

/-- The call `std::uninitialized_copy_n(b + first, 1, b + d_first)` inside one block. -/
def uninitialized_copy_1 {α : Type} (b : Block α) (first d_first : Nat) : Option (Block α) :=
  match obj b first with
  | some x => construct_at b d_first x
  | none => none

/-- The call `std::uninitialized_move_n(b + first, 1, b + d_first)` inside one block. -/
def uninitialized_move_1 {α : Type} (E : ElemTraits α) (b : Block α) (first d_first : Nat) :
    Option (Block α) :=
  match obj b first with
  | some x =>
    match construct_at b d_first x with
    | some b1 => some (b1.set first (some (E.moved_from x)))
    | none => none
  | none => none

/-- The loop of `std::move(first, last, d_first)` inside one block, `count = last - first`:
`*d_first++ = std::move(*first++)`. -/
def move_loop {α : Type} (E : ElemTraits α) : Block α → Nat → Nat → Nat → Option (Block α)
  | b, _, 0, _ => some b
  | b, first, count + 1, d_first =>
    match obj b first with
    | some x =>
      match assign_at b d_first x with
      | some b1 => move_loop E (b1.set first (some (E.moved_from x))) (first + 1) count (d_first + 1)
      | none => none
    | none => none

/-- The call `std::move(b + first, b + last, b + d_first)`; `[first, last)` must be a range. -/
def std_move {α : Type} (E : ElemTraits α) (b : Block α) (first last d_first : Nat) :
    Option (Block α) :=
  if first ≤ last then move_loop E b first (last - first) d_first else none

/-- The loop of `std::move_backward(first, last, d_last)` inside one block,
`count = last - first`: `*--d_last = std::move(*--last)`. -/
def move_backward_loop {α : Type} (E : ElemTraits α) :
    Block α → Nat → Nat → Nat → Option (Block α)
  | b, 0, _, _ => some b
  | b, count + 1, last, d_last =>
    match ptr_sub last 1, ptr_sub d_last 1 with
    | some l1, some d1 =>
      match obj b l1 with
      | some x =>
        match assign_at b d1 x with
        | some b1 => move_backward_loop E (b1.set l1 (some (E.moved_from x))) count l1 d1
        | none => none
      | none => none
    | _, _ => none

/-- The call `std::move_backward(b + first, b + last, b + d_last)`. -/
def move_backward {α : Type} (E : ElemTraits α) (b : Block α) (first last d_last : Nat) :
    Option (Block α) :=
  if first ≤ last then move_backward_loop E b (last - first) last d_last else none

/-- The loop of `std::copy_backward(first, last, d_last)` inside one block:
`*--d_last = *--last`. -/
def copy_backward_loop {α : Type} : Block α → Nat → Nat → Nat → Option (Block α)
  | b, 0, _, _ => some b
  | b, count + 1, last, d_last =>
    match ptr_sub last 1, ptr_sub d_last 1 with
    | some l1, some d1 =>
      match obj b l1 with
      | some x =>
        match assign_at b d1 x with
        | some b1 => copy_backward_loop b1 count l1 d1
        | none => none
      | none => none
    | _, _ => none

/-- The call `std::copy_backward(b + first, b + last, b + d_last)`. -/
def copy_backward {α : Type} (b : Block α) (first last d_last : Nat) : Option (Block α) :=
  if first ≤ last then copy_backward_loop b (last - first) last d_last else none

/-! ## `RawMemory<T>` -/

/-- The class `RawMemory<T>`: `buffer_` is `none` for `nullptr`. -/
structure RawMemory (α : Type) where
  buffer_ : Option (Block α)
  capacity_ : Nat
deriving DecidableEq

namespace RawMemory

/-- `RawMemory::Allocate(n)`: `n != 0 ? operator new(n * sizeof(T)) : nullptr`, for a request
whose byte count `n * sizeof(T)` does not exceed `SIZE_MAX`, so that the block has `n` slots;
`Allocate_sized` is the same function with the product taken modulo `2 ^ 64`. -/
def Allocate {α : Type} (n : Nat) : Option (Block α) :=
  if n ≠ 0 then some (List.replicate n none) else none

/-- `RawMemory() = default`. -/
def default_ctor {α : Type} : RawMemory α :=
  { buffer_ := none, capacity_ := 0 }

/-- `RawMemory(size_t capacity)`. -/
def ctor {α : Type} (capacity : Nat) : RawMemory α :=
  { buffer_ := Allocate capacity, capacity_ := capacity }

/-- `RawMemory(RawMemory&& other)`: the new object and what is left of `other`. -/
def move_ctor {α : Type} (other : RawMemory α) : RawMemory α × RawMemory α :=
  ({ buffer_ := other.buffer_, capacity_ := other.capacity_ },
   { buffer_ := none, capacity_ := other.capacity_ })

/-- `operator=(RawMemory&& rhs)`: `*this` afterwards and what is left of `rhs`. -/
def move_assign {α : Type} (_this rhs : RawMemory α) : RawMemory α × RawMemory α :=
  ({ buffer_ := rhs.buffer_, capacity_ := rhs.capacity_ },
   { buffer_ := none, capacity_ := rhs.capacity_ })

/-- `RawMemory::Swap`. -/
def Swap {α : Type} (this other : RawMemory α) : RawMemory α × RawMemory α :=
  (other, this)

/-- `RawMemory::Capacity`. -/
def Capacity {α : Type} (m : RawMemory α) : Nat := m.capacity_

/-- The block `GetAddress()` points to; the null pointer addresses no slot at all. -/
def cells {α : Type} (m : RawMemory α) : Block α :=
  match m.buffer_ with
  | some b => b
  | none => []

/-- The same `RawMemory` after the block it points to has been written to. -/
def store {α : Type} (m : RawMemory α) (b : Block α) : RawMemory α :=
  match m.buffer_ with
  | some _ => { m with buffer_ := some b }
  | none => m

/-- `RawMemory::operator+(offset)`: `assert(offset <= capacity_)`. -/
def plus {α : Type} (m : RawMemory α) (offset : Nat) : Option Nat :=
  if offset ≤ m.capacity_ then some offset else none

/-- `RawMemory::operator[](index)`: `assert(index < capacity_)`; the slot addressed. -/
def index {α : Type} (m : RawMemory α) (i : Nat) : Option Nat :=
  if i < m.capacity_ then some i else none

end RawMemory

/-! ## `Vector<T>` -/

/-- The class `Vector<T>`. -/
structure Vector (α : Type) where
  data_ : RawMemory α
  size_ : Nat
deriving DecidableEq

/-- The argument a caller hands to `PushBack` (`U&& val`) or `EmplaceBack` (`Args&&... args`).
Both take it by reference and read it only where the new element is constructed. The object
referred to is either not part of the vector (`outside x`, with value `x`) or the vector's
own element `v[i]` (`elem i`), which lives in the block `data_` points to at the time of the
call. -/
inductive Arg (α : Type) where
  | outside : α → Arg α
  | elem : Nat → Arg α
deriving DecidableEq

namespace Arg

/-- The value of the object the reference refers to, read while the block of the vector's
elements is `b` (`none`: the reference refers to no live object). -/
def read {α : Type} : Arg α → Block α → Option α
  | outside x, _ => some x
  | elem i, b => obj b i

/-- The block of the vector's elements after the new element has been constructed from the
argument: `T(std::move(value))` leaves the object referred to moved-from, `T(value)` leaves
it as it is. -/
def consumed {α : Type} (E : ElemTraits α) (a : Arg α) (is_rvalue : Bool) (b : Block α) :
    Block α :=
  match a with
  | outside _ => b
  | elem i =>
    if is_rvalue then
      match obj b i with
      | some x => b.set i (some (E.moved_from x))
      | none => b
    else b

/-- The object `T(args...)` of `EmplaceBack`: `x` for arguments that do not refer into the
vector, the copy `T(v[i])` for the argument `v[i]`, which needs a copy constructor. -/
def made {α : Type} (E : ElemTraits α) : Arg α → Block α → Option α
  | outside x, _ => some x
  | elem i, b => if E.is_copy_constructible then obj b i else none

/-- The reference refers to an object: an element `v[i]` exists for `i < size`. -/
def valid {α : Type} : Arg α → Nat → Bool
  | outside _, _ => true
  | elem i, size => decide (i < size)

end Arg

/-- The argument of an assignment operator: the very object assigned to, or another one. -/
inductive Rhs (α : Type) where
  | self : Rhs α
  | other : Vector α → Rhs α

namespace Vector

/-- `Vector::Size`. -/
def Size {α : Type} (v : Vector α) : Nat := v.size_

/-- `Vector::Capacity`. -/
def Capacity {α : Type} (v : Vector α) : Nat := v.data_.Capacity

/-- `Vector::operator[]`, read: `assert(index < size_)`, then the object in `data_[index]`. -/
def get {α : Type} (v : Vector α) (index : Nat) : Option α :=
  if index < v.size_ then
    match v.data_.index index with
    | some i => obj v.data_.cells i
    | none => none
  else none

/-- `v[index] = x` through `Vector::operator[]`. -/
def put {α : Type} (v : Vector α) (index : Nat) (x : α) : Option (Vector α) :=
  if index < v.size_ then
    match v.data_.index index with
    | some i =>
      match assign_at v.data_.cells i x with
      | some b => some { v with data_ := v.data_.store b }
      | none => none
    | none => none
  else none

/-- `Vector() = default`. -/
def default_ctor {α : Type} : Vector α :=
  { data_ := RawMemory.default_ctor, size_ := 0 }

/-- `Vector(size_t size)`, for a size whose byte count fits `size_t`. -/
def sized_ctor {α : Type} (E : ElemTraits α) (size : Nat) : Option (Vector α) :=
  let data_ : RawMemory α := RawMemory.ctor size
  match uninitialized_value_construct_n E data_.cells 0 size with
  | some b => some { data_ := data_.store b, size_ := size }
  | none => none

/-- `Vector(const Vector& other)`. -/
def copy_ctor {α : Type} (other : Vector α) : Option (Vector α) :=
  let data_ : RawMemory α := RawMemory.ctor other.size_
  match uninitialized_copy_n other.data_.cells 0 other.size_ data_.cells 0 with
  | some b => some { data_ := data_.store b, size_ := other.size_ }
  | none => none

/-- `Vector(Vector&& other)`: the new vector and what is left of `other`
(`std::move` of a `size_t` copies it). -/
def move_ctor {α : Type} (other : Vector α) : Vector α × Vector α :=
  let r := RawMemory.move_ctor other.data_
  ({ data_ := r.1, size_ := other.size_ }, { data_ := r.2, size_ := other.size_ })

/-- `Vector::CopyOrMoveN(src + first, size, dst + d_first)`: the source block and the
destination block afterwards. -/
def CopyOrMoveN {α : Type} (E : ElemTraits α) (src : Block α) (first size : Nat)
    (dst : Block α) (d_first : Nat) : Option (Block α × Block α) :=
  if E.is_nothrow_move_constructible || !E.is_copy_constructible then
    uninitialized_move_n E src first size dst d_first
  else
    match uninitialized_copy_n src first size dst d_first with
    | some dst1 => some (src, dst1)
    | none => none

/-- `Vector::CopyOrMove(b + data, b + new_data)`, both pointers into the vector's block. -/
def CopyOrMove {α : Type} (E : ElemTraits α) (b : Block α) (data new_data : Nat) :
    Option (Block α) :=
  if E.is_move_constructible then uninitialized_move_1 E b data new_data
  else uninitialized_copy_1 b data new_data

/-- `Vector::TryPush(data, value, is_rvalue)` for a block `data` and the vector's `size_`:
the block afterwards and the returned flag. -/
def TryPush {α : Type} (E : ElemTraits α) (data : Block α) (size_ : Nat) (value : α)
    (is_rvalue : Bool) : Option (Block α × Bool) :=
  if is_rvalue then
    if E.is_move_constructible then
      match construct_at data size_ value with
      | some b => some (b, true)
      | none => none
    else some (data, false)
  else
    if E.is_copy_constructible then
      match construct_at data size_ value with
      | some b => some (b, true)
      | none => none
    else some (data, false)

/-- `Vector::Reserve`, for a request whose byte count fits `size_t` (`Reserve_sized` has the
byte count as the code computes it). The old block, swapped into `new_data`, is released at
the end of the scope. -/
def Reserve {α : Type} (E : ElemTraits α) (v : Vector α) (new_capacity : Nat) :
    Option (Vector α) :=
  if new_capacity > v.data_.Capacity then
    let new_data : RawMemory α := RawMemory.ctor new_capacity
    match CopyOrMoveN E v.data_.cells 0 v.size_ new_data.cells 0 with
    | some (old1, new1) =>
      match destroy_n old1 0 v.size_ with
      | some old2 =>
        let sw := RawMemory.Swap (v.data_.store old2) (new_data.store new1)
        some { data_ := sw.1, size_ := v.size_ }
      | none => none
    | none => none
  else some v

/-- `Vector::Resize`, for a request whose byte count fits `size_t` (`Resize_sized` has the
byte count as the code computes it). -/
def Resize {α : Type} (E : ElemTraits α) (v : Vector α) (new_size : Nat) : Option (Vector α) :=
  if new_size < v.size_ then
    match destroy_n v.data_.cells new_size (v.size_ - new_size) with
    | some b => some { data_ := v.data_.store b, size_ := new_size }
    | none => none
  else
    match Reserve E v new_size with
    | some v1 =>
      match uninitialized_value_construct_n E v1.data_.cells v1.size_ (new_size - v1.size_) with
      | some b => some { data_ := v1.data_.store b, size_ := new_size }
      | none => none
    | none => none

/-- `Vector::PushBack(U&& val)`; `is_rvalue` is the constant computed from `U` (`true` for an
rvalue, `false` for a non-const lvalue; a const lvalue does not bind to the `T&` of
`TryPush`). `value` is a reference to the caller's argument; `TryPush` reads the object it
refers to, on the growing path after `CopyOrMoveN` has run on the old block. -/
def PushBack {α : Type} (E : ElemTraits α) (v : Vector α) (value : Arg α) (is_rvalue : Bool) :
    Option (Vector α) :=
  if v.size_ = v.Capacity then
    let new_data : RawMemory α := RawMemory.ctor (if v.size_ = 0 then 1 else 2 * v.size_)
    match CopyOrMoveN E v.data_.cells 0 v.size_ new_data.cells 0 with
    | some (old1, new1) =>
      match value.read old1 with
      | some x =>
        match TryPush E new1 v.size_ x is_rvalue with
        | some (new2, true) =>
          match destroy_n (value.consumed E is_rvalue old1) 0 v.size_ with
          | some old2 =>
            let sw := RawMemory.Swap (v.data_.store old2) (new_data.store new2)
            some { data_ := sw.1, size_ := v.size_ + 1 }
          | none => none
        | some (_, false) => some { data_ := v.data_.store old1, size_ := v.size_ }
        | none => none
      | none => none
    | none => none
  else
    match value.read v.data_.cells with
    | some x =>
      match TryPush E v.data_.cells v.size_ x is_rvalue with
      | some (b, true) =>
        some { data_ := v.data_.store (value.consumed E is_rvalue b), size_ := v.size_ + 1 }
      | some (b, false) => some { data_ := v.data_.store b, size_ := v.size_ }
      | none => none
    | none => none

/-- `Vector::EmplaceBack(args...)`: the vector afterwards and the slot of `data_` the returned
reference refers to. `args` is forwarded by reference, and `T(args...)` is evaluated where
the placement `new` stands, on the growing path after `CopyOrMoveN` has run on the old
block. -/
def EmplaceBack {α : Type} (E : ElemTraits α) (v : Vector α) (args : Arg α) :
    Option (Nat × Vector α) :=
  let r : Option (Vector α) :=
    if v.size_ = v.Capacity then
      let new_data : RawMemory α := RawMemory.ctor (if v.size_ = 0 then 1 else 2 * v.size_)
      match CopyOrMoveN E v.data_.cells 0 v.size_ new_data.cells 0 with
      | some (old1, new1) =>
        match args.made E old1 with
        | some value =>
          match construct_at new1 v.size_ value with
          | some new2 =>
            match destroy_n old1 0 v.size_ with
            | some old2 =>
              let sw := RawMemory.Swap (v.data_.store old2) (new_data.store new2)
              some { data_ := sw.1, size_ := v.size_ + 1 }
            | none => none
          | none => none
        | none => none
      | none => none
    else
      match args.made E v.data_.cells with
      | some value =>
        match construct_at v.data_.cells v.size_ value with
        | some b => some { data_ := v.data_.store b, size_ := v.size_ + 1 }
        | none => none
      | none => none
  match r with
  | some v1 =>
    match v1.data_.index (v1.size_ - 1) with
    | some i => some (i, v1)
    | none => none
  | none => none

/-- `Vector::PopBack`. -/
def PopBack {α : Type} (v : Vector α) : Option (Vector α) :=
  match ptr_sub v.size_ 1 with
  | some e1 =>
    match destroy_at v.data_.cells e1 with
    | some b => some { data_ := v.data_.store b, size_ := v.size_ - 1 }
    | none => none
  | none => none

/-- `Vector::Emplace(pos, args...)`, `pos` given as `pos - begin()` and `value` being the
object `T(args...)`: the returned iterator (as its offset from the new `begin()`) and the
vector afterwards. -/
def Emplace {α : Type} (E : ElemTraits α) (v : Vector α) (pos : Nat) (value : α) :
    Option (Nat × Vector α) :=
  let cp_pos := pos
  match ptr_sub v.size_ pos with
  | none => none
  | some cp_length =>
    if v.size_ = v.Capacity then
      let new_data : RawMemory α := RawMemory.ctor (if v.size_ = 0 then 1 else 2 * v.size_)
      match construct_at new_data.cells cp_pos value with
      | some new1 =>
        match CopyOrMoveN E v.data_.cells 0 cp_pos new1 0 with
        | some (old1, new2) =>
          match new_data.plus cp_pos with
          | some d =>
            match CopyOrMoveN E old1 cp_pos cp_length new2 (d + 1) with
            | some (old2, new3) =>
              match destroy_n old2 0 v.size_ with
              | some old3 =>
                let sw := RawMemory.Swap (v.data_.store old3) (new_data.store new3)
                some (cp_pos, { data_ := sw.1, size_ := v.size_ + 1 })
              | none => none
            | none => none
          | none => none
        | none => none
      | none => none
    else
      match ptr_sub v.size_ 1 with
      | none => none
      | some e1 =>
        match CopyOrMove E v.data_.cells e1 v.size_ with
        | none => none
        | some b1 =>
          let shifted : Option (Block α) :=
            if E.is_move_assignable then move_backward E b1 cp_pos e1 v.size_
            else copy_backward b1 cp_pos e1 v.size_
          match shifted with
          | none => none
          | some b2 =>
            match v.data_.index cp_pos with
            | none => none
            | some i =>
              match assign_at b2 i value with
              | none => none
              | some b3 => some (cp_pos, { data_ := v.data_.store b3, size_ := v.size_ + 1 })

/-- `Vector::Erase(pos)`, `pos` given as `pos - begin()`: the returned iterator (as its offset
from `begin()`) and the vector afterwards. When `T` is not nothrow-move-assignable the
statement `std::copy(begin() + cp_pos, end() - pos - 1, begin() + cp_pos - 1)` is instantiated;
its second argument is a `ptrdiff_t`, not an iterator, so the call matches no `std::copy`. -/
def Erase {α : Type} (E : ElemTraits α) (v : Vector α) (pos : Nat) : Option (Nat × Vector α) :=
  let cp_pos := pos + 1
  if E.is_nothrow_move_assignable then
    match std_move E v.data_.cells cp_pos v.size_ (cp_pos - 1) with
    | none => none
    | some b1 =>
      match ptr_sub v.size_ 1 with
      | none => none
      | some e1 =>
        match destroy_at b1 e1 with
        | none => none
        | some b2 => some (cp_pos - 1, { data_ := v.data_.store b2, size_ := v.size_ - 1 })
  else none

/-- `Vector::Insert(pos, const T& value)`. -/
def Insert {α : Type} (E : ElemTraits α) (v : Vector α) (pos : Nat) (value : α) :
    Option (Nat × Vector α) :=
  Emplace E v pos value

/-- `Vector::Insert(pos, T&& value)`. -/
def Insert_rvalue {α : Type} (E : ElemTraits α) (v : Vector α) (pos : Nat) (value : α) :
    Option (Nat × Vector α) :=
  Emplace E v pos value

/-- `Vector::~Vector()`: whether the destructor has defined behaviour. -/
def dtor {α : Type} (v : Vector α) : Option Unit :=
  match v.data_.buffer_ with
  | some b =>
    match destroy_n b 0 v.size_ with
    | some _ => some ()
    | none => none
  | none => some ()

/-- `Vector::Swap`. -/
def Swap {α : Type} (this other : Vector α) : Vector α × Vector α :=
  let sw := RawMemory.Swap this.data_ other.data_
  ({ data_ := sw.1, size_ := other.size_ }, { data_ := sw.2, size_ := this.size_ })

/-- The loop `for (i = 0; i < n; ++i) data_[i] = rhs.data_[i]` of copy assignment,
started at `i`, with `count` iterations left. -/
def assign_loop {α : Type} (data_ rhs_data : RawMemory α) :
    Block α → Nat → Nat → Option (Block α)
  | b, _, 0 => some b
  | b, i, count + 1 =>
    match rhs_data.index i, data_.index i with
    | some j, some k =>
      match obj rhs_data.cells j with
      | some x =>
        match assign_at b k x with
        | some b1 => assign_loop data_ rhs_data b1 (i + 1) count
        | none => none
      | none => none
    | _, _ => none

/-- `Vector::operator=(const Vector& rhs)`: `*this` afterwards. -/
def copy_assign {α : Type} (this : Vector α) (rhs : Rhs α) : Option (Vector α) :=
  match rhs with
  | Rhs.self => some this
  | Rhs.other rhs =>
    if rhs.size_ ≤ this.size_ then
      match assign_loop this.data_ rhs.data_ this.data_.cells 0 rhs.size_ with
      | some b1 =>
        match this.data_.plus rhs.size_ with
        | some p =>
          match destroy_n b1 p (this.size_ - rhs.size_) with
          | some b2 => some { data_ := this.data_.store b2, size_ := rhs.size_ }
          | none => none
        | none => none
      | none => none
    else if rhs.size_ ≤ this.Capacity then
      match assign_loop this.data_ rhs.data_ this.data_.cells 0 this.size_ with
      | some b1 =>
        match uninitialized_copy_n rhs.data_.cells this.size_ (rhs.size_ - this.size_)
            b1 this.size_ with
        | some b2 => some { data_ := this.data_.store b2, size_ := rhs.size_ }
        | none => none
      | none => none
    else
      match copy_ctor rhs with
      | some rhs_copy => some (Swap this rhs_copy).1
      | none => none

/-- `Vector::operator=(Vector&& rhs)` for two different objects: `*this` and `rhs`
afterwards. -/
def move_assign {α : Type} (this rhs : Vector α) : Option (Vector α × Vector α) :=
  if this.size_ = rhs.size_ then some (Swap this rhs)
  else
    match destroy_n this.data_.cells 0 this.size_ with
    | some b =>
      let r := RawMemory.move_assign (this.data_.store b) rhs.data_
      some ({ data_ := r.1, size_ := rhs.size_ }, { data_ := r.2, size_ := rhs.size_ })
    | none => none

/-- The class invariant of `Vector<T>` (spec, data model): the pointer is null exactly when
the capacity is zero, the block has `capacity_` slots, `size_ ≤ capacity_`, and the slots
`[0, size_)` hold live objects. -/
def WF {α : Type} (v : Vector α) : Prop :=
  (v.data_.buffer_.isNone = true ↔ v.data_.capacity_ = 0) ∧
  v.data_.cells.length = v.data_.capacity_ ∧
  v.size_ ≤ v.data_.capacity_ ∧
  ∀ i, i < v.size_ → (obj v.data_.cells i).isSome = true

instance {α : Type} (v : Vector α) : Decidable v.WF :=
  inferInstanceAs (Decidable (
    (v.data_.buffer_.isNone = true ↔ v.data_.capacity_ = 0) ∧
    v.data_.cells.length = v.data_.capacity_ ∧
    v.size_ ≤ v.data_.capacity_ ∧
    ∀ i, i < v.size_ → (obj v.data_.cells i).isSome = true))

/-- The sequence of values `v[0], ..., v[size_ - 1]` (`none` where `operator[]` reads no
object). -/
def values {α : Type} (v : Vector α) : List (Option α) :=
  (List.range v.size_).map v.get

end Vector

/-! ## Concrete vectors of `int` -/

/-- A `Vector<int>` built from the given values with the given capacity:
slots beyond the values are raw. -/
def vec_of (xs : List Int) (capacity : Nat) : Vector Int :=
  { data_ := { buffer_ := RawMemory.Allocate capacity |>.map
                (fun b => (xs.map some ++ b).take capacity),
               capacity_ := capacity },
    size_ := xs.length }

/-- A `Vector<T>` built from the given values with the given capacity:
slots beyond the values are raw. -/
def vec_with {α : Type} (xs : List α) (capacity : Nat) : Vector α :=
  { data_ := { buffer_ := RawMemory.Allocate capacity |>.map
                (fun b => (xs.map some ++ b).take capacity),
               capacity_ := capacity },
    size_ := xs.length }

/-- The element type `std::vector<int>`: value-initialised and moved-from objects are empty,
every operation the code asks about is available and `noexcept`. -/
def vectorTraits : ElemTraits (List Int) where
  value_init := []
  moved_from := fun _ => []
  is_nothrow_move_constructible := true
  is_copy_constructible := true
  is_move_constructible := true
  is_move_assignable := true
  is_nothrow_move_assignable := true

/-- The element type `struct Rec { std::vector<int> data; Rec& operator=(Rec&&); ... }` whose
move assignment is user-provided and not `noexcept` (it may throw); a moved-from object has
empty `data`. -/
def recTraits : ElemTraits (List Int) where
  value_init := []
  moved_from := fun _ => []
  is_nothrow_move_constructible := true
  is_copy_constructible := true
  is_move_constructible := true
  is_move_assignable := true
  is_nothrow_move_assignable := false

/-- The element type `std::unique_ptr<int>` (`none` is the null pointer): it is move-only, and
a moved-from pointer is null. -/
def uniquePtrTraits : ElemTraits (Option Int) where
  value_init := none
  moved_from := fun _ => none
  is_nothrow_move_constructible := true
  is_copy_constructible := false
  is_move_constructible := true
  is_move_assignable := true
  is_nothrow_move_assignable := true

/-! ## Exceptions

The definitions above follow the paths on which nothing throws. The definitions of this
section follow the same code with its two sources of exceptions made explicit: `operator new`
in `RawMemory::Allocate` (flag `alloc_ok`) and the constructor of the new element (`args` is
the object `T(args...)` makes, or `none` when the constructor throws; the arguments of
`PushBack_exc` and `EmplaceBack_exc` are objects that are not part of the vector).
Relocation of existing elements, assignments and destructors do not throw here. -/

/-- The exceptions that leave an operation. -/
inductive Exc where
  | bad_alloc : Exc
  | element : Exc
deriving DecidableEq

/-- How a call ends: it returns a result and leaves the vector in a state, or an exception
leaves the call and the caller finds the vector in a state. -/
inductive Outcome (ρ α : Type) where
  | returned : ρ → Vector α → Outcome ρ α
  | thrown : Exc → Vector α → Outcome ρ α
deriving DecidableEq

/-- `RawMemory::Allocate(n)` with `operator new` succeeding or throwing `std::bad_alloc`. -/
def RawMemory.Allocate_exc {α : Type} (alloc_ok : Bool) (n : Nat) :
    Except Exc (Option (Block α)) :=
  if n ≠ 0 then
    if alloc_ok then Except.ok (some (List.replicate n none)) else Except.error Exc.bad_alloc
  else Except.ok none

/-- `RawMemory(size_t capacity)` with `operator new` succeeding or throwing. -/
def RawMemory.ctor_exc {α : Type} (alloc_ok : Bool) (capacity : Nat) :
    Except Exc (RawMemory α) :=
  match RawMemory.Allocate_exc alloc_ok capacity with
  | Except.ok buf => Except.ok { buffer_ := buf, capacity_ := capacity }
  | Except.error e => Except.error e

/-- Placement `new (b + i) T(args...)` where the constructor of `T` may throw. -/
def construct_exc {α : Type} (b : Block α) (i : Nat) (args : Option α) :
    Option (Except Exc (Block α)) :=
  if i < b.length then
    match args with
    | some x => some (Except.ok (b.set i (some x)))
    | none => some (Except.error Exc.element)
  else none

namespace Vector

/-- `Vector::TryPush` where the copy or move constructor of `T` on `value` succeeds
(`ctor_ok`) or throws; `catch (...) { throw; }` passes the exception on. -/
def TryPush_exc {α : Type} (E : ElemTraits α) (data : Block α) (size_ : Nat) (value : α)
    (is_rvalue : Bool) (ctor_ok : Bool) : Option (Except Exc (Block α × Bool)) :=
  if is_rvalue then
    if E.is_move_constructible then
      match construct_exc data size_ (if ctor_ok then some value else none) with
      | some (Except.ok b) => some (Except.ok (b, true))
      | some (Except.error e) => some (Except.error e)
      | none => none
    else some (Except.ok (data, false))
  else
    if E.is_copy_constructible then
      match construct_exc data size_ (if ctor_ok then some value else none) with
      | some (Except.ok b) => some (Except.ok (b, true))
      | some (Except.error e) => some (Except.error e)
      | none => none
    else some (Except.ok (data, false))

/-- `Vector(const Vector& other)` with `operator new` succeeding or throwing. -/
def copy_ctor_exc {α : Type} (alloc_ok : Bool) (other : Vector α) :
    Option (Except Exc (Vector α)) :=
  match RawMemory.ctor_exc alloc_ok other.size_ with
  | Except.error e => some (Except.error e)
  | Except.ok data_ =>
    match uninitialized_copy_n other.data_.cells 0 other.size_ data_.cells 0 with
    | some b => some (Except.ok { data_ := data_.store b, size_ := other.size_ })
    | none => none

/-- `Vector::Reserve` with `operator new` succeeding or throwing. -/
def Reserve_exc {α : Type} (E : ElemTraits α) (v : Vector α) (alloc_ok : Bool)
    (new_capacity : Nat) : Option (Outcome Unit α) :=
  if new_capacity > v.data_.Capacity then
    match RawMemory.ctor_exc alloc_ok new_capacity with
    | Except.error e => some (Outcome.thrown e v)
    | Except.ok new_data =>
      match CopyOrMoveN E v.data_.cells 0 v.size_ new_data.cells 0 with
      | some (old1, new1) =>
        match destroy_n old1 0 v.size_ with
        | some old2 =>
          let sw := RawMemory.Swap (v.data_.store old2) (new_data.store new1)
          some (Outcome.returned () { data_ := sw.1, size_ := v.size_ })
        | none => none
      | none => none
  else some (Outcome.returned () v)

/-- `Vector::Resize` with `operator new` succeeding or throwing. -/
def Resize_exc {α : Type} (E : ElemTraits α) (v : Vector α) (alloc_ok : Bool)
    (new_size : Nat) : Option (Outcome Unit α) :=
  if new_size < v.size_ then
    match destroy_n v.data_.cells new_size (v.size_ - new_size) with
    | some b => some (Outcome.returned () { data_ := v.data_.store b, size_ := new_size })
    | none => none
  else
    match Reserve_exc E v alloc_ok new_size with
    | some (Outcome.returned _ v1) =>
      match uninitialized_value_construct_n E v1.data_.cells v1.size_ (new_size - v1.size_) with
      | some b => some (Outcome.returned () { data_ := v1.data_.store b, size_ := new_size })
      | none => none
    | some (Outcome.thrown e v1) => some (Outcome.thrown e v1)
    | none => none

/-- `Vector::PushBack` with `operator new` and the constructor of the pushed element
succeeding or throwing. When the exception leaves `TryPush` on the growing path, `new_data`
is released and `data_` still is the old block, after `CopyOrMoveN` has run on it. -/
def PushBack_exc {α : Type} (E : ElemTraits α) (v : Vector α) (alloc_ok : Bool) (value : α)
    (is_rvalue : Bool) (ctor_ok : Bool) : Option (Outcome Unit α) :=
  if v.size_ = v.Capacity then
    match RawMemory.ctor_exc alloc_ok (if v.size_ = 0 then 1 else 2 * v.size_) with
    | Except.error e => some (Outcome.thrown e v)
    | Except.ok new_data =>
      match CopyOrMoveN E v.data_.cells 0 v.size_ new_data.cells 0 with
      | some (old1, new1) =>
        match TryPush_exc E new1 v.size_ value is_rvalue ctor_ok with
        | some (Except.ok (new2, true)) =>
          match destroy_n old1 0 v.size_ with
          | some old2 =>
            let sw := RawMemory.Swap (v.data_.store old2) (new_data.store new2)
            some (Outcome.returned () { data_ := sw.1, size_ := v.size_ + 1 })
          | none => none
        | some (Except.ok (_, false)) =>
          some (Outcome.returned () { data_ := v.data_.store old1, size_ := v.size_ })
        | some (Except.error e) =>
          some (Outcome.thrown e { data_ := v.data_.store old1, size_ := v.size_ })
        | none => none
      | none => none
  else
    match TryPush_exc E v.data_.cells v.size_ value is_rvalue ctor_ok with
    | some (Except.ok (b, true)) =>
      some (Outcome.returned () { data_ := v.data_.store b, size_ := v.size_ + 1 })
    | some (Except.ok (b, false)) =>
      some (Outcome.returned () { data_ := v.data_.store b, size_ := v.size_ })
    | some (Except.error e) => some (Outcome.thrown e v)
    | none => none

/-- `Vector::EmplaceBack(args...)` with `operator new` and `T(args...)` succeeding or
throwing. When `T(args...)` throws on the growing path, `new_data` is released and `data_`
still is the old block, after `CopyOrMoveN` has run on it. -/
def EmplaceBack_exc {α : Type} (E : ElemTraits α) (v : Vector α) (alloc_ok : Bool)
    (args : Option α) : Option (Outcome Nat α) :=
  let r : Option (Outcome Unit α) :=
    if v.size_ = v.Capacity then
      match RawMemory.ctor_exc alloc_ok (if v.size_ = 0 then 1 else 2 * v.size_) with
      | Except.error e => some (Outcome.thrown e v)
      | Except.ok new_data =>
        match CopyOrMoveN E v.data_.cells 0 v.size_ new_data.cells 0 with
        | some (old1, new1) =>
          match construct_exc new1 v.size_ args with
          | some (Except.ok new2) =>
            match destroy_n old1 0 v.size_ with
            | some old2 =>
              let sw := RawMemory.Swap (v.data_.store old2) (new_data.store new2)
              some (Outcome.returned () { data_ := sw.1, size_ := v.size_ + 1 })
            | none => none
          | some (Except.error e) =>
            some (Outcome.thrown e { data_ := v.data_.store old1, size_ := v.size_ })
          | none => none
        | none => none
    else
      match construct_exc v.data_.cells v.size_ args with
      | some (Except.ok b) =>
        some (Outcome.returned () { data_ := v.data_.store b, size_ := v.size_ + 1 })
      | some (Except.error e) => some (Outcome.thrown e v)
      | none => none
  match r with
  | some (Outcome.returned _ v1) =>
    match v1.data_.index (v1.size_ - 1) with
    | some i => some (Outcome.returned i v1)
    | none => none
  | some (Outcome.thrown e v1) => some (Outcome.thrown e v1)
  | none => none

/-- `Vector::Emplace(pos, args...)` with `operator new` and `T(args...)` succeeding or
throwing. On the growing path the new element is constructed in `new_data` before
`CopyOrMoveN` runs; on the other path the temporary `value` is constructed first. -/
def Emplace_exc {α : Type} (E : ElemTraits α) (v : Vector α) (pos : Nat) (alloc_ok : Bool)
    (args : Option α) : Option (Outcome Nat α) :=
  let cp_pos := pos
  match ptr_sub v.size_ pos with
  | none => none
  | some cp_length =>
    if v.size_ = v.Capacity then
      match RawMemory.ctor_exc alloc_ok (if v.size_ = 0 then 1 else 2 * v.size_) with
      | Except.error e => some (Outcome.thrown e v)
      | Except.ok new_data =>
        match construct_exc new_data.cells cp_pos args with
        | some (Except.error e) => some (Outcome.thrown e v)
        | some (Except.ok new1) =>
          match CopyOrMoveN E v.data_.cells 0 cp_pos new1 0 with
          | some (old1, new2) =>
            match new_data.plus cp_pos with
            | some d =>
              match CopyOrMoveN E old1 cp_pos cp_length new2 (d + 1) with
              | some (old2, new3) =>
                match destroy_n old2 0 v.size_ with
                | some old3 =>
                  let sw := RawMemory.Swap (v.data_.store old3) (new_data.store new3)
                  some (Outcome.returned cp_pos { data_ := sw.1, size_ := v.size_ + 1 })
                | none => none
              | none => none
            | none => none
          | none => none
        | none => none
    else
      match args with
      | none => some (Outcome.thrown Exc.element v)
      | some value =>
        match ptr_sub v.size_ 1 with
        | none => none
        | some e1 =>
          match CopyOrMove E v.data_.cells e1 v.size_ with
          | none => none
          | some b1 =>
            let shifted : Option (Block α) :=
              if E.is_move_assignable then move_backward E b1 cp_pos e1 v.size_
              else copy_backward b1 cp_pos e1 v.size_
            match shifted with
            | none => none
            | some b2 =>
              match v.data_.index cp_pos with
              | none => none
              | some i =>
                match assign_at b2 i value with
                | none => none
                | some b3 =>
                  some (Outcome.returned cp_pos
                    { data_ := v.data_.store b3, size_ := v.size_ + 1 })

/-- `Vector::operator=(const Vector& rhs)` for another object `rhs`, with `operator new`
succeeding or throwing. -/
def copy_assign_exc {α : Type} (this rhs : Vector α) (alloc_ok : Bool) :
    Option (Outcome Unit α) :=
  if rhs.size_ ≤ this.size_ then
    match assign_loop this.data_ rhs.data_ this.data_.cells 0 rhs.size_ with
    | some b1 =>
      match this.data_.plus rhs.size_ with
      | some p =>
        match destroy_n b1 p (this.size_ - rhs.size_) with
        | some b2 =>
          some (Outcome.returned () { data_ := this.data_.store b2, size_ := rhs.size_ })
        | none => none
      | none => none
    | none => none
  else if rhs.size_ ≤ this.Capacity then
    match assign_loop this.data_ rhs.data_ this.data_.cells 0 this.size_ with
    | some b1 =>
      match uninitialized_copy_n rhs.data_.cells this.size_ (rhs.size_ - this.size_)
          b1 this.size_ with
      | some b2 =>
        some (Outcome.returned () { data_ := this.data_.store b2, size_ := rhs.size_ })
      | none => none
    | none => none
  else
    match copy_ctor_exc alloc_ok rhs with
    | some (Except.ok rhs_copy) => some (Outcome.returned () (Swap this rhs_copy).1)
    | some (Except.error e) => some (Outcome.thrown e this)
    | none => none

/-- The loop of `std::copy(first, last, d_first)` inside one block, `count = last - first`:
`*d_first++ = *first++`. -/
def copy_loop {α : Type} : Block α → Nat → Nat → Nat → Option (Block α)
  | b, _, 0, _ => some b
  | b, first, count + 1, d_first =>
    match obj b first with
    | some x =>
      match assign_at b d_first x with
      | some b1 => copy_loop b1 (first + 1) count (d_first + 1)
      | none => none
    | none => none

/-- The call `std::copy(b + first, b + last, b + d_first)`. -/
def std_copy {α : Type} (b : Block α) (first last d_first : Nat) : Option (Block α) :=
  if first ≤ last then copy_loop b first (last - first) d_first else none

/-- The copy-assignment branch of `Erase` as the specification words it, not as the code has
it: every element after the target is copy-assigned one slot toward the front, the last slot
is destroyed, the size is decremented, and the iterator to the removed position is
returned. -/
def Erase_copy_as_specified {α : Type} (v : Vector α) (pos : Nat) : Option (Nat × Vector α) :=
  match std_copy v.data_.cells (pos + 1) v.size_ pos with
  | none => none
  | some b1 =>
    match ptr_sub v.size_ 1 with
    | none => none
    | some e1 =>
      match destroy_at b1 e1 with
      | none => none
      | some b2 => some (pos, { data_ := v.data_.store b2, size_ := v.size_ - 1 })

end Vector

/-! ## Requests the caller chooses: the byte count in `size_t`

`Reserve`, `Resize` and `Vector(size)` hand a number chosen by the caller to
`RawMemory::Allocate`, which multiplies it by `sizeof(T)` in `size_t` without a check. The
definitions of this section carry `sizeof(T)` and compute the byte count modulo `2 ^ 64`. The
other operations request the size of an existing block or twice that size; for them the
product is taken as it is (`RawMemory.Allocate`). -/

/-- `RawMemory::Allocate(n)` with the byte count `n * sizeof(T)` computed in the 64-bit
`size_t` (vector.h 49): `operator new` is asked for the wrapped product, and the block it
returns has room for as many objects of `sizeof_T` bytes as fit into that many bytes. -/
def RawMemory.Allocate_sized {α : Type} (sizeof_T n : Nat) : Option (Block α) :=
  if n ≠ 0 then some (List.replicate (n * sizeof_T % 2 ^ 64 / sizeof_T) none) else none

/-- `RawMemory(size_t capacity)` with the byte count computed in `size_t`: `capacity_` is the
number asked for, whatever the block holds. -/
def RawMemory.ctor_sized {α : Type} (sizeof_T capacity : Nat) : RawMemory α :=
  { buffer_ := RawMemory.Allocate_sized sizeof_T capacity, capacity_ := capacity }

namespace Vector

/-- `Vector::Reserve` with the byte count of the request computed in `size_t`. The result is
the vector afterwards and, when elements were relocated, the old block as `CopyOrMoveN` left
it (vector.h 282), before `std::destroy_n` runs on it and it is released. -/
def Reserve_sized {α : Type} (E : ElemTraits α) (sizeof_T : Nat) (v : Vector α)
    (new_capacity : Nat) : Option (Vector α × Option (Block α)) :=
  if new_capacity > v.data_.Capacity then
    let new_data : RawMemory α := RawMemory.ctor_sized sizeof_T new_capacity
    match CopyOrMoveN E v.data_.cells 0 v.size_ new_data.cells 0 with
    | some (old1, new1) =>
      match destroy_n old1 0 v.size_ with
      | some old2 =>
        let sw := RawMemory.Swap (v.data_.store old2) (new_data.store new1)
        some ({ data_ := sw.1, size_ := v.size_ }, some old1)
      | none => none
    | none => none
  else some (v, none)

/-- `Vector::Resize` with the byte count of the request computed in `size_t`. -/
def Resize_sized {α : Type} (E : ElemTraits α) (sizeof_T : Nat) (v : Vector α)
    (new_size : Nat) : Option (Vector α) :=
  if new_size < v.size_ then
    match destroy_n v.data_.cells new_size (v.size_ - new_size) with
    | some b => some { data_ := v.data_.store b, size_ := new_size }
    | none => none
  else
    match Reserve_sized E sizeof_T v new_size with
    | some (v1, _) =>
      match uninitialized_value_construct_n E v1.data_.cells v1.size_ (new_size - v1.size_) with
      | some b => some { data_ := v1.data_.store b, size_ := new_size }
      | none => none
    | none => none

/-! ## The old block after a relocation

`PushBack`, `EmplaceBack` and the growing branch of `Emplace` once more, each returning in
addition the old block as the calls of `CopyOrMoveN` left it, before `std::destroy_n` runs on
it and it is released (`none` on the branch that relocates nothing). -/

/-- `Vector::PushBack` together with the old block as `CopyOrMoveN` left it (vector.h 307). -/
def PushBack_with_old {α : Type} (E : ElemTraits α) (v : Vector α) (value : Arg α)
    (is_rvalue : Bool) : Option (Vector α × Option (Block α)) :=
  if v.size_ = v.Capacity then
    let new_data : RawMemory α := RawMemory.ctor (if v.size_ = 0 then 1 else 2 * v.size_)
    match CopyOrMoveN E v.data_.cells 0 v.size_ new_data.cells 0 with
    | some (old1, new1) =>
      match value.read old1 with
      | some x =>
        match TryPush E new1 v.size_ x is_rvalue with
        | some (new2, true) =>
          match destroy_n (value.consumed E is_rvalue old1) 0 v.size_ with
          | some old2 =>
            let sw := RawMemory.Swap (v.data_.store old2) (new_data.store new2)
            some ({ data_ := sw.1, size_ := v.size_ + 1 }, some old1)
          | none => none
        | some (_, false) => some ({ data_ := v.data_.store old1, size_ := v.size_ }, some old1)
        | none => none
      | none => none
    | none => none
  else
    match value.read v.data_.cells with
    | some x =>
      match TryPush E v.data_.cells v.size_ x is_rvalue with
      | some (b, true) =>
        some ({ data_ := v.data_.store (value.consumed E is_rvalue b), size_ := v.size_ + 1 },
          none)
      | some (b, false) => some ({ data_ := v.data_.store b, size_ := v.size_ }, none)
      | none => none
    | none => none

/-- `Vector::EmplaceBack` together with the old block as `CopyOrMoveN` left it
(vector.h 325). -/
def EmplaceBack_with_old {α : Type} (E : ElemTraits α) (v : Vector α) (args : Arg α) :
    Option ((Nat × Vector α) × Option (Block α)) :=
  let r : Option (Vector α × Option (Block α)) :=
    if v.size_ = v.Capacity then
      let new_data : RawMemory α := RawMemory.ctor (if v.size_ = 0 then 1 else 2 * v.size_)
      match CopyOrMoveN E v.data_.cells 0 v.size_ new_data.cells 0 with
      | some (old1, new1) =>
        match args.made E old1 with
        | some value =>
          match construct_at new1 v.size_ value with
          | some new2 =>
            match destroy_n old1 0 v.size_ with
            | some old2 =>
              let sw := RawMemory.Swap (v.data_.store old2) (new_data.store new2)
              some ({ data_ := sw.1, size_ := v.size_ + 1 }, some old1)
            | none => none
          | none => none
        | none => none
      | none => none
    else
      match args.made E v.data_.cells with
      | some value =>
        match construct_at v.data_.cells v.size_ value with
        | some b => some ({ data_ := v.data_.store b, size_ := v.size_ + 1 }, none)
        | none => none
      | none => none
  match r with
  | some (v1, old) =>
    match v1.data_.index (v1.size_ - 1) with
    | some i => some ((i, v1), old)
    | none => none
  | none => none

/-- The growing branch of `Vector::Emplace` (vector.h 359-369, taken when
`size_ == Capacity()`) together with the old block as the two calls of `CopyOrMoveN` left
it. -/
def Emplace_growing_with_old {α : Type} (E : ElemTraits α) (v : Vector α) (pos : Nat)
    (value : α) : Option ((Nat × Vector α) × Block α) :=
  let cp_pos := pos
  match ptr_sub v.size_ pos with
  | none => none
  | some cp_length =>
    let new_data : RawMemory α := RawMemory.ctor (if v.size_ = 0 then 1 else 2 * v.size_)
    match construct_at new_data.cells cp_pos value with
    | some new1 =>
      match CopyOrMoveN E v.data_.cells 0 cp_pos new1 0 with
      | some (old1, new2) =>
        match new_data.plus cp_pos with
        | some d =>
          match CopyOrMoveN E old1 cp_pos cp_length new2 (d + 1) with
          | some (old2, new3) =>
            match destroy_n old2 0 v.size_ with
            | some old3 =>
              let sw := RawMemory.Swap (v.data_.store old3) (new_data.store new3)
              some ((cp_pos, { data_ := sw.1, size_ := v.size_ + 1 }), old2)
            | none => none
          | none => none
        | none => none
      | none => none
    | none => none

/-! ## The steps of the insertion without growth and of `Erase` -/

end Vector

/-! ## Slots and single-slot operations -/


theorem obj_eq_some_iff {α : Type} (b : Block α) (i : Nat) (x : α) :
    obj b i = some x ↔ b[i]? = some (some x) := by
  unfold obj
  split
  · next y h => simp [h]
  · next h =>
    constructor
    · intro h1; cases h1
    · intro h1; exact absurd h1 (h x)

theorem obj_congr {α : Type} {b d : Block α} {i j : Nat} (h : b[i]? = d[j]?) :
    obj b i = obj d j := by
  unfold obj
  rw [h]

theorem obj_lt_length {α : Type} {b : Block α} {i : Nat} (h : (obj b i).isSome = true) :
    i < b.length := by
  rcases Option.isSome_iff_exists.mp h with ⟨x, hx⟩
  rw [obj_eq_some_iff] at hx
  by_contra hc
  rw [List.getElem?_eq_none (by omega)] at hx
  cases hx

theorem obj_set {α : Type} (b : Block α) (i j : Nat) (s : Slot α) :
    obj (b.set i s) j = if i = j then (if i < b.length then s else none) else obj b j := by
  unfold obj
  rw [List.getElem?_set]
  by_cases hij : i = j
  · subst hij
    by_cases hl : i < b.length
    · simp only [if_true, hl]
      cases s <;> rfl
    · simp [hl]
  · simp [hij]

theorem construct_at_eq {α : Type} {b : Block α} {i : Nat} (x : α) (h : i < b.length) :
    construct_at b i x = some (b.set i (some x)) := by
  simp [construct_at, h]

theorem assign_at_eq {α : Type} {b : Block α} {i : Nat} (x : α)
    (h : (obj b i).isSome = true) : assign_at b i x = some (b.set i (some x)) := by
  rcases Option.isSome_iff_exists.mp h with ⟨y, hy⟩
  simp [assign_at, hy]

theorem destroy_at_eq {α : Type} {b : Block α} {i : Nat}
    (h : (obj b i).isSome = true) : destroy_at b i = some (b.set i none) := by
  rcases Option.isSome_iff_exists.mp h with ⟨y, hy⟩
  simp [destroy_at, hy]

/-! ## The loops of the standard algorithms -/

theorem destroy_n_spec {α : Type} (count : Nat) : ∀ (b : Block α) (first : Nat),
    (∀ i, first ≤ i → i < first + count → (obj b i).isSome = true) →
    ∃ b1, destroy_n b first count = some b1 ∧ b1.length = b.length ∧
      ∀ j, b1[j]? = if first ≤ j ∧ j < first + count then some none else b[j]? := by
  induction count with
  | zero =>
    intro b first _
    exact ⟨b, rfl, rfl, fun j => by rw [if_neg (by omega)]⟩
  | succ n ih =>
    intro b first h
    have h0 : (obj b first).isSome = true := h first (Nat.le_refl _) (by omega)
    have hlt := obj_lt_length h0
    have hstep : ∀ i, first + 1 ≤ i → i < first + 1 + n →
        (obj (b.set first none) i).isSome = true := by
      intro i h1 h2
      rw [obj_set, if_neg (by omega)]
      exact h i (by omega) (by omega)
    obtain ⟨b1, e1, l1, p1⟩ := ih (b.set first none) (first + 1) hstep
    refine ⟨b1, ?_, ?_, ?_⟩
    · simp only [destroy_n, destroy_at_eq h0]
      exact e1
    · rw [l1, List.length_set]
    · intro j
      rw [p1 j, List.getElem?_set]
      by_cases hj : first = j
      · subst hj
        simp [hlt]
      · by_cases hj2 : first + 1 ≤ j ∧ j < first + 1 + n
        · rw [if_pos hj2, if_pos (by omega)]
        · rw [if_neg hj2, if_neg hj, if_neg (by omega)]

theorem uninitialized_value_construct_n_spec {α : Type} (E : ElemTraits α) (count : Nat) :
    ∀ (b : Block α) (first : Nat), first + count ≤ b.length →
    ∃ b1, uninitialized_value_construct_n E b first count = some b1 ∧ b1.length = b.length ∧
      ∀ j, b1[j]? = if first ≤ j ∧ j < first + count then some (some E.value_init)
        else b[j]? := by
  induction count with
  | zero =>
    intro b first _
    exact ⟨b, rfl, rfl, fun j => by rw [if_neg (by omega)]⟩
  | succ n ih =>
    intro b first h
    have hlt : first < b.length := by omega
    obtain ⟨b1, e1, l1, p1⟩ := ih (b.set first (some E.value_init)) (first + 1)
      (by rw [List.length_set]; omega)
    refine ⟨b1, ?_, ?_, ?_⟩
    · simp only [uninitialized_value_construct_n, construct_at_eq _ hlt]
      exact e1
    · rw [l1, List.length_set]
    · intro j
      rw [p1 j, List.getElem?_set]
      by_cases hj : first = j
      · subst hj
        simp [hlt]
      · by_cases hj2 : first + 1 ≤ j ∧ j < first + 1 + n
        · rw [if_pos hj2, if_pos (by omega)]
        · rw [if_neg hj2, if_neg hj, if_neg (by omega)]

theorem uninitialized_copy_n_spec {α : Type} (src : Block α) (count : Nat) :
    ∀ (first : Nat) (dst : Block α) (d_first : Nat),
    (∀ i, first ≤ i → i < first + count → (obj src i).isSome = true) →
    d_first + count ≤ dst.length →
    ∃ dst1, uninitialized_copy_n src first count dst d_first = some dst1 ∧
      dst1.length = dst.length ∧
      ∀ j, dst1[j]? = if d_first ≤ j ∧ j < d_first + count then src[first + (j - d_first)]?
        else dst[j]? := by
  induction count with
  | zero =>
    intro first dst d_first _ _
    exact ⟨dst, rfl, rfl, fun j => by rw [if_neg (by omega)]⟩
  | succ n ih =>
    intro first dst d_first h hd
    have h0 : (obj src first).isSome = true := h first (Nat.le_refl _) (by omega)
    rcases Option.isSome_iff_exists.mp h0 with ⟨x, hx⟩
    have hlt : d_first < dst.length := by omega
    obtain ⟨b1, e1, l1, p1⟩ := ih (first + 1) (dst.set d_first (some x)) (d_first + 1)
      (fun i h1 h2 => h i (by omega) (by omega)) (by rw [List.length_set]; omega)
    refine ⟨b1, ?_, ?_, ?_⟩
    · simp only [uninitialized_copy_n, hx, construct_at_eq _ hlt]
      exact e1
    · rw [l1, List.length_set]
    · intro j
      rw [p1 j, List.getElem?_set]
      by_cases hj : d_first = j
      · subst hj
        simp [hlt, (obj_eq_some_iff src first x).mp hx]
      · by_cases hj2 : d_first + 1 ≤ j ∧ j < d_first + 1 + n
        · rw [if_pos hj2, if_pos (by omega)]
          congr 1
          omega
        · rw [if_neg hj2, if_neg hj, if_neg (by omega)]

theorem uninitialized_move_n_spec {α : Type} (E : ElemTraits α) (count : Nat) :
    ∀ (src : Block α) (first : Nat) (dst : Block α) (d_first : Nat),
    (∀ i, first ≤ i → i < first + count → (obj src i).isSome = true) →
    d_first + count ≤ dst.length →
    ∃ src1 dst1, uninitialized_move_n E src first count dst d_first = some (src1, dst1) ∧
      src1.length = src.length ∧ dst1.length = dst.length ∧
      (∀ j, src1[j]? = if first ≤ j ∧ j < first + count
        then some ((obj src j).map E.moved_from) else src[j]?) ∧
      ∀ j, dst1[j]? = if d_first ≤ j ∧ j < d_first + count then src[first + (j - d_first)]?
        else dst[j]? := by
  induction count with
  | zero =>
    intro src first dst d_first _ _
    exact ⟨src, dst, rfl, rfl, rfl, fun j => by rw [if_neg (by omega)],
      fun j => by rw [if_neg (by omega)]⟩
  | succ n ih =>
    intro src first dst d_first h hd
    have h0 : (obj src first).isSome = true := h first (Nat.le_refl _) (by omega)
    rcases Option.isSome_iff_exists.mp h0 with ⟨x, hx⟩
    have hs := obj_lt_length h0
    have hlt : d_first < dst.length := by omega
    have hstep : ∀ i, first + 1 ≤ i → i < first + 1 + n →
        (obj (src.set first (some (E.moved_from x))) i).isSome = true := by
      intro i h1 h2
      rw [obj_set, if_neg (by omega)]
      exact h i (by omega) (by omega)
    obtain ⟨s1, b1, e1, ls, l1, ps, p1⟩ := ih (src.set first (some (E.moved_from x)))
      (first + 1) (dst.set d_first (some x)) (d_first + 1) hstep
      (by rw [List.length_set]; omega)
    refine ⟨s1, b1, ?_, ?_, ?_, ?_, ?_⟩
    · simp only [uninitialized_move_n, hx, construct_at_eq _ hlt]
      exact e1
    · rw [ls, List.length_set]
    · rw [l1, List.length_set]
    · intro j
      rw [ps j]
      by_cases hj : first = j
      · subst hj
        rw [if_neg (by omega), if_pos (by omega), List.getElem?_set, if_pos rfl, if_pos hs, hx]
        rfl
      · by_cases hj2 : first + 1 ≤ j ∧ j < first + 1 + n
        · rw [if_pos hj2, if_pos (by omega), obj_set, if_neg hj]
        · rw [if_neg hj2, List.getElem?_set, if_neg hj, if_neg (by omega)]
    · intro j
      rw [p1 j]
      by_cases hj : d_first = j
      · subst hj
        rw [if_neg (by omega), if_pos (by omega), List.getElem?_set, if_pos rfl, if_pos hlt,
          Nat.sub_self, Nat.add_zero, (obj_eq_some_iff src first x).mp hx]
      · by_cases hj2 : d_first + 1 ≤ j ∧ j < d_first + 1 + n
        · rw [if_pos hj2, if_pos (by omega), List.getElem?_set, if_neg (by omega)]
          congr 1
          omega
        · rw [if_neg hj2, List.getElem?_set, if_neg hj, if_neg (by omega)]

theorem obj_of_getElem {α : Type} {b : Block α} {i : Nat} {s : Slot α} (h : b[i]? = some s) :
    obj b i = s := by
  unfold obj
  rw [h]
  cases s <;> rfl

theorem move_loop_spec {α : Type} (E : ElemTraits α) (count : Nat) :
    ∀ (b : Block α) (first d_first : Nat), first = d_first + 1 →
    (∀ i, d_first ≤ i → i ≤ d_first + count → (obj b i).isSome = true) →
    ∃ b1, move_loop E b first count d_first = some b1 ∧ b1.length = b.length ∧
      (∀ j, d_first ≤ j → j < d_first + count → b1[j]? = b[j + 1]?) ∧
      (∀ j, j < d_first ∨ d_first + count < j → b1[j]? = b[j]?) ∧
      (obj b1 (d_first + count)).isSome = true := by
  induction count with
  | zero =>
    intro b first d_first _ h
    exact ⟨b, rfl, rfl, fun j h1 h2 => by omega, fun j _ => rfl,
      h _ (Nat.le_refl _) (Nat.le_refl _)⟩
  | succ n ih =>
    intro b first d_first hf h
    subst hf
    have h0 : (obj b (d_first + 1)).isSome = true := h _ (by omega) (by omega)
    have hd : (obj b d_first).isSome = true := h _ (by omega) (by omega)
    rcases Option.isSome_iff_exists.mp h0 with ⟨x, hx⟩
    have hl0 := obj_lt_length h0
    have hstep : ∀ i, d_first + 1 ≤ i → i ≤ d_first + 1 + n →
        (obj ((b.set d_first (some x)).set (d_first + 1) (some (E.moved_from x))) i).isSome
          = true := by
      intro i h1 h2
      rw [obj_set, obj_set, List.length_set]
      by_cases hi : d_first + 1 = i
      · rw [if_pos hi, if_pos hl0]; rfl
      · rw [if_neg hi, if_neg (by omega)]
        exact h i (by omega) (by omega)
    obtain ⟨b1, e1, l1, p1, q1, r1⟩ := ih _ (d_first + 1 + 1) (d_first + 1) rfl hstep
    refine ⟨b1, ?_, ?_, ?_, ?_, ?_⟩
    · simp only [move_loop, hx, assign_at_eq _ hd]
      exact e1
    · rw [l1, List.length_set, List.length_set]
    · intro j h1 h2
      by_cases hj : j = d_first
      · subst hj
        rw [q1 j (Or.inl (by omega)), List.getElem?_set, if_neg (by omega), List.getElem?_set,
          if_pos rfl, if_pos (by omega), (obj_eq_some_iff b _ x).mp hx]
      · rw [p1 j (by omega) (by omega), List.getElem?_set, if_neg (by omega), List.getElem?_set,
          if_neg (by omega)]
    · intro j hj
      rw [q1 j (by omega), List.getElem?_set, if_neg (by omega), List.getElem?_set,
        if_neg (by omega)]
    · have : d_first + (n + 1) = d_first + 1 + n := by omega
      rw [this]
      exact r1

theorem move_backward_loop_spec {α : Type} (E : ElemTraits α) (count : Nat) :
    ∀ (b : Block α) (last d_last : Nat), d_last = last + 1 → count ≤ last →
    (∀ i, last - count ≤ i → i ≤ last → (obj b i).isSome = true) →
    ∃ b1, move_backward_loop E b count last d_last = some b1 ∧ b1.length = b.length ∧
      (∀ j, last - count < j → j ≤ last → b1[j]? = b[j - 1]?) ∧
      (∀ j, j < last - count ∨ last < j → b1[j]? = b[j]?) ∧
      (obj b1 (last - count)).isSome = true := by
  induction count with
  | zero =>
    intro b last d_last _ _ h
    exact ⟨b, rfl, rfl, fun j h1 h2 => by omega, fun j _ => rfl,
      h _ (Nat.le_refl _) (by omega)⟩
  | succ n ih =>
    intro b last d_last hf hc h
    subst hf
    have h0 : (obj b (last - 1)).isSome = true := h _ (by omega) (by omega)
    have hd : (obj b last).isSome = true := h _ (by omega) (by omega)
    rcases Option.isSome_iff_exists.mp h0 with ⟨x, hx⟩
    have hl0 := obj_lt_length h0
    have hstep : ∀ i, last - 1 - n ≤ i → i ≤ last - 1 →
        (obj ((b.set last (some x)).set (last - 1) (some (E.moved_from x))) i).isSome
          = true := by
      intro i h1 h2
      rw [obj_set, obj_set, List.length_set]
      by_cases hi : last - 1 = i
      · rw [if_pos hi, if_pos hl0]; rfl
      · rw [if_neg hi, if_neg (by omega)]
        exact h i (by omega) (by omega)
    obtain ⟨b1, e1, l1, p1, q1, r1⟩ := ih _ (last - 1) last (by omega) (by omega) hstep
    have hp1 : ptr_sub last 1 = some (last - 1) := by simp [ptr_sub]; omega
    have hp2 : ptr_sub (last + 1) 1 = some last := by simp [ptr_sub]
    refine ⟨b1, ?_, ?_, ?_, ?_, ?_⟩
    · simp only [move_backward_loop, hp1, hp2, hx, assign_at_eq _ hd]
      exact e1
    · rw [l1, List.length_set, List.length_set]
    · intro j h1 h2
      by_cases hj : j = last
      · subst hj
        rw [q1 j (Or.inr (by omega)), List.getElem?_set, if_neg (by omega), List.getElem?_set,
          if_pos rfl, if_pos (obj_lt_length hd), (obj_eq_some_iff b _ x).mp hx]
      · rw [p1 j (by omega) (by omega), List.getElem?_set, if_neg (by omega), List.getElem?_set,
          if_neg (by omega)]
    · intro j hj
      rw [q1 j (by omega), List.getElem?_set, if_neg (by omega), List.getElem?_set,
        if_neg (by omega)]
    · have : last - (n + 1) = last - 1 - n := by omega
      rw [this]
      exact r1

theorem copy_backward_loop_spec {α : Type} (count : Nat) :
    ∀ (b : Block α) (last d_last : Nat), d_last = last + 1 → count ≤ last →
    (∀ i, last - count ≤ i → i ≤ last → (obj b i).isSome = true) →
    ∃ b1, copy_backward_loop b count last d_last = some b1 ∧ b1.length = b.length ∧
      (∀ j, last - count < j → j ≤ last → b1[j]? = b[j - 1]?) ∧
      (∀ j, j < last - count ∨ last < j → b1[j]? = b[j]?) ∧
      (obj b1 (last - count)).isSome = true := by
  induction count with
  | zero =>
    intro b last d_last _ _ h
    exact ⟨b, rfl, rfl, fun j h1 h2 => by omega, fun j _ => rfl,
      h _ (Nat.le_refl _) (by omega)⟩
  | succ n ih =>
    intro b last d_last hf hc h
    subst hf
    have h0 : (obj b (last - 1)).isSome = true := h _ (by omega) (by omega)
    have hd : (obj b last).isSome = true := h _ (by omega) (by omega)
    rcases Option.isSome_iff_exists.mp h0 with ⟨x, hx⟩
    have hstep : ∀ i, last - 1 - n ≤ i → i ≤ last - 1 →
        (obj (b.set last (some x)) i).isSome = true := by
      intro i h1 h2
      rw [obj_set, if_neg (by omega)]
      exact h i (by omega) (by omega)
    obtain ⟨b1, e1, l1, p1, q1, r1⟩ := ih _ (last - 1) last (by omega) (by omega) hstep
    have hp1 : ptr_sub last 1 = some (last - 1) := by simp [ptr_sub]; omega
    have hp2 : ptr_sub (last + 1) 1 = some last := by simp [ptr_sub]
    refine ⟨b1, ?_, ?_, ?_, ?_, ?_⟩
    · simp only [copy_backward_loop, hp1, hp2, hx, assign_at_eq _ hd]
      exact e1
    · rw [l1, List.length_set]
    · intro j h1 h2
      by_cases hj : j = last
      · subst hj
        rw [q1 j (Or.inr (by omega)), List.getElem?_set, if_pos rfl, if_pos (obj_lt_length hd),
          (obj_eq_some_iff b _ x).mp hx]
      · rw [p1 j (by omega) (by omega), List.getElem?_set, if_neg (by omega)]
    · intro j hj
      rw [q1 j (by omega), List.getElem?_set, if_neg (by omega)]
    · have : last - (n + 1) = last - 1 - n := by omega
      rw [this]
      exact r1

theorem assign_loop_spec {α : Type} (data_ rhs_data : RawMemory α) (count : Nat) :
    ∀ (b : Block α) (i : Nat), i + count ≤ data_.capacity_ → i + count ≤ rhs_data.capacity_ →
    (∀ j, i ≤ j → j < i + count →
      (obj rhs_data.cells j).isSome = true ∧ (obj b j).isSome = true) →
    ∃ b1, Vector.assign_loop data_ rhs_data b i count = some b1 ∧ b1.length = b.length ∧
      ∀ j, b1[j]? = if i ≤ j ∧ j < i + count then rhs_data.cells[j]? else b[j]? := by
  induction count with
  | zero =>
    intro b i _ _ _
    exact ⟨b, rfl, rfl, fun j => by rw [if_neg (by omega)]⟩
  | succ n ih =>
    intro b i hc1 hc2 h
    obtain ⟨hr, hb⟩ := h i (Nat.le_refl _) (by omega)
    rcases Option.isSome_iff_exists.mp hr with ⟨x, hx⟩
    have hstep : ∀ j, i + 1 ≤ j → j < i + 1 + n →
        (obj rhs_data.cells j).isSome = true ∧ (obj (b.set i (some x)) j).isSome = true := by
      intro j h1 h2
      rw [obj_set, if_neg (by omega)]
      exact h j (by omega) (by omega)
    obtain ⟨b1, e1, l1, p1⟩ := ih (b.set i (some x)) (i + 1) (by omega) (by omega) hstep
    have hi1 : rhs_data.index i = some i := by simp [RawMemory.index]; omega
    have hi2 : data_.index i = some i := by simp [RawMemory.index]; omega
    refine ⟨b1, ?_, ?_, ?_⟩
    · simp only [Vector.assign_loop, hi1, hi2, hx, assign_at_eq _ hb]
      exact e1
    · rw [l1, List.length_set]
    · intro j
      rw [p1 j]
      by_cases hj : i = j
      · subst hj
        rw [if_neg (by omega), if_pos (by omega), List.getElem?_set, if_pos rfl,
          if_pos (obj_lt_length hb), (obj_eq_some_iff _ _ x).mp hx]
      · by_cases hj2 : i + 1 ≤ j ∧ j < i + 1 + n
        · rw [if_pos hj2, if_pos (by omega)]
        · rw [if_neg hj2, List.getElem?_set, if_neg hj, if_neg (by omega)]

/-! ## The private helpers of `Vector` -/

theorem CopyOrMoveN_spec {α : Type} (E : ElemTraits α) (src : Block α) (first size : Nat)
    (dst : Block α) (d_first : Nat)
    (h : ∀ i, first ≤ i → i < first + size → (obj src i).isSome = true)
    (hd : d_first + size ≤ dst.length) :
    ∃ src1 dst1, Vector.CopyOrMoveN E src first size dst d_first = some (src1, dst1) ∧
      src1.length = src.length ∧ dst1.length = dst.length ∧
      (∀ j, (obj src1 j).isSome = (obj src j).isSome) ∧
      (∀ j, ¬(first ≤ j ∧ j < first + size) → src1[j]? = src[j]?) ∧
      ∀ j, dst1[j]? = if d_first ≤ j ∧ j < d_first + size then src[first + (j - d_first)]?
        else dst[j]? := by
  unfold Vector.CopyOrMoveN
  split
  · obtain ⟨s1, d1, e, ls, ld, ps, pd⟩ := uninitialized_move_n_spec E size src first dst d_first h hd
    refine ⟨s1, d1, e, ls, ld, ?_, ?_, pd⟩
    · intro j
      by_cases hj : first ≤ j ∧ j < first + size
      · have := ps j
        rw [if_pos hj] at this
        rw [obj_of_getElem this, Option.isSome_map']
      · have := ps j
        rw [if_neg hj] at this
        rw [obj_congr this]
    · intro j hj
      rw [ps j, if_neg hj]
  · obtain ⟨d1, e, ld, pd⟩ := uninitialized_copy_n_spec src size first dst d_first h hd
    exact ⟨src, d1, by rw [e], rfl, ld, fun _ => rfl, fun _ _ => rfl, pd⟩

theorem CopyOrMove_spec {α : Type} (E : ElemTraits α) (b : Block α) (data new_data : Nat)
    (hne : data ≠ new_data) (h : (obj b data).isSome = true) (hd : new_data < b.length) :
    ∃ b1, Vector.CopyOrMove E b data new_data = some b1 ∧ b1.length = b.length ∧
      b1[new_data]? = b[data]? ∧ (obj b1 data).isSome = true ∧
      ∀ j, j ≠ data → j ≠ new_data → b1[j]? = b[j]? := by
  rcases Option.isSome_iff_exists.mp h with ⟨x, hx⟩
  have hg := (obj_eq_some_iff b data x).mp hx
  have hl := obj_lt_length h
  unfold Vector.CopyOrMove
  split
  · refine ⟨(b.set new_data (some x)).set data (some (E.moved_from x)), ?_, ?_, ?_, ?_, ?_⟩
    · simp [uninitialized_move_1, hx, construct_at_eq _ hd]
    · rw [List.length_set, List.length_set]
    · rw [List.getElem?_set, if_neg hne, List.getElem?_set, if_pos rfl, if_pos hd, hg]
    · rw [obj_set, if_pos rfl, List.length_set, if_pos hl]; rfl
    · intro j h1 h2
      rw [List.getElem?_set, if_neg (Ne.symm h1), List.getElem?_set, if_neg (Ne.symm h2)]
  · refine ⟨b.set new_data (some x), ?_, ?_, ?_, ?_, ?_⟩
    · simp [uninitialized_copy_1, hx, construct_at_eq _ hd]
    · rw [List.length_set]
    · rw [List.getElem?_set, if_pos rfl, if_pos hd, hg]
    · rw [obj_set, if_neg (Ne.symm hne)]; exact h
    · intro j _ h2
      rw [List.getElem?_set, if_neg (Ne.symm h2)]

/-! ## `RawMemory` -/

theorem RawMemory.ctor_capacity {α : Type} (n : Nat) :
    (RawMemory.ctor n : RawMemory α).capacity_ = n := rfl

theorem RawMemory.ctor_cells {α : Type} (n : Nat) :
    (RawMemory.ctor n : RawMemory α).cells = List.replicate n none := by
  unfold RawMemory.ctor RawMemory.cells RawMemory.Allocate
  by_cases h : n = 0
  · subst h; rfl
  · simp [h]

theorem RawMemory.ctor_store {α : Type} (n : Nat) (h : n ≠ 0) (b : Block α) :
    (RawMemory.ctor n : RawMemory α).store b = { buffer_ := some b, capacity_ := n } := by
  unfold RawMemory.ctor RawMemory.store RawMemory.Allocate
  simp [h]

theorem RawMemory.ctor_isNone {α : Type} (n : Nat) :
    ((RawMemory.ctor n : RawMemory α).buffer_.isNone = true ↔ n = 0) := by
  unfold RawMemory.ctor RawMemory.Allocate
  by_cases h : n = 0 <;> simp [h]

theorem RawMemory.store_capacity {α : Type} (m : RawMemory α) (b : Block α) :
    (m.store b).capacity_ = m.capacity_ := by
  unfold RawMemory.store
  cases m.buffer_ <;> rfl

theorem RawMemory.store_isNone {α : Type} (m : RawMemory α) (b : Block α) :
    (m.store b).buffer_.isNone = m.buffer_.isNone := by
  unfold RawMemory.store
  cases h : m.buffer_ <;> simp [h]

theorem RawMemory.store_cells {α : Type} (m : RawMemory α) (b : Block α)
    (h : b.length = m.cells.length) : (m.store b).cells = b := by
  unfold RawMemory.store RawMemory.cells at *
  cases hb : m.buffer_ with
  | none =>
    rw [hb] at h
    simp only [hb]
    exact (List.length_eq_zero.mp h).symm
  | some b0 => rfl

/-! ## Well-formed vectors -/

theorem Vector.get_eq {α : Type} (v : Vector α) (h : v.size_ ≤ v.data_.capacity_) (i : Nat) :
    v.get i = if i < v.size_ then obj v.data_.cells i else none := by
  unfold Vector.get RawMemory.index
  by_cases hi : i < v.size_
  · rw [if_pos hi, if_pos hi, if_pos (by omega)]
  · rw [if_neg hi, if_neg hi]

theorem Vector.WF.get_isSome {α : Type} {v : Vector α} (h : v.WF) {i : Nat} (hi : i < v.size_) :
    (v.get i).isSome = true := by
  rw [Vector.get_eq v h.2.2.1, if_pos hi]
  exact h.2.2.2 i hi

/-- A vector assembled from a block: what has to be checked for the invariant. -/
theorem Vector.WF_mk {α : Type} (m : RawMemory α) (b : Block α) (n : Nat)
    (h1 : m.buffer_.isNone = true ↔ m.capacity_ = 0) (h2 : b.length = m.capacity_)
    (h3 : m.cells.length = m.capacity_) (h4 : n ≤ m.capacity_)
    (h5 : ∀ i, i < n → (obj b i).isSome = true) :
    (Vector.mk (m.store b) n).WF := by
  have hc : (m.store b).cells = b := RawMemory.store_cells m b (by rw [h2, h3])
  refine ⟨?_, ?_, ?_, ?_⟩
  · rw [RawMemory.store_isNone, RawMemory.store_capacity]; exact h1
  · rw [hc, RawMemory.store_capacity]; exact h2
  · rw [RawMemory.store_capacity]; exact h4
  · intro i hi
    show (obj (m.store b).cells i).isSome = true
    rw [hc]; exact h5 i hi

/-! ## `Reserve` and `Resize` -/

theorem Vector.Reserve_sound {α : Type} (E : ElemTraits α) (v : Vector α) (n : Nat)
    (h : v.WF) :
    ∃ v1, v.Reserve E n = some v1 ∧ v1.WF ∧ v1.data_.capacity_ = max v.data_.capacity_ n ∧
      v1.size_ = v.size_ ∧
      ∀ j, j < v.size_ → v1.data_.cells[j]? = v.data_.cells[j]? := by
  obtain ⟨hn, hl, hs, hlive⟩ := h
  unfold Vector.Reserve RawMemory.Capacity
  by_cases hg : n > v.data_.capacity_
  · rw [if_pos hg]
    have hn0 : n ≠ 0 := by omega
    obtain ⟨s1, d1, e, ls, ld, plive, _, pd⟩ := CopyOrMoveN_spec E v.data_.cells 0 v.size_
      (RawMemory.ctor n : RawMemory α).cells 0 (fun i _ hi => hlive i (by omega))
      (by rw [RawMemory.ctor_cells, List.length_replicate]; omega)
    obtain ⟨s2, e2, _, _⟩ := destroy_n_spec v.size_ s1 0
      (fun i _ hi => by rw [plive i]; exact hlive i (by omega))
    simp only [Nat.zero_le, true_and, Nat.zero_add, Nat.sub_zero] at pd
    refine ⟨{ data_ := (RawMemory.ctor n).store d1, size_ := v.size_ }, ?_, ?_, ?_, ?_, ?_⟩
    · simp only [e, e2, RawMemory.Swap]
    · rw [RawMemory.ctor_store n hn0]
      rw [RawMemory.ctor_cells, List.length_replicate] at ld
      refine ⟨by simp [hn0], ld, by show v.size_ ≤ n; omega, ?_⟩
      intro i (hi : i < v.size_)
      show (obj d1 i).isSome = true
      have := pd i
      rw [if_pos hi] at this
      rw [obj_congr this]
      exact hlive _ hi
    · rw [RawMemory.ctor_store n hn0]
      show n = max v.data_.capacity_ n
      omega
    · rfl
    · intro j hj
      rw [RawMemory.ctor_store n hn0]
      show d1[j]? = _
      rw [pd j, if_pos hj]
  · rw [if_neg hg]
    exact ⟨v, rfl, ⟨hn, hl, hs, hlive⟩, by omega, rfl, fun _ _ => rfl⟩

theorem Vector.Resize_sound {α : Type} (E : ElemTraits α) (v : Vector α) (n : Nat)
    (h : v.WF) :
    ∃ v1, v.Resize E n = some v1 ∧ v1.WF ∧ v1.data_.capacity_ = max v.data_.capacity_ n ∧
      v1.size_ = n ∧
      (∀ j, j < v.size_ → j < n → v1.data_.cells[j]? = v.data_.cells[j]?) ∧
      ∀ j, v.size_ ≤ j → j < n → v1.data_.cells[j]? = some (some E.value_init) := by
  unfold Vector.Resize
  by_cases hlt : n < v.size_
  · rw [if_pos hlt]
    obtain ⟨hn, hl, hs, hlive⟩ := h
    obtain ⟨b1, e1, l1, p1⟩ := destroy_n_spec (v.size_ - n) v.data_.cells n
      (fun i _ hi => hlive i (by omega))
    have hc : (v.data_.store b1).cells = b1 := RawMemory.store_cells _ _ l1
    refine ⟨{ data_ := v.data_.store b1, size_ := n }, by rw [e1], ?_, ?_, rfl, ?_, ?_⟩
    · refine Vector.WF_mk v.data_ b1 n hn (by rw [l1, hl]) hl (by omega) ?_
      intro i hi
      rw [obj_congr (show b1[i]? = v.data_.cells[i]? by rw [p1 i, if_neg (by omega)])]
      exact hlive i (by omega)
    · rw [RawMemory.store_capacity]; omega
    · intro j _ hj
      show (v.data_.store b1).cells[j]? = _
      rw [hc, p1 j, if_neg (by omega)]
    · intro j h1 h2
      omega
  · rw [if_neg hlt]
    obtain ⟨v1, e1, w1, c1, s1, p1⟩ := Vector.Reserve_sound E v n h
    obtain ⟨hn, hl, hs, hlive⟩ := w1
    obtain ⟨b2, e2, l2, p2⟩ := uninitialized_value_construct_n_spec E (n - v1.size_)
      v1.data_.cells v1.size_ (by rw [hl, c1, s1]; omega)
    have hc : (v1.data_.store b2).cells = b2 := RawMemory.store_cells _ _ l2
    refine ⟨{ data_ := v1.data_.store b2, size_ := n }, by rw [e1]; simp only [e2],
      ?_, ?_, rfl, ?_, ?_⟩
    · refine Vector.WF_mk v1.data_ b2 n hn (by rw [l2, hl]) hl (by rw [c1]; omega) ?_
      intro i hi
      by_cases hi2 : i < v1.size_
      · rw [obj_congr (show b2[i]? = v1.data_.cells[i]? by rw [p2 i, if_neg (by omega)])]
        exact hlive i hi2
      · rw [obj_of_getElem (show b2[i]? = some (some E.value_init) by
          rw [p2 i, if_pos (by omega)])]
        rfl
    · rw [RawMemory.store_capacity, c1]
    · intro j hj _
      show (v1.data_.store b2).cells[j]? = _
      rw [hc, p2 j, if_neg (by omega), p1 j hj]
    · intro j h1 h2
      show (v1.data_.store b2).cells[j]? = _
      rw [hc, p2 j, if_pos (by omega)]

/-! ## `Erase` -/

theorem Vector.Erase_sound {α : Type} (E : ElemTraits α) (v : Vector α) (k : Nat)
    (hE : E.is_nothrow_move_assignable = true) (h : v.WF) (hk : k < v.size_) :
    ∃ v1, v.Erase E k = some (k, v1) ∧ v1.WF ∧ v1.size_ = v.size_ - 1 ∧
      v1.data_.capacity_ = v.data_.capacity_ ∧
      (∀ j, j < k → v1.data_.cells[j]? = v.data_.cells[j]?) ∧
      ∀ j, k ≤ j → j + 1 < v.size_ → v1.data_.cells[j]? = v.data_.cells[j + 1]? := by
  obtain ⟨hn, hl, hs, hlive⟩ := h
  obtain ⟨b1, e1, l1, p1, q1, r1⟩ := move_loop_spec E (v.size_ - (k + 1)) v.data_.cells (k + 1) k
    rfl (fun i _ hi => hlive i (by omega))
  have hlast : k + (v.size_ - (k + 1)) = v.size_ - 1 := by omega
  rw [hlast] at r1 q1
  have hp : ptr_sub v.size_ 1 = some (v.size_ - 1) := by simp [ptr_sub]; omega
  have hc : (v.data_.store (b1.set (v.size_ - 1) none)).cells = b1.set (v.size_ - 1) none :=
    RawMemory.store_cells _ _ (by rw [List.length_set, l1])
  refine ⟨{ data_ := v.data_.store (b1.set (v.size_ - 1) none), size_ := v.size_ - 1 },
    ?_, ?_, rfl, ?_, ?_, ?_⟩
  · unfold Vector.Erase std_move
    simp only [hE, if_true, Nat.add_sub_cancel, if_pos (show k + 1 ≤ v.size_ by omega), e1, hp,
      destroy_at_eq r1]
  · refine Vector.WF_mk v.data_ _ _ hn (by rw [List.length_set, l1, hl]) hl (by omega) ?_
    intro i hi
    rw [obj_set, if_neg (by omega)]
    by_cases hik : i < k
    · rw [obj_congr (q1 i (Or.inl hik))]
      exact hlive i (by omega)
    · rw [obj_congr (p1 i (by omega) (by omega))]
      exact hlive _ (by omega)
  · rw [RawMemory.store_capacity]
  · intro j hj
    show (v.data_.store (b1.set (v.size_ - 1) none)).cells[j]? = _
    rw [hc, List.getElem?_set, if_neg (by omega), q1 j (Or.inl hj)]
  · intro j h1 h2
    show (v.data_.store (b1.set (v.size_ - 1) none)).cells[j]? = _
    rw [hc, List.getElem?_set, if_neg (by omega), p1 j h1 (by omega)]

/-! ## `PushBack` and `EmplaceBack` -/

/-- The common part of the two appending operations when `size_ == Capacity()`: the elements
are relocated into a block of the doubled capacity, the new element is constructed behind
them, and the old block is destroyed. -/
theorem Vector.grow_back {α : Type} (E : ElemTraits α) (v : Vector α) (x : α) (h : v.WF)
    (hfull : v.size_ = v.data_.capacity_) :
    ∃ old1 new1 old2,
      Vector.CopyOrMoveN E v.data_.cells 0 v.size_
        (RawMemory.ctor (if v.size_ = 0 then 1 else 2 * v.size_) : RawMemory α).cells 0
        = some (old1, new1) ∧
      v.size_ < new1.length ∧
      destroy_n old1 0 v.size_ = some old2 ∧
      let v1 : Vector α :=
        { data_ := (RawMemory.ctor (if v.size_ = 0 then 1 else 2 * v.size_)).store
            (new1.set v.size_ (some x)), size_ := v.size_ + 1 }
      v1.WF ∧ v1.data_.capacity_ = max 1 (2 * v.size_) ∧
      (∀ j, j < v.size_ → v1.data_.cells[j]? = v.data_.cells[j]?) ∧
      v1.data_.cells[v.size_]? = some (some x) := by
  obtain ⟨hn, hl, hs, hlive⟩ := h
  have hcap : (if v.size_ = 0 then 1 else 2 * v.size_) = max 1 (2 * v.size_) := by
    split <;> omega
  rw [hcap]
  have hn0 : max 1 (2 * v.size_) ≠ 0 := by omega
  obtain ⟨s1, d1, e, ls, ld, plive, _, pd⟩ := CopyOrMoveN_spec E v.data_.cells 0 v.size_
    (RawMemory.ctor (max 1 (2 * v.size_)) : RawMemory α).cells 0
    (fun i _ hi => hlive i (by omega))
    (by rw [RawMemory.ctor_cells, List.length_replicate]; omega)
  obtain ⟨s2, e2, _, _⟩ := destroy_n_spec v.size_ s1 0
    (fun i _ hi => by rw [plive i]; exact hlive i (by omega))
  simp only [Nat.zero_le, true_and, Nat.zero_add, Nat.sub_zero] at pd
  rw [RawMemory.ctor_cells, List.length_replicate] at ld
  have hlt : v.size_ < d1.length := by omega
  refine ⟨s1, d1, s2, e, hlt, e2, ?_⟩
  rw [RawMemory.ctor_store _ hn0]
  refine ⟨⟨by simp, by show (d1.set _ _).length = _; rw [List.length_set, ld],
    by show v.size_ + 1 ≤ max 1 (2 * v.size_); omega, ?_⟩, rfl, ?_, ?_⟩
  · intro i (hi : i < v.size_ + 1)
    show (obj (d1.set v.size_ (some x)) i).isSome = true
    rw [obj_set]
    by_cases hi2 : v.size_ = i
    · rw [if_pos hi2, if_pos hlt]; rfl
    · rw [if_neg hi2, obj_congr (show d1[i]? = v.data_.cells[i]? by
        rw [pd i, if_pos (by omega)])]
      exact hlive i (by omega)
  · intro j hj
    show (d1.set v.size_ (some x))[j]? = _
    rw [List.getElem?_set, if_neg (by omega), pd j, if_pos hj]
  · show (d1.set v.size_ (some x))[v.size_]? = _
    rw [List.getElem?_set, if_pos rfl, if_pos hlt]

/-- The common part of the two appending operations when `size_ < Capacity()`. -/
theorem Vector.fit_back {α : Type} (v : Vector α) (x : α) (h : v.WF)
    (hfit : v.size_ ≠ v.data_.capacity_) :
    v.size_ < v.data_.cells.length ∧
    let v1 : Vector α :=
      { data_ := v.data_.store (v.data_.cells.set v.size_ (some x)), size_ := v.size_ + 1 }
    v1.WF ∧ v1.data_.capacity_ = v.data_.capacity_ ∧
    (∀ j, j < v.size_ → v1.data_.cells[j]? = v.data_.cells[j]?) ∧
    v1.data_.cells[v.size_]? = some (some x) := by
  obtain ⟨hn, hl, hs, hlive⟩ := h
  have hlt : v.size_ < v.data_.cells.length := by omega
  have hc : (v.data_.store (v.data_.cells.set v.size_ (some x))).cells
      = v.data_.cells.set v.size_ (some x) :=
    RawMemory.store_cells _ _ (by rw [List.length_set])
  refine ⟨hlt, ?_, ?_, ?_, ?_⟩
  · refine Vector.WF_mk v.data_ _ _ hn (by rw [List.length_set, hl]) hl (by omega) ?_
    intro i hi
    rw [obj_set]
    by_cases hi2 : v.size_ = i
    · rw [if_pos hi2, if_pos hlt]; rfl
    · rw [if_neg hi2]
      exact hlive i (by omega)
  · exact RawMemory.store_capacity _ _
  · intro j hj
    show (v.data_.store _).cells[j]? = _
    rw [hc, List.getElem?_set, if_neg (by omega)]
  · show (v.data_.store _).cells[v.size_]? = _
    rw [hc, List.getElem?_set, if_pos rfl, if_pos hlt]

theorem Vector.TryPush_constructs {α : Type} (E : ElemTraits α) (b : Block α) (n : Nat) (x : α)
    (is_rvalue : Bool)
    (hctor : (if is_rvalue then E.is_move_constructible else E.is_copy_constructible) = true)
    (hlt : n < b.length) :
    Vector.TryPush E b n x is_rvalue = some (b.set n (some x), true) := by
  unfold Vector.TryPush
  cases is_rvalue <;> simp_all [construct_at_eq]

theorem Vector.PushBack_sound {α : Type} (E : ElemTraits α) (v : Vector α) (x : α)
    (is_rvalue : Bool) (h : v.WF)
    (hctor : (if is_rvalue then E.is_move_constructible else E.is_copy_constructible) = true) :
    ∃ v1, v.PushBack E (Arg.outside x) is_rvalue = some v1 ∧ v1.WF ∧ v1.size_ = v.size_ + 1 ∧
      v1.data_.capacity_ =
        (if v.size_ = v.data_.capacity_ then max 1 (2 * v.size_) else v.data_.capacity_) ∧
      (∀ j, j < v.size_ → v1.data_.cells[j]? = v.data_.cells[j]?) ∧
      v1.data_.cells[v.size_]? = some (some x) := by
  by_cases hfull : v.size_ = v.data_.capacity_
  · obtain ⟨old1, new1, old2, e1, hlt, e2, w, c, p, q⟩ := Vector.grow_back E v x h hfull
    refine ⟨_, ?_, w, rfl, by rw [if_pos hfull]; exact c, p, q⟩
    unfold Vector.PushBack Vector.Capacity RawMemory.Capacity
    simp only [if_pos hfull, e1, Arg.read, Arg.consumed,
      Vector.TryPush_constructs E new1 _ x is_rvalue hctor hlt, e2, RawMemory.Swap]
  · obtain ⟨hlt, w, c, p, q⟩ := Vector.fit_back v x h hfull
    refine ⟨_, ?_, w, rfl, by rw [if_neg hfull]; exact c, p, q⟩
    unfold Vector.PushBack Vector.Capacity RawMemory.Capacity
    simp only [if_neg hfull, Arg.read, Arg.consumed,
      Vector.TryPush_constructs E _ _ x is_rvalue hctor hlt]

theorem Vector.EmplaceBack_sound {α : Type} (E : ElemTraits α) (v : Vector α) (x : α)
    (h : v.WF) :
    ∃ v1, v.EmplaceBack E (Arg.outside x) = some (v.size_, v1) ∧ v1.WF ∧
      v1.size_ = v.size_ + 1 ∧
      v1.data_.capacity_ =
        (if v.size_ = v.data_.capacity_ then max 1 (2 * v.size_) else v.data_.capacity_) ∧
      (∀ j, j < v.size_ → v1.data_.cells[j]? = v.data_.cells[j]?) ∧
      v1.data_.cells[v.size_]? = some (some x) := by
  by_cases hfull : v.size_ = v.data_.capacity_
  · obtain ⟨old1, new1, old2, e1, hlt, e2, w, c, p, q⟩ := Vector.grow_back E v x h hfull
    refine ⟨_, ?_, w, rfl, by rw [if_pos hfull]; exact c, p, q⟩
    have hi : (RawMemory.index ((RawMemory.ctor (if v.size_ = 0 then 1 else 2 * v.size_)).store
        (new1.set v.size_ (some x))) (v.size_ + 1 - 1)) = some v.size_ := by
      have hw : v.size_ + 1 ≤ ((RawMemory.ctor (if v.size_ = 0 then 1 else 2 * v.size_)).store
        (new1.set v.size_ (some x))).capacity_ := w.2.2.1
      simp only [RawMemory.index, Nat.add_sub_cancel]
      rw [if_pos (by omega)]
    unfold Vector.EmplaceBack Vector.Capacity RawMemory.Capacity
    simp only [if_pos hfull, e1, Arg.made, construct_at_eq x hlt, e2, RawMemory.Swap, hi]
  · obtain ⟨hlt, w, c, p, q⟩ := Vector.fit_back v x h hfull
    refine ⟨_, ?_, w, rfl, by rw [if_neg hfull]; exact c, p, q⟩
    have hi : (RawMemory.index (v.data_.store (v.data_.cells.set v.size_ (some x)))
        (v.size_ + 1 - 1)) = some v.size_ := by
      have hw : v.size_ + 1 ≤ (v.data_.store (v.data_.cells.set v.size_ (some x))).capacity_ :=
        w.2.2.1
      simp only [RawMemory.index, Nat.add_sub_cancel]
      rw [if_pos (by omega)]
    unfold Vector.EmplaceBack Vector.Capacity RawMemory.Capacity
    simp only [if_neg hfull, Arg.made, construct_at_eq x hlt, hi]

/-! ## Copy construction and copy assignment -/

theorem Vector.copy_ctor_sound {α : Type} (b : Vector α) (h : b.WF) :
    ∃ v1, Vector.copy_ctor b = some v1 ∧ v1.WF ∧ v1.size_ = b.size_ ∧
      v1.data_.capacity_ = b.size_ ∧
      ∀ j, j < b.size_ → v1.data_.cells[j]? = b.data_.cells[j]? := by
  obtain ⟨_, _, _, hlive⟩ := h
  obtain ⟨d1, e, ld, pd⟩ := uninitialized_copy_n_spec b.data_.cells b.size_ 0
    (RawMemory.ctor b.size_ : RawMemory α).cells 0 (fun i _ hi => hlive i (by omega))
    (by rw [RawMemory.ctor_cells, List.length_replicate]; omega)
  simp only [Nat.zero_le, true_and, Nat.zero_add, Nat.sub_zero] at pd
  have hc : ((RawMemory.ctor b.size_ : RawMemory α).store d1).cells = d1 :=
    RawMemory.store_cells _ _ ld
  rw [RawMemory.ctor_cells, List.length_replicate] at ld
  refine ⟨{ data_ := (RawMemory.ctor b.size_).store d1, size_ := b.size_ }, ?_, ?_, rfl, ?_, ?_⟩
  · unfold Vector.copy_ctor
    simp only [e]
  · refine Vector.WF_mk _ d1 _ (RawMemory.ctor_isNone _) ld
      (by rw [RawMemory.ctor_cells, List.length_replicate]; rfl) (Nat.le_refl _) ?_
    intro i hi
    rw [obj_congr (show d1[i]? = b.data_.cells[i]? by rw [pd i, if_pos hi])]
    exact hlive i hi
  · rw [RawMemory.store_capacity]; rfl
  · intro j hj
    show ((RawMemory.ctor b.size_ : RawMemory α).store d1).cells[j]? = _
    rw [hc, pd j, if_pos hj]

theorem Vector.copy_assign_sound {α : Type} (a b : Vector α) (ha : a.WF) (hb : b.WF) :
    ∃ a1, Vector.copy_assign a (Rhs.other b) = some a1 ∧ a1.WF ∧ a1.size_ = b.size_ ∧
      a1.data_.capacity_ =
        (if b.size_ ≤ a.data_.capacity_ then a.data_.capacity_ else b.size_) ∧
      ∀ j, j < b.size_ → a1.data_.cells[j]? = b.data_.cells[j]? := by
  obtain ⟨han, hal, has, halive⟩ := ha
  have hbs := hb.2.2.1
  have hblive := hb.2.2.2
  by_cases h1 : b.size_ ≤ a.size_
  · obtain ⟨b1, e1, l1, p1⟩ := assign_loop_spec a.data_ b.data_ b.size_ a.data_.cells 0
      (by omega) (by omega) (fun j _ hj => ⟨hblive j (by omega), halive j (by omega)⟩)
    simp only [Nat.zero_le, true_and, Nat.zero_add] at p1
    obtain ⟨b2, e2, l2, p2⟩ := destroy_n_spec (a.size_ - b.size_) b1 b.size_
      (fun i h2 h3 => by
        rw [obj_congr (show b1[i]? = a.data_.cells[i]? by rw [p1 i, if_neg (by omega)])]
        exact halive i (by omega))
    have hc : (a.data_.store b2).cells = b2 := RawMemory.store_cells _ _ (by rw [l2, l1])
    have hp : a.data_.plus b.size_ = some b.size_ := by
      simp only [RawMemory.plus]; rw [if_pos (by omega)]
    have key : ∀ j, j < b.size_ → b2[j]? = b.data_.cells[j]? := by
      intro j hj
      rw [p2 j, if_neg (by omega), p1 j, if_pos hj]
    refine ⟨{ data_ := a.data_.store b2, size_ := b.size_ }, ?_, ?_, rfl, ?_, ?_⟩
    · unfold Vector.copy_assign
      simp only [if_pos h1, e1, hp, e2]
    · refine Vector.WF_mk a.data_ b2 _ han (by rw [l2, l1, hal]) hal (by omega) ?_
      intro i hi
      rw [obj_congr (key i hi)]
      exact hblive i hi
    · rw [RawMemory.store_capacity, if_pos (by omega)]
    · intro j hj
      show (a.data_.store b2).cells[j]? = _
      rw [hc, key j hj]
  · by_cases h2 : b.size_ ≤ a.data_.capacity_
    · obtain ⟨b1, e1, l1, p1⟩ := assign_loop_spec a.data_ b.data_ a.size_ a.data_.cells 0
        (by omega) (by omega) (fun j _ hj => ⟨hblive j (by omega), halive j (by omega)⟩)
      simp only [Nat.zero_le, true_and, Nat.zero_add] at p1
      obtain ⟨b2, e2, l2, p2⟩ := uninitialized_copy_n_spec b.data_.cells (b.size_ - a.size_)
        a.size_ b1 a.size_ (fun i _ hi => hblive i (by omega)) (by rw [l1, hal]; omega)
      have hc : (a.data_.store b2).cells = b2 := RawMemory.store_cells _ _ (by rw [l2, l1])
      have key : ∀ j, j < b.size_ → b2[j]? = b.data_.cells[j]? := by
        intro j hj
        rw [p2 j]
        by_cases hj2 : j < a.size_
        · rw [if_neg (by omega), p1 j, if_pos hj2]
        · rw [if_pos (by omega)]
          congr 1
          omega
      refine ⟨{ data_ := a.data_.store b2, size_ := b.size_ }, ?_, ?_, rfl, ?_, ?_⟩
      · unfold Vector.copy_assign Vector.Capacity RawMemory.Capacity
        simp only [if_neg h1, if_pos h2, e1, e2]
      · refine Vector.WF_mk a.data_ b2 _ han (by rw [l2, l1, hal]) hal h2 ?_
        intro i hi
        rw [obj_congr (key i hi)]
        exact hblive i hi
      · rw [RawMemory.store_capacity, if_pos h2]
      · intro j hj
        show (a.data_.store b2).cells[j]? = _
        rw [hc, key j hj]
    · obtain ⟨c1, e1, w1, s1, c, p⟩ := Vector.copy_ctor_sound b hb
      refine ⟨c1, ?_, w1, s1, by rw [c, if_neg h2], p⟩
      unfold Vector.copy_assign Vector.Capacity RawMemory.Capacity
      simp only [if_neg h1, if_neg h2, e1, Vector.Swap, RawMemory.Swap]

/-! ## `Emplace` -/

/-- The shift of `[k, size_ - 1)` by one slot in the non-growing insertion, by
`std::move_backward` or by `std::copy_backward`. -/
theorem Vector.shift_back {α : Type} (E : ElemTraits α) (b : Block α) (k n : Nat)
    (hk : k < n) (hlive : ∀ i, k ≤ i → i < n → (obj b i).isSome = true) :
    ∃ b1, (if E.is_move_assignable then move_backward E b k (n - 1) n
        else copy_backward b k (n - 1) n) = some b1 ∧ b1.length = b.length ∧
      (∀ j, k < j → j < n → b1[j]? = b[j - 1]?) ∧
      (∀ j, j < k ∨ n ≤ j → b1[j]? = b[j]?) ∧
      (obj b1 k).isSome = true := by
  have hkk : n - 1 - (n - 1 - k) = k := by omega
  split
  · obtain ⟨b1, e, l, p, q, r⟩ := move_backward_loop_spec E (n - 1 - k) b (n - 1) n (by omega)
      (by omega) (fun i _ hi => hlive i (by omega) (by omega))
    rw [hkk] at p q r
    refine ⟨b1, ?_, l, fun j h1 h2 => p j h1 (by omega), fun j hj => q j (by omega), r⟩
    unfold move_backward
    rw [if_pos (by omega), e]
  · obtain ⟨b1, e, l, p, q, r⟩ := copy_backward_loop_spec (n - 1 - k) b (n - 1) n (by omega)
      (by omega) (fun i _ hi => hlive i (by omega) (by omega))
    rw [hkk] at p q r
    refine ⟨b1, ?_, l, fun j h1 h2 => p j h1 (by omega), fun j hj => q j (by omega), r⟩
    unfold copy_backward
    rw [if_pos (by omega), e]

theorem Vector.Emplace_fit_sound {α : Type} (E : ElemTraits α) (v : Vector α) (k : Nat) (x : α)
    (h : v.WF) (hfit : v.size_ ≠ v.data_.capacity_) (hk : k < v.size_) :
    ∃ v1, v.Emplace E k x = some (k, v1) ∧ v1.WF ∧ v1.size_ = v.size_ + 1 ∧
      v1.data_.capacity_ = v.data_.capacity_ ∧
      v1.data_.cells[k]? = some (some x) ∧
      (∀ j, j < k → v1.data_.cells[j]? = v.data_.cells[j]?) ∧
      ∀ j, k ≤ j → j < v.size_ → v1.data_.cells[j + 1]? = v.data_.cells[j]? := by
  obtain ⟨hn, hl, hs, hlive⟩ := h
  have hp1 : ptr_sub v.size_ k = some (v.size_ - k) := by
    simp only [ptr_sub]; rw [if_pos (by omega)]
  have hp2 : ptr_sub v.size_ 1 = some (v.size_ - 1) := by
    simp only [ptr_sub]; rw [if_pos (by omega)]
  obtain ⟨b1, e1, l1, p1, r1, q1⟩ := CopyOrMove_spec E v.data_.cells (v.size_ - 1) v.size_
    (by omega) (hlive _ (by omega)) (by omega)
  have hlive1 : ∀ i, k ≤ i → i < v.size_ → (obj b1 i).isSome = true := by
    intro i _ hi
    by_cases hi2 : i = v.size_ - 1
    · rw [hi2]; exact r1
    · rw [obj_congr (q1 i hi2 (by omega))]
      exact hlive i hi
  obtain ⟨b2, e2, l2, p2, q2, r2⟩ := Vector.shift_back E b1 k v.size_ hk hlive1
  have hi : v.data_.index k = some k := by
    simp only [RawMemory.index]; rw [if_pos (by omega)]
  have hc : (v.data_.store (b2.set k (some x))).cells = b2.set k (some x) :=
    RawMemory.store_cells _ _ (by rw [List.length_set, l2, l1])
  have hkl : k < b2.length := by rw [l2, l1]; omega
  have key : ∀ j, k ≤ j → j < v.size_ → (b2.set k (some x))[j + 1]? = v.data_.cells[j]? := by
    intro j h1 h2
    rw [List.getElem?_set, if_neg (by omega)]
    by_cases hj : j + 1 = v.size_
    · rw [q2 (j + 1) (Or.inr (by omega)), hj, p1]
      congr 1
      omega
    · rw [p2 (j + 1) (by omega) (by omega), Nat.add_sub_cancel, q1 j (by omega) (by omega)]
  refine ⟨{ data_ := v.data_.store (b2.set k (some x)), size_ := v.size_ + 1 },
    ?_, ?_, rfl, ?_, ?_, ?_, ?_⟩
  · unfold Vector.Emplace Vector.Capacity RawMemory.Capacity
    simp only [hp1, if_neg hfit, hp2, e1, e2, hi, assign_at_eq x r2]
  · refine Vector.WF_mk v.data_ _ _ hn (by rw [List.length_set, l2, l1, hl]) hl (by omega) ?_
    intro i hi
    by_cases h1 : i < k
    · rw [obj_set, if_neg (by omega), obj_congr (q2 i (Or.inl h1)),
        obj_congr (q1 i (by omega) (by omega))]
      exact hlive i (by omega)
    · by_cases h2 : i = k
      · rw [obj_set, if_pos h2.symm, if_pos hkl]; rfl
      · have := key (i - 1) (by omega) (by omega)
        rw [show i - 1 + 1 = i by omega] at this
        rw [obj_congr this]
        exact hlive _ (by omega)
  · rw [RawMemory.store_capacity]
  · show (v.data_.store (b2.set k (some x))).cells[k]? = _
    rw [hc, List.getElem?_set, if_pos rfl, if_pos hkl]
  · intro j hj
    show (v.data_.store (b2.set k (some x))).cells[j]? = _
    rw [hc, List.getElem?_set, if_neg (by omega), q2 j (Or.inl hj), q1 j (by omega) (by omega)]
  · intro j h1 h2
    show (v.data_.store (b2.set k (some x))).cells[j + 1]? = _
    rw [hc, key j h1 h2]

theorem Vector.Emplace_grow_sound {α : Type} (E : ElemTraits α) (v : Vector α) (k : Nat) (x : α)
    (h : v.WF) (hfull : v.size_ = v.data_.capacity_) (hk : k ≤ v.size_) :
    ∃ v1, v.Emplace E k x = some (k, v1) ∧ v1.WF ∧ v1.size_ = v.size_ + 1 ∧
      v1.data_.capacity_ = max 1 (2 * v.size_) ∧
      v1.data_.cells[k]? = some (some x) ∧
      (∀ j, j < k → v1.data_.cells[j]? = v.data_.cells[j]?) ∧
      ∀ j, k ≤ j → j < v.size_ → v1.data_.cells[j + 1]? = v.data_.cells[j]? := by
  obtain ⟨hn, hl, hs, hlive⟩ := h
  have hcap : (if v.size_ = 0 then 1 else 2 * v.size_) = max 1 (2 * v.size_) := by
    split <;> omega
  have hn0 : max 1 (2 * v.size_) ≠ 0 := by omega
  have hp1 : ptr_sub v.size_ k = some (v.size_ - k) := by
    simp only [ptr_sub]; rw [if_pos (by omega)]
  have hr : (RawMemory.ctor (max 1 (2 * v.size_)) : RawMemory α).cells.length
      = max 1 (2 * v.size_) := by
    rw [RawMemory.ctor_cells, List.length_replicate]
  obtain ⟨s1, d1, e1, ls1, ld1, plive1, ps1, pd1⟩ := CopyOrMoveN_spec E v.data_.cells 0 k
    ((RawMemory.ctor (max 1 (2 * v.size_)) : RawMemory α).cells.set k (some x)) 0
    (fun i _ hi => hlive i (by omega)) (by rw [List.length_set, hr]; omega)
  obtain ⟨s2, d2, e2, ls2, ld2, plive2, ps2, pd2⟩ := CopyOrMoveN_spec E s1 k (v.size_ - k)
    d1 (k + 1)
    (fun i _ hi => by rw [plive1 i]; exact hlive i (by omega))
    (by rw [ld1, List.length_set, hr]; omega)
  obtain ⟨s3, e3, _, _⟩ := destroy_n_spec v.size_ s2 0
    (fun i _ hi => by rw [plive2 i, plive1 i]; exact hlive i (by omega))
  simp only [Nat.zero_le, true_and, Nat.zero_add, Nat.sub_zero] at pd1
  have hplus : (RawMemory.ctor (max 1 (2 * v.size_)) : RawMemory α).plus k = some k := by
    simp only [RawMemory.plus, RawMemory.ctor_capacity]; rw [if_pos (by omega)]
  have hd2 : d2.length = max 1 (2 * v.size_) := by rw [ld2, ld1, List.length_set, hr]
  have hka : d2[k]? = some (some x) := by
    rw [pd2 k, if_neg (by omega), pd1 k, if_neg (by omega), List.getElem?_set, if_pos rfl,
      if_pos (by rw [hr]; omega)]
  have hlo : ∀ j, j < k → d2[j]? = v.data_.cells[j]? := by
    intro j hj
    rw [pd2 j, if_neg (by omega), pd1 j, if_pos hj]
  have hhi : ∀ j, k ≤ j → j < v.size_ → d2[j + 1]? = v.data_.cells[j]? := by
    intro j h1 h2
    rw [pd2 (j + 1), if_pos (by omega), show k + (j + 1 - (k + 1)) = j by omega,
      ps1 j (by omega)]
  refine ⟨{ data_ := (RawMemory.ctor (max 1 (2 * v.size_))).store d2, size_ := v.size_ + 1 },
    ?_, ?_, rfl, ?_, ?_, ?_, ?_⟩
  · unfold Vector.Emplace Vector.Capacity RawMemory.Capacity
    simp only [hp1, if_pos hfull, hcap, construct_at_eq x (show k < _ by rw [hr]; omega), e1,
      hplus, e2, e3, RawMemory.Swap]
  · rw [RawMemory.ctor_store _ hn0]
    refine ⟨by simp, hd2, by show v.size_ + 1 ≤ max 1 (2 * v.size_); omega, ?_⟩
    intro i (hi : i < v.size_ + 1)
    show (obj d2 i).isSome = true
    by_cases h1 : i < k
    · rw [obj_congr (hlo i h1)]
      exact hlive i (by omega)
    · by_cases h2 : i = k
      · rw [h2, obj_of_getElem hka]; rfl
      · have := hhi (i - 1) (by omega) (by omega)
        rw [show i - 1 + 1 = i by omega] at this
        rw [obj_congr this]
        exact hlive _ (by omega)
  · rw [RawMemory.ctor_store _ hn0]
  · rw [RawMemory.ctor_store _ hn0]; exact hka
  · intro j hj
    rw [RawMemory.ctor_store _ hn0]; exact hlo j hj
  · intro j h1 h2
    rw [RawMemory.ctor_store _ hn0]; exact hhi j h1 h2

/-! ## From slots to `operator[]` -/

theorem Vector.get_congr {α : Type} {v1 v : Vector α} (h1 : v1.WF) (h : v.WF) {i j : Nat}
    (hi : i < v1.size_) (hj : j < v.size_) (hc : v1.data_.cells[i]? = v.data_.cells[j]?) :
    v1.get i = v.get j := by
  rw [Vector.get_eq v1 h1.2.2.1, Vector.get_eq v h.2.2.1, if_pos hi, if_pos hj, obj_congr hc]

theorem Vector.get_of_cell {α : Type} {v1 : Vector α} (h1 : v1.WF) {i : Nat} {x : α}
    (hi : i < v1.size_) (hc : v1.data_.cells[i]? = some (some x)) : v1.get i = some x := by
  rw [Vector.get_eq v1 h1.2.2.1, if_pos hi, obj_of_getElem hc]

theorem Vector.get_beyond {α : Type} (v : Vector α) {i : Nat} (hi : ¬ i < v.size_) :
    v.get i = none := by
  unfold Vector.get
  rw [if_neg hi]

/-- Inserting and then erasing at the same offset gives back the size and the values, whenever
the insertion either has to grow or goes strictly before the end. -/
theorem Vector.Erase_Emplace_restores {α : Type} (E : ElemTraits α) (v : Vector α) (k : Nat)
    (x : α) (hE : E.is_nothrow_move_assignable = true) (h : v.WF) (hk : k ≤ v.size_)
    (hcase : v.size_ = v.data_.capacity_ ∨ k < v.size_) :
    ∃ v1 v2, v.Emplace E k x = some (k, v1) ∧ v1.Erase E k = some (k, v2) ∧ v2.WF ∧
      v2.size_ = v.size_ ∧ ∀ i, v2.get i = v.get i := by
  have hins : ∃ v1, v.Emplace E k x = some (k, v1) ∧ v1.WF ∧ v1.size_ = v.size_ + 1 ∧
      v1.data_.cells[k]? = some (some x) ∧
      (∀ j, j < k → v1.data_.cells[j]? = v.data_.cells[j]?) ∧
      ∀ j, k ≤ j → j < v.size_ → v1.data_.cells[j + 1]? = v.data_.cells[j]? := by
    by_cases hfull : v.size_ = v.data_.capacity_
    · obtain ⟨v1, e, w, s, _, a, b, c⟩ := Vector.Emplace_grow_sound E v k x h hfull hk
      exact ⟨v1, e, w, s, a, b, c⟩
    · obtain ⟨v1, e, w, s, _, a, b, c⟩ := Vector.Emplace_fit_sound E v k x h hfull
        (by omega)
      exact ⟨v1, e, w, s, a, b, c⟩
  obtain ⟨v1, e1, w1, s1, _, lo1, hi1⟩ := hins
  obtain ⟨v2, e2, w2, s2, _, lo2, hi2⟩ := Vector.Erase_sound E v1 k hE w1 (by omega)
  refine ⟨v1, v2, e1, e2, w2, by omega, ?_⟩
  intro i
  by_cases hi : i < v.size_
  · refine Vector.get_congr w2 h (by omega) hi ?_
    by_cases hik : i < k
    · rw [lo2 i hik, lo1 i hik]
    · rw [hi2 i (by omega) (by omega), hi1 i (by omega) hi]
  · rw [Vector.get_beyond v hi, Vector.get_beyond v2 (by omega)]

/-! ## The claims -/

/-- C1 (the code departs from the claim): a `Vector<int>` of size 1 and capacity 2, built by
`Vector<int> v(1); v[0] = 41; v.Reserve(2);`, satisfies the class invariant, yet
`v.Insert(v.end(), 42)` (offset `k = S = 1`, no growth) has no defined result: the code calls
`std::move_backward(begin() + 1, end() - 1, end())`, whose first bound lies behind its last
one. For the empty vector with capacity 1 (`Vector<int> v; v.Reserve(1);`) the insertion at
offset 0 starts with `CopyOrMove(end() - 1, end())`, which reads the slot before the block.
The claim demands size `S + 1` and the inserted value at `k` in both cases. -/
theorem Insert_at_end_without_growth_undefined :
    ((Vector.sized_ctor intTraits 1).bind (fun v => (v.put 0 41).bind
        (fun v => v.Reserve intTraits 2))) = some (vec_of [41] 2) ∧
    (vec_of [41] 2).WF ∧ (vec_of [41] 2).Size = 1 ∧ (vec_of [41] 2).Capacity = 2 ∧
    Vector.Insert intTraits (vec_of [41] 2) 1 42 = none ∧
    Vector.Insert_rvalue intTraits (vec_of [41] 2) 1 42 = none ∧
    Vector.Reserve intTraits Vector.default_ctor 1 = some (vec_of [] 1) ∧
    (vec_of [] 1).WF ∧
    Vector.Insert intTraits (vec_of [] 1) 0 42 = none := by
  decide

/-- The branch of `Erase` for an element type whose move assignment cannot throw: erasing at
offset `k < S` of a well-formed vector returns `begin() + k`, leaves a well-formed vector of
size `S - 1` and unchanged capacity, keeps the elements before `k`, and moves every element
at `i` in `(k, S)` to `i - 1`; the returned iterator is `end()` exactly when `k` was
`S - 1`. -/
theorem Vector.Erase_moving_spec {α : Type} (E : ElemTraits α) (v : Vector α) (k : Nat)
    (hE : E.is_nothrow_move_assignable = true) (h : v.WF) (hk : k < v.Size) :
    ∃ v1, v.Erase E k = some (k, v1) ∧ v1.WF ∧ v1.Size = v.Size - 1 ∧
      v1.Capacity = v.Capacity ∧
      (∀ i, i < k → v1.get i = v.get i) ∧
      (∀ i, k < i → i < v.Size → v1.get (i - 1) = v.get i ∧ (v.get i).isSome = true) ∧
      (k = v1.Size ↔ k = v.Size - 1) := by
  obtain ⟨v1, e, w, s, c, lo, hi⟩ := Vector.Erase_sound E v k hE h hk
  have hk2 : k < v.size_ := hk
  refine ⟨v1, e, w, s, c, ?_, ?_, ?_⟩
  · intro i hi
    exact Vector.get_congr w h (by omega) (by omega) (lo i hi)
  · intro i h1 (h2 : i < v.size_)
    refine ⟨Vector.get_congr w h (by omega) h2 ?_, h.get_isSome h2⟩
    have := hi (i - 1) (by omega) (by omega)
    rw [show i - 1 + 1 = i by omega] at this
    exact this
  · show k = v1.size_ ↔ k = v.size_ - 1
    rw [s]

/-- C3 (the code departs from the claim): for the well-formed `Vector<int>` with values
`[1, 2]` and capacity 3 (`S = 2`, `k = 2`), inserting 7 at offset 2 and then erasing at
offset 2 does not give back the vector: the insertion, which does not grow, already has no
defined result. With the same values and capacity 2 the insertion grows and the round trip
gives back size 2 and the values `[1, 2]`. -/
theorem Insert_then_Erase_at_end_undefined :
    (vec_of [1, 2] 3).WF ∧
    (Vector.Insert intTraits (vec_of [1, 2] 3) 2 7).bind
      (fun r => Vector.Erase intTraits r.2 2) = none ∧
    ((Vector.Insert intTraits (vec_of [1, 2] 2) 2 7).bind
      (fun r => Vector.Erase intTraits r.2 2)).map (fun r => (r.2.Size, r.2.values))
      = some (2, [some 1, some 2]) := by
  decide

/-- Appending an object that is not part of the vector: on a well-formed vector, `PushBack`
(when `T` can be constructed from the argument: move-constructible for an rvalue,
copy-constructible for an lvalue) and `EmplaceBack` each give a well-formed vector of size
`S + 1` whose capacity is `max(1, 2·S)` if `S` was the capacity and unchanged otherwise, with
the `S` prior elements at `[0, S)` and `x` at index `S`; the reference returned by
`EmplaceBack` refers to slot `S`. -/
theorem Vector.append_outside_spec {α : Type} (E : ElemTraits α) (v : Vector α) (x : α)
    (is_rvalue : Bool) (h : v.WF)
    (hctor : (if is_rvalue then E.is_move_constructible else E.is_copy_constructible) = true) :
    (∃ v1, v.PushBack E (Arg.outside x) is_rvalue = some v1 ∧ v1.WF ∧ v1.Size = v.Size + 1 ∧
      v1.Capacity = (if v.Size = v.Capacity then max 1 (2 * v.Size) else v.Capacity) ∧
      (∀ i, i < v.Size → v1.get i = v.get i ∧ (v.get i).isSome = true) ∧
      v1.get v.Size = some x) ∧
    (∃ v1, v.EmplaceBack E (Arg.outside x) = some (v.Size, v1) ∧ v1.WF ∧
      v1.Size = v.Size + 1 ∧
      v1.Capacity = (if v.Size = v.Capacity then max 1 (2 * v.Size) else v.Capacity) ∧
      (∀ i, i < v.Size → v1.get i = v.get i ∧ (v.get i).isSome = true) ∧
      v1.get v.Size = some x) := by
  constructor
  · obtain ⟨v1, e, w, s, c, p, q⟩ := Vector.PushBack_sound E v x is_rvalue h hctor
    refine ⟨v1, e, w, s, c, ?_, Vector.get_of_cell w (show v.size_ < v1.size_ by omega) q⟩
    intro i (hi : i < v.size_)
    exact ⟨Vector.get_congr w h (by omega) hi (p i hi), h.get_isSome hi⟩
  · obtain ⟨v1, e, w, s, c, p, q⟩ := Vector.EmplaceBack_sound E v x h
    refine ⟨v1, e, w, s, c, ?_, Vector.get_of_cell w (show v.size_ < v1.size_ by omega) q⟩
    intro i (hi : i < v.size_)
    exact ⟨Vector.get_congr w h (by omega) hi (p i hi), h.get_isSome hi⟩

/-- C7: copy assignment `a = b` between two different well-formed vectors gives a well-formed
`a` with `b`'s size and `b`'s elements in order, in each of the three cases; its capacity is
the old one if `b`'s size fits into it and `b`'s size otherwise. (`b` is taken by reference to
const; the operation has no effect on it.) -/
theorem copy_assign_spec {α : Type} (a b : Vector α) (ha : a.WF) (hb : b.WF) :
    ∃ a1, a.copy_assign (Rhs.other b) = some a1 ∧ a1.WF ∧ a1.Size = b.Size ∧
      (∀ i, a1.get i = b.get i) ∧
      (∀ i, i < b.Size → (a1.get i).isSome = true) ∧
      a1.Capacity = (if b.Size ≤ a.Capacity then a.Capacity else b.Size) := by
  obtain ⟨a1, e, w, s, c, p⟩ := Vector.copy_assign_sound a b ha hb
  refine ⟨a1, e, w, s, ?_, ?_, c⟩
  · intro i
    by_cases hi : i < b.size_
    · exact Vector.get_congr w hb (by omega) hi (p i hi)
    · rw [Vector.get_beyond b hi, Vector.get_beyond a1 (by omega)]
  · intro i (hi : i < b.size_)
    exact w.get_isSome (by omega)

/-- C7 on `a` with values `[1, 2, 3]` and capacity 5 and `b` with values `[7, 8, 9, 10]`. -/
theorem copy_assign_spec_witness :
    ∃ a1, (vec_of [1, 2, 3] 5).copy_assign (Rhs.other (vec_of [7, 8, 9, 10] 4)) = some a1 ∧
      a1.WF ∧ a1.Size = (vec_of [7, 8, 9, 10] 4).Size ∧
      (∀ i, a1.get i = (vec_of [7, 8, 9, 10] 4).get i) ∧
      (∀ i, i < (vec_of [7, 8, 9, 10] 4).Size → (a1.get i).isSome = true) ∧
      a1.Capacity = (if (vec_of [7, 8, 9, 10] 4).Size ≤ (vec_of [1, 2, 3] 5).Capacity
        then (vec_of [1, 2, 3] 5).Capacity else (vec_of [7, 8, 9, 10] 4).Size) :=
  copy_assign_spec (vec_of [1, 2, 3] 5) (vec_of [7, 8, 9, 10] 4) (by decide) (by decide)

/-- C8: the vector move-constructed from `s`, and a well-formed vector `d` after the move
assignment `d = std::move(s)` (sizes equal or not), has `s`'s size, `s`'s capacity and `s`'s
elements in order. -/
theorem move_destination_spec {α : Type} (s d : Vector α) (hd : d.WF) :
    ((Vector.move_ctor s).1.Size = s.Size ∧ (Vector.move_ctor s).1.Capacity = s.Capacity ∧
      ∀ i, (Vector.move_ctor s).1.get i = s.get i) ∧
    ∃ r, d.move_assign s = some r ∧ r.1.Size = s.Size ∧ r.1.Capacity = s.Capacity ∧
      ∀ i, r.1.get i = s.get i := by
  refine ⟨⟨rfl, rfl, fun _ => rfl⟩, ?_⟩
  by_cases he : d.size_ = s.size_
  · refine ⟨Vector.Swap d s, ?_, rfl, rfl, fun _ => rfl⟩
    unfold Vector.move_assign
    rw [if_pos he]
  · obtain ⟨b, e, _, _⟩ := destroy_n_spec d.size_ d.data_.cells 0
      (fun i _ hi => hd.2.2.2 i (by omega))
    refine ⟨({ data_ := (RawMemory.move_assign (d.data_.store b) s.data_).1, size_ := s.size_ },
      { data_ := (RawMemory.move_assign (d.data_.store b) s.data_).2, size_ := s.size_ }),
      ?_, rfl, rfl, fun _ => rfl⟩
    unfold Vector.move_assign
    simp only [if_neg he, e]

/-- C8 on the source with values `[1, 2, 3]` and capacity 5 and the destination `[7]`. -/
theorem move_destination_spec_witness :
    (((Vector.move_ctor (vec_of [1, 2, 3] 5)).1.Size = (vec_of [1, 2, 3] 5).Size ∧
      (Vector.move_ctor (vec_of [1, 2, 3] 5)).1.Capacity = (vec_of [1, 2, 3] 5).Capacity ∧
      ∀ i, (Vector.move_ctor (vec_of [1, 2, 3] 5)).1.get i = (vec_of [1, 2, 3] 5).get i) ∧
    ∃ r, (vec_of [7] 2).move_assign (vec_of [1, 2, 3] 5) = some r ∧
      r.1.Size = (vec_of [1, 2, 3] 5).Size ∧ r.1.Capacity = (vec_of [1, 2, 3] 5).Capacity ∧
      ∀ i, r.1.get i = (vec_of [1, 2, 3] 5).get i) :=
  move_destination_spec (vec_of [1, 2, 3] 5) (vec_of [7] 2) (by decide)

/-- C9, as stated, fails: the `Vector<int>` with values `[1, 2, 3]` and capacity 5 still
reports size 3 and capacity 5 after it has been move-constructed from or move-assigned to a
vector of another size, although its pointer is null; after a move assignment to a vector of
the same size its pointer is not null, it holds what the destination held. -/
theorem moved_from_source_not_empty :
    (Vector.move_ctor (vec_of [1, 2, 3] 5)).2.data_.buffer_ = none ∧
    (Vector.move_ctor (vec_of [1, 2, 3] 5)).2.Size = 3 ∧
    (Vector.move_ctor (vec_of [1, 2, 3] 5)).2.Capacity = 5 ∧
    ¬ ((Vector.move_ctor (vec_of [1, 2, 3] 5)).2.Size = 0 ∧
       (Vector.move_ctor (vec_of [1, 2, 3] 5)).2.Capacity = 0) ∧
    ((vec_of [7] 2).move_assign (vec_of [1, 2, 3] 5)).map
      (fun r => (r.2.data_.buffer_, r.2.Size, r.2.Capacity)) = some (none, 3, 5) ∧
    ((vec_of [7, 8, 9] 3).move_assign (vec_of [1, 2, 3] 5)).map (fun r => r.2)
      = some (vec_of [7, 8, 9] 3) := by
  decide

/-- C9, amended: after move construction from `s`, and after move assignment from `s` to a
well-formed vector of another size, the pointer of `s` is null while `Size()` and `Capacity()`
of `s` report what they reported before, and the destructor of `s` is well defined (it skips
a null pointer); after move assignment to a vector of the same size, `s` is what the
destination was. -/
theorem moved_from_source_spec {α : Type} (s d : Vector α) (hd : d.WF) :
    ((Vector.move_ctor s).2.data_.buffer_ = none ∧ (Vector.move_ctor s).2.Size = s.Size ∧
      (Vector.move_ctor s).2.Capacity = s.Capacity ∧
      (Vector.move_ctor s).2.dtor = some ()) ∧
    ∃ r, d.move_assign s = some r ∧
      (d.Size ≠ s.Size → r.2.data_.buffer_ = none ∧ r.2.Size = s.Size ∧
        r.2.Capacity = s.Capacity ∧ r.2.dtor = some ()) ∧
      (d.Size = s.Size → r.2 = d) := by
  refine ⟨⟨rfl, rfl, rfl, rfl⟩, ?_⟩
  by_cases he : d.size_ = s.size_
  · refine ⟨Vector.Swap d s, ?_, fun hne => absurd he hne, fun _ => ?_⟩
    · unfold Vector.move_assign
      rw [if_pos he]
    · show ({ data_ := d.data_, size_ := d.size_ } : Vector α) = d
      rfl
  · obtain ⟨b, e, _, _⟩ := destroy_n_spec d.size_ d.data_.cells 0
      (fun i _ hi => hd.2.2.2 i (by omega))
    refine ⟨({ data_ := (RawMemory.move_assign (d.data_.store b) s.data_).1, size_ := s.size_ },
      { data_ := (RawMemory.move_assign (d.data_.store b) s.data_).2, size_ := s.size_ }),
      ?_, fun _ => ⟨rfl, rfl, rfl, rfl⟩, fun heq => absurd heq he⟩
    unfold Vector.move_assign
    simp only [if_neg he, e]

/-- C9, amended, on the source with values `[4, 5]` and the destination `[6]`. -/
theorem moved_from_source_spec_witness :
    (((Vector.move_ctor (vec_of [4, 5] 2)).2.data_.buffer_ = none ∧
      (Vector.move_ctor (vec_of [4, 5] 2)).2.Size = (vec_of [4, 5] 2).Size ∧
      (Vector.move_ctor (vec_of [4, 5] 2)).2.Capacity = (vec_of [4, 5] 2).Capacity ∧
      (Vector.move_ctor (vec_of [4, 5] 2)).2.dtor = some ()) ∧
    ∃ r, (vec_of [6] 1).move_assign (vec_of [4, 5] 2) = some r ∧
      ((vec_of [6] 1).Size ≠ (vec_of [4, 5] 2).Size → r.2.data_.buffer_ = none ∧
        r.2.Size = (vec_of [4, 5] 2).Size ∧ r.2.Capacity = (vec_of [4, 5] 2).Capacity ∧
        r.2.dtor = some ()) ∧
      ((vec_of [6] 1).Size = (vec_of [4, 5] 2).Size → r.2 = vec_of [6] 1)) :=
  moved_from_source_spec (vec_of [4, 5] 2) (vec_of [6] 1) (by decide)

/-- C10: copy-assigning a vector to itself leaves its size, its capacity and every element
as they were: the guard `this != &rhs` skips the whole body. -/
theorem copy_assign_self_spec {α : Type} (v : Vector α) :
    ∃ v1, v.copy_assign Rhs.self = some v1 ∧ v1.Size = v.Size ∧ v1.Capacity = v.Capacity ∧
      ∀ i, v1.get i = v.get i :=
  ⟨v, rfl, rfl, rfl, fun _ => rfl⟩

/-! ## The invariant `size_ ≤ capacity_` -/

theorem Vector.Reserve_le {α : Type} (E : ElemTraits α) (v : Vector α) (n : Nat)
    (h : v.size_ ≤ v.data_.capacity_) (r : Vector α) (hr : v.Reserve E n = some r) :
    r.size_ ≤ r.data_.capacity_ ∧ n ≤ r.data_.capacity_ := by
  unfold Vector.Reserve RawMemory.Capacity at hr
  simp only [] at hr
  repeat' split at hr
  all_goals try cases hr
  all_goals try simp only [RawMemory.Swap, RawMemory.store_capacity, RawMemory.ctor_capacity]
  all_goals omega

theorem Vector.Resize_le {α : Type} (E : ElemTraits α) (v : Vector α) (n : Nat)
    (h : v.size_ ≤ v.data_.capacity_) (r : Vector α) (hr : v.Resize E n = some r) :
    r.size_ ≤ r.data_.capacity_ := by
  unfold Vector.Resize at hr
  split at hr
  · split at hr
    · cases hr
      simp only [RawMemory.store_capacity]; omega
    · cases hr
  · split at hr
    · next v1 hv1 =>
      have := Vector.Reserve_le E v n h v1 hv1
      split at hr
      · cases hr
        simp only [RawMemory.store_capacity]; exact this.2
      · cases hr
    · cases hr

theorem Vector.PushBack_le {α : Type} (E : ElemTraits α) (v : Vector α) (x : Arg α)
    (is_rvalue : Bool) (h : v.size_ ≤ v.data_.capacity_) (r : Vector α)
    (hr : v.PushBack E x is_rvalue = some r) :
    r.size_ ≤ r.data_.capacity_ := by
  unfold Vector.PushBack Vector.Capacity RawMemory.Capacity at hr
  generalize hN : (if v.size_ = 0 then 1 else 2 * v.size_) = N at hr
  have hN2 : v.size_ < N := by rw [← hN]; split <;> omega
  simp only [] at hr
  repeat' split at hr
  all_goals try cases hr
  all_goals try simp only [RawMemory.Swap, RawMemory.store_capacity, RawMemory.ctor_capacity]
  all_goals omega

theorem Vector.EmplaceBack_le {α : Type} (E : ElemTraits α) (v : Vector α) (x : Arg α)
    (h : v.size_ ≤ v.data_.capacity_) (r : Nat × Vector α)
    (hr : v.EmplaceBack E x = some r) :
    r.2.size_ ≤ r.2.data_.capacity_ := by
  unfold Vector.EmplaceBack Vector.Capacity RawMemory.Capacity at hr
  generalize hN : (if v.size_ = 0 then 1 else 2 * v.size_) = N at hr
  have hN2 : v.size_ < N := by rw [← hN]; split <;> omega
  simp only [] at hr
  split at hr
  · next v1 hv1 =>
    split at hr
    · cases hr
      show v1.size_ ≤ v1.data_.capacity_
      repeat' split at hv1
      all_goals try cases hv1
      all_goals try simp only [RawMemory.Swap, RawMemory.store_capacity, RawMemory.ctor_capacity]
      all_goals omega
    · cases hr
  · cases hr

theorem Vector.PopBack_le {α : Type} (v : Vector α)
    (h : v.size_ ≤ v.data_.capacity_) (r : Vector α) (hr : v.PopBack = some r) :
    r.size_ ≤ r.data_.capacity_ := by
  unfold Vector.PopBack at hr
  repeat' split at hr
  all_goals try cases hr
  all_goals try simp only [RawMemory.store_capacity]
  all_goals omega

theorem Vector.Emplace_le {α : Type} (E : ElemTraits α) (v : Vector α) (k : Nat) (x : α)
    (h : v.size_ ≤ v.data_.capacity_) (r : Nat × Vector α)
    (hr : v.Emplace E k x = some r) :
    r.2.size_ ≤ r.2.data_.capacity_ := by
  unfold Vector.Emplace Vector.Capacity RawMemory.Capacity at hr
  generalize hN : (if v.size_ = 0 then 1 else 2 * v.size_) = N at hr
  have hN2 : v.size_ < N := by rw [← hN]; split <;> omega
  simp only [] at hr
  repeat' split at hr
  all_goals try cases hr
  all_goals try simp only [RawMemory.Swap, RawMemory.store_capacity, RawMemory.ctor_capacity]
  all_goals omega

theorem Vector.Erase_le {α : Type} (E : ElemTraits α) (v : Vector α) (k : Nat)
    (h : v.size_ ≤ v.data_.capacity_) (r : Nat × Vector α)
    (hr : v.Erase E k = some r) :
    r.2.size_ ≤ r.2.data_.capacity_ := by
  unfold Vector.Erase at hr
  simp only [] at hr
  repeat' split at hr
  all_goals try cases hr
  all_goals try simp only [RawMemory.store_capacity]
  all_goals omega

theorem Vector.copy_ctor_le {α : Type} (v : Vector α) (r : Vector α)
    (hr : Vector.copy_ctor v = some r) :
    r.size_ ≤ r.data_.capacity_ := by
  unfold Vector.copy_ctor at hr
  simp only [] at hr
  repeat' split at hr
  all_goals try cases hr
  all_goals try simp only [RawMemory.store_capacity, RawMemory.ctor_capacity]
  all_goals omega

theorem Vector.sized_ctor_le {α : Type} (E : ElemTraits α) (n : Nat) (r : Vector α)
    (hr : Vector.sized_ctor E n = some r) :
    r.size_ ≤ r.data_.capacity_ := by
  unfold Vector.sized_ctor at hr
  simp only [] at hr
  repeat' split at hr
  all_goals try cases hr
  all_goals try simp only [RawMemory.store_capacity, RawMemory.ctor_capacity]
  all_goals omega

theorem Vector.copy_assign_le {α : Type} (a : Vector α) (rhs : Rhs α)
    (h : a.size_ ≤ a.data_.capacity_) (r : Vector α)
    (hr : a.copy_assign rhs = some r) :
    r.size_ ≤ r.data_.capacity_ := by
  unfold Vector.copy_assign Vector.Capacity RawMemory.Capacity at hr
  split at hr
  · cases hr
    exact h
  · next b =>
    split at hr
    · repeat' split at hr
      all_goals try cases hr
      all_goals try simp only [RawMemory.store_capacity]
      all_goals omega
    · split at hr
      · repeat' split at hr
        all_goals try cases hr
        all_goals try simp only [RawMemory.store_capacity]
        all_goals omega
      · split at hr
        · next d hd =>
          cases hr
          exact Vector.copy_ctor_le b d hd
        · cases hr

theorem Vector.move_assign_le {α : Type} (d s : Vector α)
    (hd : d.size_ ≤ d.data_.capacity_) (hs : s.size_ ≤ s.data_.capacity_)
    (r : Vector α × Vector α) (hr : d.move_assign s = some r) :
    r.1.size_ ≤ r.1.data_.capacity_ ∧ r.2.size_ ≤ r.2.data_.capacity_ := by
  unfold Vector.move_assign at hr
  split at hr
  · cases hr
    exact ⟨hs, hd⟩
  · split at hr
    · cases hr
      exact ⟨hs, hs⟩
    · cases hr

theorem Vector.sized_ctor_sound {α : Type} (E : ElemTraits α) (n : Nat) :
    ∃ r, Vector.sized_ctor E n = some r ∧ r.WF ∧ r.size_ = n ∧ r.data_.capacity_ = n := by
  obtain ⟨b, e, l, p⟩ := uninitialized_value_construct_n_spec E n
    (RawMemory.ctor n : RawMemory α).cells 0
    (by rw [RawMemory.ctor_cells, List.length_replicate]; omega)
  have hl : b.length = n := by rw [l, RawMemory.ctor_cells, List.length_replicate]
  refine ⟨{ data_ := (RawMemory.ctor n).store b, size_ := n }, ?_, ?_, rfl, ?_⟩
  · unfold Vector.sized_ctor
    simp only [e]
  · refine Vector.WF_mk _ b n (RawMemory.ctor_isNone n) hl
      (by rw [RawMemory.ctor_cells, List.length_replicate]; rfl) (Nat.le_refl _) ?_
    intro i hi
    rw [obj_of_getElem (show b[i]? = some (some E.value_init) by
      rw [p i, if_pos (by omega)])]
    rfl
  · rw [RawMemory.store_capacity]; rfl

theorem Vector.PopBack_sound {α : Type} (v : Vector α) (h : v.WF) (hs : 0 < v.size_) :
    ∃ r, v.PopBack = some r ∧ r.WF ∧ r.size_ = v.size_ - 1 ∧
      r.data_.capacity_ = v.data_.capacity_ ∧
      ∀ j, j + 1 < v.size_ → r.data_.cells[j]? = v.data_.cells[j]? := by
  obtain ⟨hn, hl, hc, hlive⟩ := h
  have hp : ptr_sub v.size_ 1 = some (v.size_ - 1) := by
    simp only [ptr_sub]; rw [if_pos (by omega)]
  have hlast := hlive (v.size_ - 1) (by omega)
  have hcs : (v.data_.store (v.data_.cells.set (v.size_ - 1) none)).cells
      = v.data_.cells.set (v.size_ - 1) none :=
    RawMemory.store_cells _ _ (by rw [List.length_set])
  refine ⟨{ data_ := v.data_.store (v.data_.cells.set (v.size_ - 1) none),
            size_ := v.size_ - 1 }, ?_, ?_, rfl, ?_, ?_⟩
  · unfold Vector.PopBack
    simp only [hp, destroy_at_eq hlast]
  · refine Vector.WF_mk v.data_ _ _ hn (by rw [List.length_set, hl]) hl (by omega) ?_
    intro i hi
    rw [obj_set, if_neg (by omega)]
    exact hlive i (by omega)
  · rw [RawMemory.store_capacity]
  · intro j hj
    show (v.data_.store _).cells[j]? = _
    rw [hcs, List.getElem?_set, if_neg (by omega)]

/-! ## Exact effect of the relocation on the old block -/

theorem CopyOrMoveN_exact {α : Type} (E : ElemTraits α) (src : Block α) (first size : Nat)
    (dst : Block α) (d_first : Nat)
    (h : ∀ i, first ≤ i → i < first + size → (obj src i).isSome = true)
    (hd : d_first + size ≤ dst.length) :
    ∃ src1 dst1, Vector.CopyOrMoveN E src first size dst d_first = some (src1, dst1) ∧
      src1.length = src.length ∧ dst1.length = dst.length ∧
      (∀ j, src1[j]? =
        if (first ≤ j ∧ j < first + size) ∧
            (E.is_nothrow_move_constructible || !E.is_copy_constructible) = true
        then some ((obj src j).map E.moved_from) else src[j]?) ∧
      ∀ j, dst1[j]? = if d_first ≤ j ∧ j < d_first + size then src[first + (j - d_first)]?
        else dst[j]? := by
  unfold Vector.CopyOrMoveN
  by_cases hp : (E.is_nothrow_move_constructible || !E.is_copy_constructible) = true
  · rw [if_pos hp]
    obtain ⟨s1, d1, e, ls, ld, ps, pd⟩ :=
      uninitialized_move_n_spec E size src first dst d_first h hd
    refine ⟨s1, d1, e, ls, ld, ?_, pd⟩
    intro j
    rw [ps j]
    by_cases hj : first ≤ j ∧ j < first + size
    · rw [if_pos hj, if_pos ⟨hj, hp⟩]
    · rw [if_neg hj, if_neg (fun hh => hj hh.1)]
  · rw [if_neg hp]
    obtain ⟨d1, e, ld, pd⟩ := uninitialized_copy_n_spec src size first dst d_first h hd
    refine ⟨src, d1, by rw [e], rfl, ld, ?_, pd⟩
    intro j
    rw [if_neg (fun hh => hp hh.2)]

/-- The growing path of an append that ends without the new element (`TryPush` constructs
nothing, or the constructor of the new element throws): the vector keeps its old block, on
which `CopyOrMoveN` has run. -/
theorem Vector.abandoned_growth {α : Type} (E : ElemTraits α) (v : Vector α) (h : v.WF)
    (hfull : v.size_ = v.data_.capacity_) :
    ∃ old1 new1,
      Vector.CopyOrMoveN E v.data_.cells 0 v.size_
        (RawMemory.ctor (if v.size_ = 0 then 1 else 2 * v.size_) : RawMemory α).cells 0
        = some (old1, new1) ∧
      v.size_ < new1.length ∧
      let v1 : Vector α := { data_ := v.data_.store old1, size_ := v.size_ }
      v1.WF ∧ v1.data_.capacity_ = v.data_.capacity_ ∧
      ∀ i, i < v.size_ → v1.get i =
        if (E.is_nothrow_move_constructible || !E.is_copy_constructible) = true
        then (v.get i).map E.moved_from else v.get i := by
  obtain ⟨hn, hl, hs, hlive⟩ := h
  have hcap : (if v.size_ = 0 then 1 else 2 * v.size_) = max 1 (2 * v.size_) := by
    split <;> omega
  rw [hcap]
  obtain ⟨s1, d1, e, ls, ld, ps, pd⟩ := CopyOrMoveN_exact E v.data_.cells 0 v.size_
    (RawMemory.ctor (max 1 (2 * v.size_)) : RawMemory α).cells 0
    (fun i _ hi => hlive i (by omega))
    (by rw [RawMemory.ctor_cells, List.length_replicate]; omega)
  rw [RawMemory.ctor_cells, List.length_replicate] at ld
  simp only [Nat.zero_le, true_and, Nat.zero_add] at ps
  have hc : (v.data_.store s1).cells = s1 := RawMemory.store_cells _ _ ls
  have hw : (Vector.mk (v.data_.store s1) v.size_).WF := by
    refine Vector.WF_mk v.data_ s1 _ hn (by rw [ls, hl]) hl hs ?_
    intro i hi
    by_cases hp : (E.is_nothrow_move_constructible || !E.is_copy_constructible) = true
    · rw [obj_of_getElem (show s1[i]? = some ((obj v.data_.cells i).map E.moved_from) by
        rw [ps i, if_pos ⟨hi, hp⟩]), Option.isSome_map']
      exact hlive i hi
    · rw [obj_congr (show s1[i]? = v.data_.cells[i]? by
        rw [ps i, if_neg (fun hh => hp hh.2)])]
      exact hlive i hi
  refine ⟨s1, d1, e, by omega, hw, RawMemory.store_capacity _ _, ?_⟩
  intro i hi
  rw [Vector.get_eq _ hw.2.2.1, if_pos hi, Vector.get_eq v hs, if_pos hi]
  show obj (v.data_.store s1).cells i = _
  rw [hc]
  by_cases hp : (E.is_nothrow_move_constructible || !E.is_copy_constructible) = true
  · rw [if_pos hp, obj_of_getElem (show s1[i]? = some ((obj v.data_.cells i).map E.moved_from)
      by rw [ps i, if_pos ⟨hi, hp⟩])]
  · rw [if_neg hp]
    exact obj_congr (by rw [ps i, if_neg (fun hh => hp hh.2)])

theorem Arg.read_valid {α : Type} (a : Arg α) (b : Block α) (n : Nat)
    (ha : a.valid n = true) (hlive : ∀ i, i < n → (obj b i).isSome = true) :
    ∃ x, a.read b = some x := by
  cases a with
  | outside x => exact ⟨x, rfl⟩
  | elem i =>
    have hi : i < n := by simpa [Arg.valid] using ha
    exact Option.isSome_iff_exists.mp (hlive i hi)

theorem Arg.consumed_length {α : Type} (E : ElemTraits α) (a : Arg α) (r : Bool)
    (b : Block α) : (a.consumed E r b).length = b.length := by
  cases a with
  | outside x => rfl
  | elem i =>
    unfold Arg.consumed
    cases r
    · rfl
    · cases h : obj b i with
      | none => simp [h]
      | some x => simp [h]

theorem Arg.consumed_isSome {α : Type} (E : ElemTraits α) (a : Arg α) (r : Bool)
    (b : Block α) (j : Nat) : (obj (a.consumed E r b) j).isSome = (obj b j).isSome := by
  cases a with
  | outside x => rfl
  | elem i =>
    unfold Arg.consumed
    cases r
    · rfl
    · cases h : obj b i with
      | none => simp [h]
      | some x =>
        simp only [if_true, h]
        rw [obj_set]
        by_cases hij : i = j
        · subst hij
          rw [if_pos rfl, if_pos (obj_lt_length (by rw [h]; rfl)), h]
          rfl
        · rw [if_neg hij]

/-- The slots a `PushBack` leaves untouched when it has moved from its argument: all but the
slot of the element referred to. -/
theorem Arg.consumed_getElem {α : Type} (E : ElemTraits α) (a : Arg α) (r : Bool)
    (b : Block α) (j : Nat) (hj : a ≠ Arg.elem j ∨ r = false) :
    (a.consumed E r b)[j]? = b[j]? := by
  cases a with
  | outside x => rfl
  | elem i =>
    unfold Arg.consumed
    cases r
    · rfl
    · have hij : i ≠ j := by
        rcases hj with hj | hj
        · intro hh; exact hj (by rw [hh])
        · cases hj
      cases h : obj b i with
      | none => simp [h]
      | some x =>
        simp only [if_true, h]
        rw [List.getElem?_set, if_neg hij]

/-- The relocation of all elements of a vector into the block `PushBack`, `EmplaceBack` and
`Emplace` allocate when they grow: both blocks afterwards. -/
theorem Vector.relocate_all {α : Type} (E : ElemTraits α) (v : Vector α) (h : v.WF) :
    ∃ old1 new1,
      Vector.CopyOrMoveN E v.data_.cells 0 v.size_
        (RawMemory.ctor (if v.size_ = 0 then 1 else 2 * v.size_) : RawMemory α).cells 0
        = some (old1, new1) ∧
      old1.length = v.data_.cells.length ∧ new1.length = max 1 (2 * v.size_) ∧
      (∀ j, old1[j]? =
        if j < v.size_ ∧ (E.is_nothrow_move_constructible || !E.is_copy_constructible) = true
        then some ((obj v.data_.cells j).map E.moved_from) else v.data_.cells[j]?) ∧
      (∀ j, j < v.size_ → new1[j]? = v.data_.cells[j]?) ∧
      (∀ j, v.size_ ≤ j → obj new1 j = none) ∧
      ∀ i, i < v.size_ → (obj old1 i).isSome = true := by
  obtain ⟨hn, hl, hs, hlive⟩ := h
  have hcap : (if v.size_ = 0 then 1 else 2 * v.size_) = max 1 (2 * v.size_) := by
    split <;> omega
  rw [hcap]
  obtain ⟨s1, d1, e, ls, ld, ps, pd⟩ := CopyOrMoveN_exact E v.data_.cells 0 v.size_
    (RawMemory.ctor (max 1 (2 * v.size_)) : RawMemory α).cells 0
    (fun i _ hi => hlive i (by omega))
    (by rw [RawMemory.ctor_cells, List.length_replicate]; omega)
  rw [RawMemory.ctor_cells, List.length_replicate] at ld
  simp only [Nat.zero_le, true_and, Nat.zero_add, Nat.sub_zero] at ps pd
  refine ⟨s1, d1, e, ls, ld, ps, ?_, ?_, ?_⟩
  · intro j hj
    rw [pd j, if_pos hj]
  · intro j hj
    have hr : d1[j]? = (List.replicate (max 1 (2 * v.size_)) (none : Slot α))[j]? := by
      rw [pd j, if_neg (by omega), RawMemory.ctor_cells]
    unfold obj
    rw [hr, List.getElem?_replicate]
    by_cases hjn : j < max 1 (2 * v.size_) <;> simp [hjn]
  · intro i hi
    by_cases hp : (E.is_nothrow_move_constructible || !E.is_copy_constructible) = true
    · rw [obj_of_getElem (show s1[i]? = some ((obj v.data_.cells i).map E.moved_from) by
        rw [ps i, if_pos ⟨hi, hp⟩]), Option.isSome_map']
      exact hlive i hi
    · rw [obj_congr (show s1[i]? = v.data_.cells[i]? by
        rw [ps i, if_neg (fun hh => hp hh.2)])]
      exact hlive i hi

theorem Vector.TryPush_nothing {α : Type} (E : ElemTraits α) (b : Block α) (n : Nat) (x : α)
    (is_rvalue : Bool)
    (hctor : (if is_rvalue then E.is_move_constructible else E.is_copy_constructible) = false) :
    Vector.TryPush E b n x is_rvalue = some (b, false) := by
  unfold Vector.TryPush
  cases is_rvalue <;> simp_all

/-- `PushBack` when `T` cannot be constructed from the argument. -/
theorem Vector.PushBack_nothing {α : Type} (E : ElemTraits α) (v : Vector α) (a : Arg α)
    (is_rvalue : Bool) (h : v.WF) (ha : a.valid v.size_ = true)
    (hctor : (if is_rvalue then E.is_move_constructible else E.is_copy_constructible) = false) :
    ∃ r, v.PushBack E a is_rvalue = some r ∧ r.WF ∧ r.size_ = v.size_ ∧
      r.data_.capacity_ = v.data_.capacity_ ∧
      ∀ i, i < v.size_ → r.get i =
        if v.size_ = v.data_.capacity_ ∧
            (E.is_nothrow_move_constructible || !E.is_copy_constructible) = true
        then (v.get i).map E.moved_from else v.get i := by
  by_cases hfull : v.size_ = v.data_.capacity_
  · obtain ⟨old1, new1, e, _, w, c, p⟩ := Vector.abandoned_growth E v h hfull
    have hlive1 : ∀ i, i < v.size_ → (obj old1 i).isSome = true := by
      obtain ⟨o, n1, e', _, _, _, _, _, hl1⟩ := Vector.relocate_all E v h
      rw [e] at e'
      cases e'
      exact hl1
    obtain ⟨x, hx⟩ := Arg.read_valid a old1 v.size_ ha hlive1
    refine ⟨{ data_ := v.data_.store old1, size_ := v.size_ }, ?_, w, rfl, c, ?_⟩
    · unfold Vector.PushBack Vector.Capacity RawMemory.Capacity
      simp only [if_pos hfull, e, hx, Vector.TryPush_nothing E new1 _ x is_rvalue hctor]
    · intro i hi
      rw [p i hi]
      by_cases hp : (E.is_nothrow_move_constructible || !E.is_copy_constructible) = true
      · rw [if_pos hp, if_pos ⟨hfull, hp⟩]
      · rw [if_neg hp, if_neg (fun hh => hp hh.2)]
  · have hc : (v.data_.store v.data_.cells).cells = v.data_.cells :=
      RawMemory.store_cells _ _ rfl
    have hw : (Vector.mk (v.data_.store v.data_.cells) v.size_).WF :=
      Vector.WF_mk v.data_ _ _ h.1 h.2.1 h.2.1 h.2.2.1 h.2.2.2
    obtain ⟨x, hx⟩ := Arg.read_valid a v.data_.cells v.size_ ha h.2.2.2
    refine ⟨{ data_ := v.data_.store v.data_.cells, size_ := v.size_ }, ?_, hw, rfl,
      RawMemory.store_capacity _ _, ?_⟩
    · unfold Vector.PushBack Vector.Capacity RawMemory.Capacity
      simp only [if_neg hfull, hx, Vector.TryPush_nothing E _ _ x is_rvalue hctor]
    · intro i hi
      rw [if_neg (fun hh => hfull hh.1), Vector.get_eq _ hw.2.2.1, if_pos hi,
        Vector.get_eq v h.2.2.1, if_pos hi]
      show obj (v.data_.store v.data_.cells).cells i = _
      rw [hc]

theorem Vector.PushBack_grows {α : Type} (E : ElemTraits α) (v : Vector α) (a : Arg α)
    (is_rvalue : Bool) (h : v.WF) (ha : a.valid v.size_ = true)
    (hctor : (if is_rvalue then E.is_move_constructible else E.is_copy_constructible) = true) :
    ∃ r, v.PushBack E a is_rvalue = some r ∧ r.size_ = v.size_ + 1 := by
  by_cases hfull : v.size_ = v.data_.capacity_
  · obtain ⟨old1, new1, e, l1, l2, _, _, _, hl1⟩ := Vector.relocate_all E v h
    obtain ⟨x, hx⟩ := Arg.read_valid a old1 v.size_ ha hl1
    obtain ⟨old2, e2, _⟩ := destroy_n_spec v.size_ (a.consumed E is_rvalue old1) 0
      (fun i _ hi => by rw [Arg.consumed_isSome]; exact hl1 i (by omega))
    have hlt : v.size_ < new1.length := by omega
    unfold Vector.PushBack Vector.Capacity RawMemory.Capacity
    simp only [if_pos hfull, e, hx, Vector.TryPush_constructs E new1 _ x is_rvalue hctor hlt, e2]
    exact ⟨_, rfl, rfl⟩
  · obtain ⟨x, hx⟩ := Arg.read_valid a v.data_.cells v.size_ ha h.2.2.2
    have hlt : v.size_ < v.data_.cells.length := by
      have := h.2.1; have := h.2.2.1; omega
    unfold Vector.PushBack Vector.Capacity RawMemory.Capacity
    simp only [if_neg hfull, hx, Vector.TryPush_constructs E _ _ x is_rvalue hctor hlt]
    exact ⟨_, rfl, rfl⟩

theorem Vector.PushBack_defined {α : Type} (E : ElemTraits α) (v : Vector α) (a : Arg α)
    (is_rvalue : Bool) (h : v.WF) (ha : a.valid v.size_ = true) :
    ∃ r, v.PushBack E a is_rvalue = some r := by
  by_cases hc : (if is_rvalue then E.is_move_constructible else E.is_copy_constructible) = true
  · obtain ⟨r, e, _⟩ := Vector.PushBack_grows E v a is_rvalue h ha hc
    exact ⟨r, e⟩
  · obtain ⟨r, e, _⟩ := Vector.PushBack_nothing E v a is_rvalue h ha (by simpa using hc)
    exact ⟨r, e⟩

/-! ## The exception-aware operations when nothing throws -/

theorem RawMemory.ctor_exc_true {α : Type} (n : Nat) :
    (RawMemory.ctor_exc true n : Except Exc (RawMemory α)) = Except.ok (RawMemory.ctor n) := by
  unfold RawMemory.ctor_exc RawMemory.Allocate_exc RawMemory.ctor RawMemory.Allocate
  by_cases h : n = 0 <;> simp [h]

theorem RawMemory.ctor_exc_false {α : Type} (n : Nat) (h : n ≠ 0) :
    (RawMemory.ctor_exc false n : Except Exc (RawMemory α)) = Except.error Exc.bad_alloc := by
  unfold RawMemory.ctor_exc RawMemory.Allocate_exc
  simp [h]

theorem construct_exc_some {α : Type} (b : Block α) (i : Nat) (x : α) :
    construct_exc b i (some x) = (construct_at b i x).map Except.ok := by
  unfold construct_exc construct_at
  split <;> rfl

theorem construct_exc_none {α : Type} (b : Block α) (i : Nat) (h : i < b.length) :
    construct_exc b i (none : Option α) = some (Except.error Exc.element) := by
  unfold construct_exc
  rw [if_pos h]

theorem Vector.TryPush_exc_ok {α : Type} (E : ElemTraits α) (b : Block α) (n : Nat) (x : α)
    (is_rvalue : Bool) :
    Vector.TryPush_exc E b n x is_rvalue true
      = (Vector.TryPush E b n x is_rvalue).map Except.ok := by
  unfold Vector.TryPush_exc Vector.TryPush
  simp only [if_true, construct_exc_some]
  repeat' split
  all_goals simp_all

theorem Vector.Reserve_exc_ok {α : Type} (E : ElemTraits α) (v : Vector α) (n : Nat) :
    v.Reserve_exc E true n = (v.Reserve E n).map (Outcome.returned ()) := by
  unfold Vector.Reserve_exc Vector.Reserve
  simp only [RawMemory.ctor_exc_true]
  repeat' split
  all_goals simp_all

theorem Vector.Resize_exc_ok {α : Type} (E : ElemTraits α) (v : Vector α) (n : Nat) :
    v.Resize_exc E true n = (v.Resize E n).map (Outcome.returned ()) := by
  unfold Vector.Resize_exc Vector.Resize
  simp only [Vector.Reserve_exc_ok]
  repeat' split
  all_goals simp_all

theorem Vector.PushBack_exc_ok {α : Type} (E : ElemTraits α) (v : Vector α) (x : α)
    (is_rvalue : Bool) :
    v.PushBack_exc E true x is_rvalue true
      = (v.PushBack E (Arg.outside x) is_rvalue).map (Outcome.returned ()) := by
  unfold Vector.PushBack_exc Vector.PushBack
  generalize (if v.size_ = 0 then 1 else 2 * v.size_) = N
  simp only [RawMemory.ctor_exc_true, Vector.TryPush_exc_ok, Arg.read, Arg.consumed]
  repeat' split
  all_goals simp_all

theorem Vector.EmplaceBack_exc_ok {α : Type} (E : ElemTraits α) (v : Vector α) (x : α) :
    v.EmplaceBack_exc E true (some x)
      = (v.EmplaceBack E (Arg.outside x)).map (fun r => Outcome.returned r.1 r.2) := by
  unfold Vector.EmplaceBack_exc Vector.EmplaceBack
  generalize (if v.size_ = 0 then 1 else 2 * v.size_) = N
  simp only [RawMemory.ctor_exc_true, construct_exc_some, Arg.made]
  by_cases hfull : v.size_ = v.Capacity
  · simp only [if_pos hfull]
    cases hC : Vector.CopyOrMoveN E v.data_.cells 0 v.size_ (RawMemory.ctor N).cells 0 with
    | none => rfl
    | some p =>
      obtain ⟨old1, new1⟩ := p
      simp only []
      cases hK : construct_at new1 v.size_ x with
      | none => rfl
      | some new2 =>
        simp only [Option.map_some']
        cases hD : destroy_n old1 0 v.size_ with
        | none => rfl
        | some old2 =>
          simp only []
          cases hI : RawMemory.index ((v.data_.store old2).Swap
            ((RawMemory.ctor N).store new2)).1 (v.size_ + 1 - 1) <;> rfl
  · simp only [if_neg hfull]
    cases hK : construct_at v.data_.cells v.size_ x with
    | none => rfl
    | some b =>
      simp only [Option.map_some']
      cases hI : RawMemory.index (v.data_.store b) (v.size_ + 1 - 1) <;> rfl

theorem Vector.Emplace_exc_ok {α : Type} (E : ElemTraits α) (v : Vector α) (k : Nat) (x : α) :
    v.Emplace_exc E k true (some x)
      = (v.Emplace E k x).map (fun r => Outcome.returned r.1 r.2) := by
  unfold Vector.Emplace_exc Vector.Emplace
  generalize (if v.size_ = 0 then 1 else 2 * v.size_) = N
  simp only [RawMemory.ctor_exc_true, construct_exc_some]
  repeat' split
  all_goals simp_all

theorem Vector.copy_ctor_exc_ok {α : Type} (v : Vector α) :
    Vector.copy_ctor_exc true v = (Vector.copy_ctor v).map Except.ok := by
  unfold Vector.copy_ctor_exc Vector.copy_ctor
  simp only [RawMemory.ctor_exc_true]
  repeat' split
  all_goals simp_all

theorem Vector.copy_assign_exc_ok {α : Type} (a b : Vector α) :
    a.copy_assign_exc b true = (a.copy_assign (Rhs.other b)).map (Outcome.returned ()) := by
  unfold Vector.copy_assign_exc Vector.copy_assign
  simp only [Vector.copy_ctor_exc_ok]
  repeat' split
  all_goals simp_all

/-! ## Exceptions on the growing paths -/

/-- `EmplaceBack` on a full vector when `T(args...)` throws: the exception leaves the vector
with its old block, on which `CopyOrMoveN` has already run. -/
theorem Vector.EmplaceBack_exc_throw {α : Type} (E : ElemTraits α) (v : Vector α) (h : v.WF)
    (hfull : v.size_ = v.data_.capacity_) :
    ∃ r, v.EmplaceBack_exc E true none = some (Outcome.thrown Exc.element r) ∧ r.WF ∧
      r.size_ = v.size_ ∧ r.data_.capacity_ = v.data_.capacity_ ∧
      ∀ i, i < v.size_ → r.get i =
        if (E.is_nothrow_move_constructible || !E.is_copy_constructible) = true
        then (v.get i).map E.moved_from else v.get i := by
  obtain ⟨old1, new1, e, hlt, w, c, p⟩ := Vector.abandoned_growth E v h hfull
  refine ⟨{ data_ := v.data_.store old1, size_ := v.size_ }, ?_, w, rfl, c, p⟩
  unfold Vector.EmplaceBack_exc Vector.Capacity RawMemory.Capacity
  simp only [if_pos hfull, RawMemory.ctor_exc_true, e, construct_exc_none new1 _ hlt]

/-- `PushBack` on a full vector when the constructor of the pushed element throws. -/
theorem Vector.PushBack_exc_throw {α : Type} (E : ElemTraits α) (v : Vector α) (x : α)
    (is_rvalue : Bool) (h : v.WF) (hfull : v.size_ = v.data_.capacity_)
    (hctor : (if is_rvalue then E.is_move_constructible else E.is_copy_constructible) = true) :
    ∃ r, v.PushBack_exc E true x is_rvalue false = some (Outcome.thrown Exc.element r) ∧
      r.WF ∧ r.size_ = v.size_ ∧ r.data_.capacity_ = v.data_.capacity_ ∧
      ∀ i, i < v.size_ → r.get i =
        if (E.is_nothrow_move_constructible || !E.is_copy_constructible) = true
        then (v.get i).map E.moved_from else v.get i := by
  obtain ⟨old1, new1, e, hlt, w, c, p⟩ := Vector.abandoned_growth E v h hfull
  refine ⟨{ data_ := v.data_.store old1, size_ := v.size_ }, ?_, w, rfl, c, p⟩
  have ht : Vector.TryPush_exc E new1 v.size_ x is_rvalue false
      = some (Except.error Exc.element) := by
    unfold Vector.TryPush_exc
    cases is_rvalue
    · simp only [Bool.false_eq_true, if_false] at hctor ⊢
      rw [if_pos hctor, construct_exc_none new1 _ hlt]
    · simp only [if_true, Bool.false_eq_true, if_false] at hctor ⊢
      rw [if_pos hctor, construct_exc_none new1 _ hlt]
  unfold Vector.PushBack_exc Vector.Capacity RawMemory.Capacity
  simp only [if_pos hfull, RawMemory.ctor_exc_true, e, ht]

/-! ## The non-growing insertion at its boundaries -/

theorem obj_replicate_none {α : Type} (n j : Nat) :
    obj (List.replicate n (none : Slot α)) j = none := by
  unfold obj
  rw [List.getElem?_replicate]
  by_cases h : j < n <;> simp [h]

/-- Without growth, `Emplace` at `end()` has no defined result, whatever the vector holds. -/
theorem Vector.Emplace_at_end_fit_none {α : Type} (E : ElemTraits α) (v : Vector α) (x : α)
    (hfit : v.size_ ≠ v.data_.capacity_) : v.Emplace E v.size_ x = none := by
  have hp1 : ptr_sub v.size_ v.size_ = some (v.size_ - v.size_) := by
    simp only [ptr_sub]; rw [if_pos (Nat.le_refl _)]
  unfold Vector.Emplace Vector.Capacity RawMemory.Capacity
  simp only [hp1, if_neg hfit]
  by_cases h0 : v.size_ = 0
  · have hp2 : ptr_sub v.size_ 1 = none := by
      simp only [ptr_sub]; rw [if_neg (by omega)]
    simp only [hp2]
  · have hp2 : ptr_sub v.size_ 1 = some (v.size_ - 1) := by
      simp only [ptr_sub]; rw [if_pos (by omega)]
    have hm : ∀ b : Block α, move_backward E b v.size_ (v.size_ - 1) v.size_ = none := by
      intro b
      unfold move_backward
      rw [if_neg (by omega)]
    have hcb : ∀ b : Block α, copy_backward b v.size_ (v.size_ - 1) v.size_ = none := by
      intro b
      unfold copy_backward
      rw [if_neg (by omega)]
    simp only [hp2, hm, hcb, ite_self]
    split <;> rfl

theorem Vector.Emplace_fit_frame {α : Type} (E : ElemTraits α) (v : Vector α) (k : Nat) (x : α)
    (h : v.WF) (hfit : v.size_ ≠ v.data_.capacity_) (hk : k < v.size_) :
    ∃ v1, v.Emplace E k x = some (k, v1) ∧
      ∀ j, v.size_ < j → v1.data_.cells[j]? = v.data_.cells[j]? := by
  obtain ⟨hn, hl, hs, hlive⟩ := h
  have hp1 : ptr_sub v.size_ k = some (v.size_ - k) := by
    simp only [ptr_sub]; rw [if_pos (by omega)]
  have hp2 : ptr_sub v.size_ 1 = some (v.size_ - 1) := by
    simp only [ptr_sub]; rw [if_pos (by omega)]
  obtain ⟨b1, e1, l1, p1, r1, q1⟩ := CopyOrMove_spec E v.data_.cells (v.size_ - 1) v.size_
    (by omega) (hlive _ (by omega)) (by omega)
  have hlive1 : ∀ i, k ≤ i → i < v.size_ → (obj b1 i).isSome = true := by
    intro i _ hi
    by_cases hi2 : i = v.size_ - 1
    · rw [hi2]; exact r1
    · rw [obj_congr (q1 i hi2 (by omega))]
      exact hlive i hi
  obtain ⟨b2, e2, l2, p2, q2, r2⟩ := Vector.shift_back E b1 k v.size_ hk hlive1
  have hi : v.data_.index k = some k := by
    simp only [RawMemory.index]; rw [if_pos (by omega)]
  have hc : (v.data_.store (b2.set k (some x))).cells = b2.set k (some x) :=
    RawMemory.store_cells _ _ (by rw [List.length_set, l2, l1])
  refine ⟨{ data_ := v.data_.store (b2.set k (some x)), size_ := v.size_ + 1 }, ?_, ?_⟩
  · unfold Vector.Emplace Vector.Capacity RawMemory.Capacity
    simp only [hp1, if_neg hfit, hp2, e1, e2, hi, assign_at_eq x r2]
  · intro j hj
    show (v.data_.store (b2.set k (some x))).cells[j]? = _
    rw [hc, List.getElem?_set, if_neg (by omega), q2 j (Or.inr (by omega)),
      q1 j (by omega) (by omega)]

theorem Vector.Emplace_grow_frame {α : Type} (E : ElemTraits α) (v : Vector α) (k : Nat)
    (x : α) (h : v.WF) (hfull : v.size_ = v.data_.capacity_) (hk : k ≤ v.size_) :
    ∃ v1, v.Emplace E k x = some (k, v1) ∧
      ∀ j, v.size_ < j → obj v1.data_.cells j = none := by
  obtain ⟨hn, hl, hs, hlive⟩ := h
  have hcap : (if v.size_ = 0 then 1 else 2 * v.size_) = max 1 (2 * v.size_) := by
    split <;> omega
  have hn0 : max 1 (2 * v.size_) ≠ 0 := by omega
  have hp1 : ptr_sub v.size_ k = some (v.size_ - k) := by
    simp only [ptr_sub]; rw [if_pos (by omega)]
  have hr : (RawMemory.ctor (max 1 (2 * v.size_)) : RawMemory α).cells.length
      = max 1 (2 * v.size_) := by
    rw [RawMemory.ctor_cells, List.length_replicate]
  obtain ⟨s1, d1, e1, ls1, ld1, plive1, ps1, pd1⟩ := CopyOrMoveN_spec E v.data_.cells 0 k
    ((RawMemory.ctor (max 1 (2 * v.size_)) : RawMemory α).cells.set k (some x)) 0
    (fun i _ hi => hlive i (by omega)) (by rw [List.length_set, hr]; omega)
  obtain ⟨s2, d2, e2, ls2, ld2, plive2, ps2, pd2⟩ := CopyOrMoveN_spec E s1 k (v.size_ - k)
    d1 (k + 1)
    (fun i _ hi => by rw [plive1 i]; exact hlive i (by omega))
    (by rw [ld1, List.length_set, hr]; omega)
  obtain ⟨s3, e3, _, _⟩ := destroy_n_spec v.size_ s2 0
    (fun i _ hi => by rw [plive2 i, plive1 i]; exact hlive i (by omega))
  simp only [Nat.zero_le, true_and, Nat.zero_add, Nat.sub_zero] at pd1
  have hplus : (RawMemory.ctor (max 1 (2 * v.size_)) : RawMemory α).plus k = some k := by
    simp only [RawMemory.plus, RawMemory.ctor_capacity]; rw [if_pos (by omega)]
  refine ⟨{ data_ := (RawMemory.ctor (max 1 (2 * v.size_))).store d2, size_ := v.size_ + 1 },
    ?_, ?_⟩
  · unfold Vector.Emplace Vector.Capacity RawMemory.Capacity
    simp only [hp1, if_pos hfull, hcap, construct_at_eq x (show k < _ by rw [hr]; omega), e1,
      hplus, e2, e3, RawMemory.Swap]
  · intro j hj
    rw [RawMemory.ctor_store _ hn0]
    show obj d2 j = none
    have hj2 : d2[j]? = (List.replicate (max 1 (2 * v.size_)) (none : Slot α))[j]? := by
      rw [pd2 j, if_neg (by omega), pd1 j, if_neg (by omega), List.getElem?_set,
        if_neg (by omega), RawMemory.ctor_cells]
    rw [obj_congr hj2]
    exact obj_replicate_none _ _

/-! ## What the in-place shift leaves in its first source slot -/

theorem RawMemory.ctor_sized_eq {α : Type} (sizeof_T n : Nat) (hs : 0 < sizeof_T)
    (hfit : n * sizeof_T < 2 ^ 64) :
    (RawMemory.ctor_sized sizeof_T n : RawMemory α) = RawMemory.ctor n := by
  unfold RawMemory.ctor_sized RawMemory.ctor RawMemory.Allocate_sized RawMemory.Allocate
  rw [Nat.mod_eq_of_lt hfit, Nat.mul_div_cancel n hs]

theorem Vector.Reserve_sized_fst {α : Type} (E : ElemTraits α) (sizeof_T : Nat) (v : Vector α)
    (n : Nat) (hs : 0 < sizeof_T) (hfit : n ≤ v.data_.capacity_ ∨ n * sizeof_T < 2 ^ 64) :
    (v.Reserve_sized E sizeof_T n).map Prod.fst = v.Reserve E n := by
  unfold Vector.Reserve_sized Vector.Reserve RawMemory.Capacity
  by_cases hg : n > v.data_.capacity_
  · have hf : n * sizeof_T < 2 ^ 64 := by
      rcases hfit with h1 | h1
      · omega
      · exact h1
    simp only [if_pos hg, RawMemory.ctor_sized_eq sizeof_T n hs hf]
    cases hC : Vector.CopyOrMoveN E v.data_.cells 0 v.size_ (RawMemory.ctor n).cells 0 with
    | none => rfl
    | some p =>
      obtain ⟨old1, new1⟩ := p
      simp only []
      cases hD : destroy_n old1 0 v.size_ <;> rfl
  · simp only [if_neg hg, Option.map_some']

theorem Vector.Resize_sized_eq {α : Type} (E : ElemTraits α) (sizeof_T : Nat) (v : Vector α)
    (n : Nat) (hs : 0 < sizeof_T) (hfit : n ≤ v.data_.capacity_ ∨ n * sizeof_T < 2 ^ 64) :
    v.Resize_sized E sizeof_T n = v.Resize E n := by
  have hR := Vector.Reserve_sized_fst E sizeof_T v n hs hfit
  unfold Vector.Resize_sized Vector.Resize
  by_cases hlt : n < v.size_
  · simp only [if_pos hlt]
  · simp only [if_neg hlt]
    cases hS : v.Reserve_sized E sizeof_T n with
    | none =>
      rw [hS] at hR
      rw [← hR]
      rfl
    | some p =>
      obtain ⟨v1, o⟩ := p
      rw [hS] at hR
      rw [← hR]
      rfl

/-- `Reserve` that grows, with the byte count of the request fitting `size_t`: the vector
afterwards and the old block as the relocation left it. -/
theorem Vector.Reserve_sized_grows {α : Type} (E : ElemTraits α) (sizeof_T : Nat)
    (v : Vector α) (n : Nat) (h : v.WF) (hs : 0 < sizeof_T) (hg : n > v.data_.capacity_)
    (hfit : n * sizeof_T < 2 ^ 64) :
    ∃ v1 old1, v.Reserve_sized E sizeof_T n = some (v1, some old1) ∧
      v.Reserve E n = some v1 ∧
      Vector.CopyOrMoveN E v.data_.cells 0 v.size_ (RawMemory.ctor n : RawMemory α).cells 0
        = some (old1, v1.data_.cells) ∧
      old1.length = v.data_.cells.length ∧
      ∀ j, old1[j]? =
        if j < v.size_ ∧ (E.is_nothrow_move_constructible || !E.is_copy_constructible) = true
        then some ((obj v.data_.cells j).map E.moved_from) else v.data_.cells[j]? := by
  obtain ⟨hn, hl, hsz, hlive⟩ := h
  have hn0 : n ≠ 0 := by omega
  obtain ⟨s1, d1, e, ls, ld, ps, pd⟩ := CopyOrMoveN_exact E v.data_.cells 0 v.size_
    (RawMemory.ctor n : RawMemory α).cells 0 (fun i _ hi => hlive i (by omega))
    (by rw [RawMemory.ctor_cells, List.length_replicate]; omega)
  simp only [Nat.zero_le, true_and, Nat.zero_add] at ps
  obtain ⟨s2, e2, _, _⟩ := destroy_n_spec v.size_ s1 0 (fun i _ hi => by
    by_cases hp : (E.is_nothrow_move_constructible || !E.is_copy_constructible) = true
    · rw [obj_of_getElem (show s1[i]? = some ((obj v.data_.cells i).map E.moved_from) by
        rw [ps i, if_pos ⟨by omega, hp⟩]), Option.isSome_map']
      exact hlive i (by omega)
    · rw [obj_congr (show s1[i]? = v.data_.cells[i]? by
        rw [ps i, if_neg (fun hh => hp hh.2)])]
      exact hlive i (by omega))
  refine ⟨{ data_ := (RawMemory.ctor n).store d1, size_ := v.size_ }, s1, ?_, ?_, ?_, ls, ps⟩
  · unfold Vector.Reserve_sized RawMemory.Capacity
    simp only [if_pos hg, RawMemory.ctor_sized_eq sizeof_T n hs hfit, e, e2, RawMemory.Swap]
  · unfold Vector.Reserve RawMemory.Capacity
    simp only [if_pos hg, e, e2, RawMemory.Swap]
  · rw [e]
    show some (s1, d1) = some (s1, ((RawMemory.ctor n).store d1).cells)
    rw [RawMemory.ctor_store n hn0]
    rfl

/-! ## The old block after the relocation of a full vector -/

theorem Vector.PushBack_with_old_spec {α : Type} (E : ElemTraits α) (v : Vector α) (a : Arg α)
    (is_rvalue : Bool) (h : v.WF) (hfull : v.size_ = v.data_.capacity_)
    (ha : a.valid v.size_ = true) :
    ∃ v1 old1, v.PushBack_with_old E a is_rvalue = some (v1, some old1) ∧
      v.PushBack E a is_rvalue = some v1 ∧
      (∀ j, old1[j]? =
        if j < v.size_ ∧ (E.is_nothrow_move_constructible || !E.is_copy_constructible) = true
        then some ((obj v.data_.cells j).map E.moved_from) else v.data_.cells[j]?) ∧
      ∀ i, i < v.size_ → v1.get i =
        if (if is_rvalue then E.is_move_constructible else E.is_copy_constructible) = true
        then v.get i else obj old1 i := by
  obtain ⟨old1, new1, e, l1, l2, ps, pn, _, hl1⟩ := Vector.relocate_all E v h
  obtain ⟨x, hx⟩ := Arg.read_valid a old1 v.size_ ha hl1
  have hN0 : (if v.size_ = 0 then 1 else 2 * v.size_) ≠ 0 := by split <;> omega
  have hNs : v.size_ + 1 ≤ (if v.size_ = 0 then 1 else 2 * v.size_) := by split <;> omega
  by_cases hctor :
      (if is_rvalue then E.is_move_constructible else E.is_copy_constructible) = true
  · obtain ⟨old2, e2, _⟩ := destroy_n_spec v.size_ (a.consumed E is_rvalue old1) 0
      (fun i _ hi => by rw [Arg.consumed_isSome]; exact hl1 i (by omega))
    have hlt : v.size_ < new1.length := by omega
    refine ⟨Vector.mk ((RawMemory.ctor (if v.size_ = 0 then 1 else 2 * v.size_)).store
        (new1.set v.size_ (some x))) (v.size_ + 1), old1, ?_, ?_, ps, ?_⟩
    · unfold Vector.PushBack_with_old Vector.Capacity RawMemory.Capacity
      simp only [if_pos hfull, e, hx, Vector.TryPush_constructs E new1 _ x is_rvalue hctor hlt,
        e2, RawMemory.Swap]
    · unfold Vector.PushBack Vector.Capacity RawMemory.Capacity
      simp only [if_pos hfull, e, hx, Vector.TryPush_constructs E new1 _ x is_rvalue hctor hlt,
        e2, RawMemory.Swap]
    · intro i hi
      rw [if_pos hctor, Vector.get_eq v h.2.2.1, if_pos hi, Vector.get_eq _ (by
        show v.size_ + 1 ≤ ((RawMemory.ctor _).store _).capacity_
        rw [RawMemory.store_capacity, RawMemory.ctor_capacity]; exact hNs)]
      show (if i < v.size_ + 1 then obj ((RawMemory.ctor _).store _).cells i else none) = _
      rw [if_pos (by omega), RawMemory.ctor_store _ hN0]
      show obj (new1.set v.size_ (some x)) i = _
      rw [obj_set, if_neg (by omega)]
      exact obj_congr (pn i hi)
  · have hctor2 :
        (if is_rvalue then E.is_move_constructible else E.is_copy_constructible) = false := by
      simpa using hctor
    refine ⟨{ data_ := v.data_.store old1, size_ := v.size_ }, old1, ?_, ?_, ps, ?_⟩
    · unfold Vector.PushBack_with_old Vector.Capacity RawMemory.Capacity
      simp only [if_pos hfull, e, hx, Vector.TryPush_nothing E new1 _ x is_rvalue hctor2]
    · unfold Vector.PushBack Vector.Capacity RawMemory.Capacity
      simp only [if_pos hfull, e, hx, Vector.TryPush_nothing E new1 _ x is_rvalue hctor2]
    · intro i hi
      rw [if_neg hctor, Vector.get_eq _ (by
        show v.size_ ≤ (v.data_.store old1).capacity_
        rw [RawMemory.store_capacity]; exact h.2.2.1)]
      show (if i < v.size_ then obj (v.data_.store old1).cells i else none) = _
      rw [if_pos hi, RawMemory.store_cells _ _ l1]

theorem Vector.EmplaceBack_with_old_spec {α : Type} (E : ElemTraits α) (v : Vector α) (x : α)
    (h : v.WF) (hfull : v.size_ = v.data_.capacity_) :
    ∃ v1 old1, v.EmplaceBack_with_old E (Arg.outside x) = some ((v.size_, v1), some old1) ∧
      v.EmplaceBack E (Arg.outside x) = some (v.size_, v1) ∧
      (∀ j, old1[j]? =
        if j < v.size_ ∧ (E.is_nothrow_move_constructible || !E.is_copy_constructible) = true
        then some ((obj v.data_.cells j).map E.moved_from) else v.data_.cells[j]?) ∧
      ∀ i, i < v.size_ → v1.get i = v.get i := by
  obtain ⟨old1, new1, old2, e1, hlt, e2, w, c, p, q⟩ := Vector.grow_back E v x h hfull
  obtain ⟨o, n1, e', _, _, ps, _, _, _⟩ := Vector.relocate_all E v h
  rw [e1] at e'
  cases e'
  refine ⟨_, old1, ?_, ?_, ps, fun i hi => Vector.get_congr w h (by
    show i < v.size_ + 1
    omega) hi (p i hi)⟩
  rotate_left
  · have hi : (RawMemory.index ((RawMemory.ctor (if v.size_ = 0 then 1 else 2 * v.size_)).store
        (new1.set v.size_ (some x))) (v.size_ + 1 - 1)) = some v.size_ := by
      have hw : v.size_ + 1 ≤ ((RawMemory.ctor (if v.size_ = 0 then 1 else 2 * v.size_)).store
        (new1.set v.size_ (some x))).capacity_ := w.2.2.1
      simp only [RawMemory.index, Nat.add_sub_cancel]
      rw [if_pos (by omega)]
    unfold Vector.EmplaceBack Vector.Capacity RawMemory.Capacity
    simp only [if_pos hfull, e1, Arg.made, construct_at_eq x hlt, e2, RawMemory.Swap, hi]
  have hi : (RawMemory.index ((RawMemory.ctor (if v.size_ = 0 then 1 else 2 * v.size_)).store
      (new1.set v.size_ (some x))) (v.size_ + 1 - 1)) = some v.size_ := by
    have hw : v.size_ + 1 ≤ ((RawMemory.ctor (if v.size_ = 0 then 1 else 2 * v.size_)).store
      (new1.set v.size_ (some x))).capacity_ := w.2.2.1
    simp only [RawMemory.index, Nat.add_sub_cancel]
    rw [if_pos (by omega)]
  unfold Vector.EmplaceBack_with_old Vector.Capacity RawMemory.Capacity
  simp only [if_pos hfull, e1, Arg.made, construct_at_eq x hlt, e2, RawMemory.Swap, hi]

theorem Vector.Emplace_growing_with_old_spec {α : Type} (E : ElemTraits α) (v : Vector α)
    (k : Nat) (x : α) (h : v.WF) (hfull : v.size_ = v.data_.capacity_) (hk : k ≤ v.size_) :
    ∃ v1 old2, v.Emplace_growing_with_old E k x = some ((k, v1), old2) ∧
      v.Emplace E k x = some (k, v1) ∧
      ∀ j, old2[j]? =
        if j < v.size_ ∧ (E.is_nothrow_move_constructible || !E.is_copy_constructible) = true
        then some ((obj v.data_.cells j).map E.moved_from) else v.data_.cells[j]? := by
  obtain ⟨hn, hl, hs, hlive⟩ := h
  have hcap : (if v.size_ = 0 then 1 else 2 * v.size_) = max 1 (2 * v.size_) := by
    split <;> omega
  have hp1 : ptr_sub v.size_ k = some (v.size_ - k) := by
    simp only [ptr_sub]; rw [if_pos (by omega)]
  have hr : (RawMemory.ctor (max 1 (2 * v.size_)) : RawMemory α).cells.length
      = max 1 (2 * v.size_) := by
    rw [RawMemory.ctor_cells, List.length_replicate]
  obtain ⟨s1, d1, e1, ls1, ld1, ps1, pd1⟩ := CopyOrMoveN_exact E v.data_.cells 0 k
    ((RawMemory.ctor (max 1 (2 * v.size_)) : RawMemory α).cells.set k (some x)) 0
    (fun i _ hi => hlive i (by omega)) (by rw [List.length_set, hr]; omega)
  simp only [Nat.zero_le, true_and, Nat.zero_add] at ps1
  have hs1 : ∀ i, k ≤ i → s1[i]? = v.data_.cells[i]? := by
    intro i hi
    rw [ps1 i, if_neg (by omega)]
  obtain ⟨s2, d2, e2, ls2, ld2, ps2, pd2⟩ := CopyOrMoveN_exact E s1 k (v.size_ - k)
    d1 (k + 1)
    (fun i h1 hi => by rw [obj_congr (hs1 i h1)]; exact hlive i (by omega))
    (by rw [ld1, List.length_set, hr]; omega)
  have hlive2 : ∀ i, i < v.size_ → (obj s2 i).isSome = true := by
    intro i hi
    by_cases hp : (E.is_nothrow_move_constructible || !E.is_copy_constructible) = true
    · by_cases hik : k ≤ i
      · rw [obj_of_getElem (show s2[i]? = some ((obj s1 i).map E.moved_from) by
          rw [ps2 i, if_pos ⟨⟨hik, by omega⟩, hp⟩]), Option.isSome_map',
          obj_congr (hs1 i hik)]
        exact hlive i hi
      · rw [obj_congr (show s2[i]? = s1[i]? by rw [ps2 i, if_neg (by omega)]),
          obj_of_getElem (show s1[i]? = some ((obj v.data_.cells i).map E.moved_from) by
            rw [ps1 i, if_pos ⟨by omega, hp⟩]), Option.isSome_map']
        exact hlive i hi
    · rw [obj_congr (show s2[i]? = v.data_.cells[i]? by
        rw [ps2 i, if_neg (fun hh => hp hh.2), ps1 i, if_neg (fun hh => hp hh.2)])]
      exact hlive i hi
  obtain ⟨s3, e3, _, _⟩ := destroy_n_spec v.size_ s2 0 (fun i _ hi => hlive2 i (by omega))
  have hplus : (RawMemory.ctor (max 1 (2 * v.size_)) : RawMemory α).plus k = some k := by
    simp only [RawMemory.plus, RawMemory.ctor_capacity]; rw [if_pos (by omega)]
  refine ⟨{ data_ := (RawMemory.ctor (max 1 (2 * v.size_))).store d2, size_ := v.size_ + 1 },
    s2, ?_, ?_, ?_⟩
  · unfold Vector.Emplace_growing_with_old
    simp only [hp1, hcap, construct_at_eq x (show k < _ by rw [hr]; omega), e1,
      hplus, e2, e3, RawMemory.Swap]
  · unfold Vector.Emplace Vector.Capacity RawMemory.Capacity
    simp only [hp1, if_pos hfull, hcap, construct_at_eq x (show k < _ by rw [hr]; omega), e1,
      hplus, e2, e3, RawMemory.Swap]
  · intro j
    by_cases hp : (E.is_nothrow_move_constructible || !E.is_copy_constructible) = true
    · by_cases hj : j < v.size_
      · rw [if_pos ⟨hj, hp⟩]
        by_cases hjk : k ≤ j
        · rw [ps2 j, if_pos ⟨⟨hjk, by omega⟩, hp⟩, obj_congr (hs1 j hjk)]
        · rw [ps2 j, if_neg (by omega), ps1 j, if_pos ⟨by omega, hp⟩]
      · rw [if_neg (by omega), ps2 j, if_neg (by omega), ps1 j, if_neg (by omega)]
    · rw [if_neg (fun hh => hp hh.2), ps2 j, if_neg (fun hh => hp hh.2), ps1 j,
        if_neg (fun hh => hp hh.2)]

/-! ## The assignments of the insertion without growth and of `Erase` -/

theorem Vector.old_block_get {α : Type} (E : ElemTraits α) (v : Vector α) (old : Block α)
    (h : v.WF)
    (ps : ∀ j, old[j]? =
      if j < v.size_ ∧ (E.is_nothrow_move_constructible || !E.is_copy_constructible) = true
      then some ((obj v.data_.cells j).map E.moved_from) else v.data_.cells[j]?) :
    ∀ i, i < v.size_ → (v.get i).isSome = true ∧ obj old i =
      if E.is_nothrow_move_constructible = true ∨ E.is_copy_constructible = false
      then (v.get i).map E.moved_from else v.get i := by
  have hpol : (E.is_nothrow_move_constructible || !E.is_copy_constructible) = true ↔
      (E.is_nothrow_move_constructible = true ∨ E.is_copy_constructible = false) := by
    cases E.is_nothrow_move_constructible <;> cases E.is_copy_constructible <;> simp
  intro i hi
  refine ⟨h.get_isSome hi, ?_⟩
  rw [Vector.get_eq v h.2.2.1, if_pos hi]
  by_cases hp : E.is_nothrow_move_constructible = true ∨ E.is_copy_constructible = false
  · rw [if_pos hp]
    exact obj_of_getElem (by rw [ps i, if_pos ⟨hi, hpol.mpr hp⟩])
  · rw [if_neg hp]
    exact obj_congr (by rw [ps i, if_neg (fun hh => hp (hpol.mp hh.2))])

/-! ## The claims on `Erase`, on appending, on requested capacities and on the invariant -/

/-- C2 (the code departs from the claim): `Vector<Rec>` holding `{4}, {5}` has size 2, and the
move assignment of `Rec` may throw. `Erase` at offset 0 and at offset 1, both below the size,
has no result: the branch instantiated is the `std::copy` call with a `ptrdiff_t` as second
argument. For the element type `std::vector<int>` the same two calls give what the claim
says: size 1, the other element, and the iterator `begin() + k`. -/
theorem Erase_has_no_result_for_throwing_move_assignment :
    (vec_with [[4], [5]] 2 : Vector (List Int)).WF ∧
    (vec_with [[4], [5]] 2 : Vector (List Int)).Size = 2 ∧
    recTraits.is_nothrow_move_assignable = false ∧
    Vector.Erase recTraits (vec_with [[4], [5]] 2) 0 = none ∧
    Vector.Erase recTraits (vec_with [[4], [5]] 2) 1 = none ∧
    Vector.Erase vectorTraits (vec_with [[4], [5]] 2) 0 = some (0, vec_with [[5]] 2) ∧
    Vector.Erase vectorTraits (vec_with [[4], [5]] 2) 1 = some (1, vec_with [[4]] 2) := by
  decide

/-- C4 (the code departs from the claim): `Vector<std::vector<int>>` with the one element
`{1, 2, 3}` and capacity 1 is full. `PushBack(v[0])` and `EmplaceBack(v[0])` hand over a
reference to that element, whose value is `{1, 2, 3}`. Both relocate the elements first
(`CopyOrMoveN` moves them) and construct the new element afterwards from the moved-from
object: the vector ends as `{1, 2, 3}, {}`, with the empty vector and not `x` at index 1.
With capacity 2, where nothing is relocated, and in `Emplace`, which constructs the new
element before it relocates, the copy of `{1, 2, 3}` arrives. -/
theorem append_own_element_after_relocation :
    (vec_with [[1, 2, 3]] 1 : Vector (List Int)).WF ∧
    (vec_with [[1, 2, 3]] 1 : Vector (List Int)).Size
      = (vec_with [[1, 2, 3]] 1 : Vector (List Int)).Capacity ∧
    (Arg.elem 0).read (vec_with [[1, 2, 3]] 1 : Vector (List Int)).data_.cells
      = some [1, 2, 3] ∧
    (vec_with [[1, 2, 3]] 1).PushBack vectorTraits (Arg.elem 0) false
      = some (vec_with [[1, 2, 3], []] 2) ∧
    (vec_with [[1, 2, 3]] 1).EmplaceBack vectorTraits (Arg.elem 0)
      = some (1, vec_with [[1, 2, 3], []] 2) ∧
    (vec_with [[1, 2, 3], []] 2 : Vector (List Int)).get 1 = some [] ∧
    (vec_with [[1, 2, 3]] 2).PushBack vectorTraits (Arg.elem 0) false
      = some (vec_with [[1, 2, 3], [1, 2, 3]] 2) ∧
    (vec_with [[1, 2, 3]] 2).EmplaceBack vectorTraits (Arg.elem 0)
      = some (1, vec_with [[1, 2, 3], [1, 2, 3]] 2) ∧
    (vec_with [[1, 2, 3]] 1).PushBack vectorTraits (Arg.outside [1, 2, 3]) false
      = some (vec_with [[1, 2, 3], [1, 2, 3]] 2) ∧
    (vec_with [[1, 2, 3]] 1).Emplace vectorTraits 1 [1, 2, 3]
      = some (1, vec_with [[1, 2, 3], [1, 2, 3]] 2) := by
  decide

/-- C5, as stated, fails: for `Vector<int>` (`sizeof(int) = 4`) the request `2 ^ 62` has the
byte count `2 ^ 64`, which is 0 in `size_t`: the block obtained has no slot, while
`capacity_` becomes `2 ^ 62`. `Reserve(2 ^ 62)` on the vector `[1]` relocates its element
into that block and has no defined result; on the empty vector it returns a vector that
reports capacity `2 ^ 62` over a block without slots, which is not well-formed and on which
the next `PushBack` has no defined result. -/
theorem Reserve_byte_count_wraps :
    (vec_of [1] 1).WF ∧ 2 ^ 62 * 4 % 2 ^ 64 = 0 ∧
    (RawMemory.ctor_sized 4 (2 ^ 62) : RawMemory Int).cells = [] ∧
    (RawMemory.ctor_sized 4 (2 ^ 62) : RawMemory Int).Capacity = 2 ^ 62 ∧
    Vector.Reserve_sized intTraits 4 (vec_of [1] 1) (2 ^ 62) = none ∧
    (vec_of [] 0).WF ∧
    Vector.Reserve_sized intTraits 4 (vec_of [] 0) (2 ^ 62)
      = some ({ data_ := { buffer_ := some [], capacity_ := 2 ^ 62 }, size_ := 0 }, some []) ∧
    ¬ ({ data_ := { buffer_ := some [], capacity_ := 2 ^ 62 }, size_ := 0 } : Vector Int).WF ∧
    Vector.PushBack intTraits
      ({ data_ := { buffer_ := some [], capacity_ := 2 ^ 62 }, size_ := 0 } : Vector Int)
      (Arg.outside 7) true = none := by
  decide

/-- C5, amended: on a well-formed vector with capacity `C`, for every request `n` that does
not exceed `C` or whose byte count `n * sizeof(T)` fits `size_t`, `Reserve(n)` gives a
well-formed vector of capacity `max(C, n)`, which is `n` whenever `n ≥ C` and never less than
`C`, with the same size and the same elements. -/
theorem Reserve_within_size_t {α : Type} (E : ElemTraits α) (sizeof_T : Nat) (v : Vector α)
    (n : Nat) (h : v.WF) (hs : 0 < sizeof_T)
    (hfit : n ≤ v.Capacity ∨ n * sizeof_T < 2 ^ 64) :
    ∃ v1 old, v.Reserve_sized E sizeof_T n = some (v1, old) ∧ v1.WF ∧
      v1.Capacity = max v.Capacity n ∧
      (v.Capacity ≤ n → v1.Capacity = n) ∧ v.Capacity ≤ v1.Capacity ∧
      v1.Size = v.Size ∧ ∀ i, v1.get i = v.get i := by
  obtain ⟨v1, e, w, c, s, p⟩ := Vector.Reserve_sound E v n h
  have hc : v1.Capacity = max v.Capacity n := c
  have hf := Vector.Reserve_sized_fst E sizeof_T v n hs hfit
  rw [e] at hf
  cases hS : v.Reserve_sized E sizeof_T n with
  | none => rw [hS] at hf; cases hf
  | some r =>
    obtain ⟨r1, old⟩ := r
    rw [hS] at hf
    simp only [Option.map_some', Option.some.injEq] at hf
    subst hf
    refine ⟨r1, old, rfl, w, hc, fun hle => by rw [hc]; omega, by rw [hc]; omega, s, ?_⟩
    intro i
    by_cases hi : i < v.size_
    · exact Vector.get_congr w h (by omega) hi (p i hi)
    · rw [Vector.get_beyond v hi, Vector.get_beyond r1 (by omega)]

/-- C5, amended, on the `Vector<int>` with values `[1, 2, 3]` and capacity 3, `Reserve(7)`. -/
theorem Reserve_within_size_t_witness :
    ∃ v1 old, (vec_of [1, 2, 3] 3).Reserve_sized intTraits 4 7 = some (v1, old) ∧ v1.WF ∧
      v1.Capacity = max (vec_of [1, 2, 3] 3).Capacity 7 ∧
      ((vec_of [1, 2, 3] 3).Capacity ≤ 7 → v1.Capacity = 7) ∧
      (vec_of [1, 2, 3] 3).Capacity ≤ v1.Capacity ∧
      v1.Size = (vec_of [1, 2, 3] 3).Size ∧ ∀ i, v1.get i = (vec_of [1, 2, 3] 3).get i :=
  Reserve_within_size_t intTraits 4 (vec_of [1, 2, 3] 3) 7 (by decide) (by decide)
    (Or.inr (by decide))

/-- C6, as stated, fails: for `Vector<int>` (`sizeof(int) = 4`) the byte count of `2 ^ 62`
elements is 0 in `size_t`. `Resize(2 ^ 62)` on the vector `[1]` relocates its element into a
block without slots, and on the empty vector it value-constructs into that block: neither
call has a defined result, so the size does not become `2 ^ 62`. -/
theorem Resize_byte_count_wraps :
    (vec_of [1] 1).WF ∧ (vec_of [] 0).WF ∧
    (RawMemory.Allocate_sized 4 (2 ^ 62) : Option (Block Int)) = some [] ∧
    Vector.Resize_sized intTraits 4 (vec_of [1] 1) (2 ^ 62) = none ∧
    Vector.Resize_sized intTraits 4 (vec_of [] 0) (2 ^ 62) = none ∧
    uninitialized_value_construct_n intTraits [] 0 (2 ^ 62) = none := by
  decide

/-- C6, amended: on a well-formed vector with size `S` and capacity `C`, for every `n` that
does not exceed `C` or whose byte count `n * sizeof(T)` fits `size_t`, `Resize(n)` gives a
well-formed vector of size `n` whose first `min(S, n)` elements are the old ones, whose
elements at `[S, n)` are value-initialised, and whose capacity is `max(C, n)`. -/
theorem Resize_within_size_t {α : Type} (E : ElemTraits α) (sizeof_T : Nat) (v : Vector α)
    (n : Nat) (h : v.WF) (hs : 0 < sizeof_T)
    (hfit : n ≤ v.Capacity ∨ n * sizeof_T < 2 ^ 64) :
    ∃ v1, v.Resize_sized E sizeof_T n = some v1 ∧ v1.WF ∧ v1.Size = n ∧
      (∀ i, i < min v.Size n → v1.get i = v.get i ∧ (v.get i).isSome = true) ∧
      (∀ i, v.Size ≤ i → i < n → v1.get i = some E.value_init) ∧
      v1.Capacity = max v.Capacity n := by
  obtain ⟨v1, e, w, c, s, p, q⟩ := Vector.Resize_sound E v n h
  refine ⟨v1, by rw [Vector.Resize_sized_eq E sizeof_T v n hs hfit]; exact e, w, s, ?_, ?_, c⟩
  · intro i (hi : i < min v.size_ n)
    have h1 : i < v.size_ := by omega
    exact ⟨Vector.get_congr w h (by omega) h1 (p i h1 (by omega)), h.get_isSome h1⟩
  · intro i (h1 : v.size_ ≤ i) h2
    exact Vector.get_of_cell w (by omega) (q i h1 h2)

/-- C6, amended, on the `Vector<int>` with values `[1, 2, 3]` and capacity 4, `Resize(6)`. -/
theorem Resize_within_size_t_witness :
    ∃ v1, (vec_of [1, 2, 3] 4).Resize_sized intTraits 4 6 = some v1 ∧ v1.WF ∧ v1.Size = 6 ∧
      (∀ i, i < min (vec_of [1, 2, 3] 4).Size 6 →
        v1.get i = (vec_of [1, 2, 3] 4).get i ∧ ((vec_of [1, 2, 3] 4).get i).isSome = true) ∧
      (∀ i, (vec_of [1, 2, 3] 4).Size ≤ i → i < 6 → v1.get i = some intTraits.value_init) ∧
      v1.Capacity = max (vec_of [1, 2, 3] 4).Capacity 6 :=
  Resize_within_size_t intTraits 4 (vec_of [1, 2, 3] 4) 6 (by decide) (by decide)
    (Or.inr (by decide))

/-- C11 (the code departs from the claim): two calls within the preconditions the claim
names have no defined result, so that no state is left in which `size ≤ capacity` could
hold. On the `Vector<int>` `[5, 6]` with capacity 4, which satisfies the invariant,
`Emplace` and both `Insert` overloads at offset `2 = size` run
`std::move_backward(begin() + 2, begin() + 1, begin() + 2)`. On `Vector<Rec>` holding `{7}`,
`Erase` at offset `0 < size` instantiates the `std::copy` call that is not valid. The same
calls are defined and keep the invariant when the insertion has to grow and when the move
assignment of the element type cannot throw. -/
theorem size_le_capacity_lost_where_undefined :
    (vec_of [5, 6] 4).WF ∧ (vec_of [5, 6] 4).Size ≤ (vec_of [5, 6] 4).Capacity ∧
    2 ≤ (vec_of [5, 6] 4).Size ∧
    Vector.Emplace intTraits (vec_of [5, 6] 4) 2 9 = none ∧
    Vector.Insert intTraits (vec_of [5, 6] 4) 2 9 = none ∧
    Vector.Insert_rvalue intTraits (vec_of [5, 6] 4) 2 9 = none ∧
    (vec_with [[7]] 1 : Vector (List Int)).WF ∧
    (vec_with [[7]] 1 : Vector (List Int)).Size
      ≤ (vec_with [[7]] 1 : Vector (List Int)).Capacity ∧
    0 < (vec_with [[7]] 1 : Vector (List Int)).Size ∧
    Vector.Erase recTraits (vec_with [[7]] 1) 0 = none ∧
    (Vector.Emplace intTraits (vec_of [5, 6] 2) 2 9).map
      (fun r => (r.2.Size, r.2.Capacity)) = some (3, 4) ∧
    (Vector.Erase vectorTraits (vec_with [[7]] 1) 0).map
      (fun r => (r.2.Size, r.2.Capacity)) = some (0, 1) := by
  decide

/-! ## The claims on exceptions and policies -/

/-- C12 (the code departs from the claim): `Vector<std::vector<int>>` with the one element
`{1, 2, 3}` and capacity 1 is full. `EmplaceBack(args...)` with a throwing `T(args...)`, and
`PushBack(x)` with a throwing copy constructor, let the exception out with size 1 and
capacity 1, but the prior element has been moved from: it is empty. The code relocates
the existing elements (`CopyOrMoveN`) before it constructs the new one. -/
theorem append_throw_after_relocation :
    (vec_with [[1, 2, 3]] 1 : Vector (List Int)).WF ∧
    (vec_with [[1, 2, 3]] 1 : Vector (List Int)).Size
      = (vec_with [[1, 2, 3]] 1 : Vector (List Int)).Capacity ∧
    (vec_with [[1, 2, 3]] 1 : Vector (List Int)).get 0 = some [1, 2, 3] ∧
    (vec_with [[1, 2, 3]] 1).EmplaceBack_exc vectorTraits true none
      = some (Outcome.thrown Exc.element (vec_with [[]] 1)) ∧
    (vec_with [[1, 2, 3]] 1).PushBack_exc vectorTraits true [4] false false
      = some (Outcome.thrown Exc.element (vec_with [[]] 1)) ∧
    (vec_with [[]] 1 : Vector (List Int)).Size = 1 ∧
    (vec_with [[]] 1 : Vector (List Int)).Capacity = 1 ∧
    (vec_with [[]] 1 : Vector (List Int)).get 0 = some [] ∧
    (vec_with [[]] 1 : Vector (List Int)).get 0
      ≠ (vec_with [[1, 2, 3]] 1 : Vector (List Int)).get 0 := by
  decide

/-- C13: when `operator new` fails in `Reserve`, `Resize`, `PushBack`, `EmplaceBack`,
`Emplace`/`Insert` or copy assignment into a destination that is too small, each on the path
that allocates, `std::bad_alloc` leaves the call with the vector exactly as it was (size,
capacity and every slot). -/
theorem bad_alloc_leaves_vector_unchanged {α : Type} (E : ElemTraits α) (v w : Vector α)
    (n k : Nat) (x : α) (args : Option α) (is_rvalue ctor_ok : Bool) :
    (n > v.Capacity → v.Reserve_exc E false n = some (Outcome.thrown Exc.bad_alloc v)) ∧
    (¬ n < v.Size → n > v.Capacity →
      v.Resize_exc E false n = some (Outcome.thrown Exc.bad_alloc v)) ∧
    (v.Size = v.Capacity →
      v.PushBack_exc E false x is_rvalue ctor_ok = some (Outcome.thrown Exc.bad_alloc v)) ∧
    (v.Size = v.Capacity →
      v.EmplaceBack_exc E false args = some (Outcome.thrown Exc.bad_alloc v)) ∧
    (v.Size = v.Capacity → k ≤ v.Size →
      v.Emplace_exc E k false args = some (Outcome.thrown Exc.bad_alloc v)) ∧
    (¬ w.Size ≤ v.Size → ¬ w.Size ≤ v.Capacity →
      v.copy_assign_exc w false = some (Outcome.thrown Exc.bad_alloc v)) := by
  have hcap : (if v.size_ = 0 then 1 else 2 * v.size_) ≠ 0 := by split <;> omega
  have hres : n > v.Capacity →
      v.Reserve_exc E false n = some (Outcome.thrown Exc.bad_alloc v) := by
    intro hg
    have hg1 : n > v.data_.Capacity := hg
    unfold Vector.Reserve_exc
    rw [if_pos hg1, RawMemory.ctor_exc_false n (by omega)]
  refine ⟨hres, ?_, ?_, ?_, ?_, ?_⟩
  · intro h1 h2
    have h1a : ¬ n < v.size_ := h1
    unfold Vector.Resize_exc
    rw [if_neg h1a, hres h2]
  · intro hfull
    have hfull1 : v.size_ = v.Capacity := hfull
    unfold Vector.PushBack_exc
    rw [if_pos hfull1, RawMemory.ctor_exc_false _ hcap]
  · intro hfull
    have hfull1 : v.size_ = v.Capacity := hfull
    unfold Vector.EmplaceBack_exc
    simp only [if_pos hfull1, RawMemory.ctor_exc_false _ hcap]
  · intro hfull hk
    have hfull1 : v.size_ = v.Capacity := hfull
    have hk1 : k ≤ v.size_ := hk
    have hp : ptr_sub v.size_ k = some (v.size_ - k) := by
      simp only [ptr_sub]; rw [if_pos hk1]
    unfold Vector.Emplace_exc
    simp only [hp, if_pos hfull1, RawMemory.ctor_exc_false _ hcap]
  · intro h1 h2
    have h1a : ¬ w.size_ ≤ v.size_ := h1
    have h2a : ¬ w.size_ ≤ v.data_.capacity_ := h2
    have h2b : ¬ w.size_ ≤ v.Capacity := h2
    have h0 : w.size_ ≠ 0 := by omega
    unfold Vector.copy_assign_exc Vector.copy_ctor_exc
    simp only [if_neg h1a, if_neg h2b, RawMemory.ctor_exc_false _ h0]

/-- C13 on the full `Vector<int>` `[1, 2]` and the source `[7, 8, 9]`. -/
theorem bad_alloc_leaves_vector_unchanged_witness :
    (vec_of [1, 2] 2).Reserve_exc intTraits false 5
      = some (Outcome.thrown Exc.bad_alloc (vec_of [1, 2] 2)) ∧
    (vec_of [1, 2] 2).Resize_exc intTraits false 5
      = some (Outcome.thrown Exc.bad_alloc (vec_of [1, 2] 2)) ∧
    (vec_of [1, 2] 2).PushBack_exc intTraits false 9 true true
      = some (Outcome.thrown Exc.bad_alloc (vec_of [1, 2] 2)) ∧
    (vec_of [1, 2] 2).EmplaceBack_exc intTraits false (some 9)
      = some (Outcome.thrown Exc.bad_alloc (vec_of [1, 2] 2)) ∧
    (vec_of [1, 2] 2).Emplace_exc intTraits 1 false (some 9)
      = some (Outcome.thrown Exc.bad_alloc (vec_of [1, 2] 2)) ∧
    (vec_of [1, 2] 2).copy_assign_exc (vec_of [7, 8, 9] 3) false
      = some (Outcome.thrown Exc.bad_alloc (vec_of [1, 2] 2)) :=
  have h := bad_alloc_leaves_vector_unchanged intTraits (vec_of [1, 2] 2) (vec_of [7, 8, 9] 3)
    5 1 9 (some 9) true true
  ⟨h.1 (by decide), h.2.1 (by decide) (by decide), h.2.2.1 (by decide),
    h.2.2.2.1 (by decide), h.2.2.2.2.1 (by decide) (by decide),
    h.2.2.2.2.2 (by decide) (by decide)⟩

/-- C14: whenever `Reserve`, `PushBack`, `EmplaceBack` or the growing `Emplace`/`Insert`
relocate the elements of a well-formed vector, the new storage receives the values of the old
elements, and the old block, looked at after the relocation and before it is destroyed and
released, holds moved-from elements exactly when `T` is nothrow-move-constructible or not
copy-constructible, and the unmodified elements in every other case. The relocation is
`CopyOrMoveN`, which is `std::uninitialized_move_n` under that condition and
`std::uninitialized_copy_n` otherwise. `Reserve` relocates for a request above the capacity
(its byte count is taken to fit `size_t`), the other three when the vector is full. In
`EmplaceBack` the caller can see the old block when the constructor of the new element
throws. -/
theorem relocation_policy {α : Type} (E : ElemTraits α) (sizeof_T : Nat) (v : Vector α)
    (n k : Nat) (a : Arg α) (x : α) (is_rvalue : Bool) (hv : v.WF) :
    (∀ src first size dst d_first,
      ((E.is_nothrow_move_constructible = true ∨ E.is_copy_constructible = false) →
        Vector.CopyOrMoveN E src first size dst d_first
          = uninitialized_move_n E src first size dst d_first) ∧
      (¬ (E.is_nothrow_move_constructible = true ∨ E.is_copy_constructible = false) →
        Vector.CopyOrMoveN E src first size dst d_first
          = (uninitialized_copy_n src first size dst d_first).map (fun d => (src, d)))) ∧
    (0 < sizeof_T → v.Capacity < n → n * sizeof_T < 2 ^ 64 →
      ∃ v1 old, v.Reserve_sized E sizeof_T n = some (v1, some old) ∧
        v.Reserve E n = some v1 ∧
        Vector.CopyOrMoveN E v.data_.cells 0 v.Size (RawMemory.ctor n : RawMemory α).cells 0
          = some (old, v1.data_.cells) ∧
        ∀ i, i < v.Size → v1.get i = v.get i ∧ (v.get i).isSome = true ∧ obj old i =
          if E.is_nothrow_move_constructible = true ∨ E.is_copy_constructible = false
          then (v.get i).map E.moved_from else v.get i) ∧
    (v.Size = v.Capacity → a.valid v.Size = true →
      ∃ v1 old, v.PushBack_with_old E a is_rvalue = some (v1, some old) ∧
        v.PushBack E a is_rvalue = some v1 ∧
        ∀ i, i < v.Size →
          v1.get i = (if (if is_rvalue then E.is_move_constructible
            else E.is_copy_constructible) = true then v.get i else obj old i) ∧
          (v.get i).isSome = true ∧ obj old i =
          if E.is_nothrow_move_constructible = true ∨ E.is_copy_constructible = false
          then (v.get i).map E.moved_from else v.get i) ∧
    (v.Size = v.Capacity →
      ∃ v1 old, v.EmplaceBack_with_old E (Arg.outside x) = some ((v.Size, v1), some old) ∧
        v.EmplaceBack E (Arg.outside x) = some (v.Size, v1) ∧
        ∀ i, i < v.Size → v1.get i = v.get i ∧ (v.get i).isSome = true ∧ obj old i =
          if E.is_nothrow_move_constructible = true ∨ E.is_copy_constructible = false
          then (v.get i).map E.moved_from else v.get i) ∧
    (v.Size = v.Capacity → k ≤ v.Size →
      ∃ v1 old, v.Emplace_growing_with_old E k x = some ((k, v1), old) ∧
        v.Emplace E k x = some (k, v1) ∧ v.Insert E k x = some (k, v1) ∧
        v.Insert_rvalue E k x = some (k, v1) ∧
        ∀ i, i < v.Size →
          v1.get (if i < k then i else i + 1) = v.get i ∧ (v.get i).isSome = true ∧
          obj old i =
          if E.is_nothrow_move_constructible = true ∨ E.is_copy_constructible = false
          then (v.get i).map E.moved_from else v.get i) ∧
    (v.Size = v.Capacity →
      ∃ r, v.EmplaceBack_exc E true none = some (Outcome.thrown Exc.element r) ∧
        ∀ i, i < v.Size → r.get i =
          if E.is_nothrow_move_constructible = true ∨ E.is_copy_constructible = false
          then (v.get i).map E.moved_from else v.get i) := by
  have hpol : (E.is_nothrow_move_constructible || !E.is_copy_constructible) = true ↔
      (E.is_nothrow_move_constructible = true ∨ E.is_copy_constructible = false) := by
    cases E.is_nothrow_move_constructible <;> cases E.is_copy_constructible <;> simp
  refine ⟨?_, ?_, ?_, ?_, ?_, ?_⟩
  · intro src first size dst d_first
    constructor
    · intro hp
      unfold Vector.CopyOrMoveN
      rw [if_pos (hpol.mpr hp)]
    · intro hp
      unfold Vector.CopyOrMoveN
      rw [if_neg (fun hh => hp (hpol.mp hh))]
      cases uninitialized_copy_n src first size dst d_first <;> rfl
  · intro hs (hn1 : n > v.data_.capacity_) hfit
    obtain ⟨v1, old, es, er, eC, _, ps⟩ :=
      Vector.Reserve_sized_grows E sizeof_T v n hv hs hn1 hfit
    obtain ⟨v2, e2, w, _, s, p⟩ := Vector.Reserve_sound E v n hv
    have h21 : v2 = v1 := by
      rw [er] at e2
      exact (Option.some.inj e2).symm
    subst h21
    refine ⟨v2, old, es, er, eC, ?_⟩
    intro i (hi : i < v.size_)
    have := Vector.old_block_get E v old hv ps i hi
    exact ⟨Vector.get_congr w hv (by omega) hi (p i hi), this.1, this.2⟩
  · intro (hfull1 : v.size_ = v.data_.capacity_) ha
    obtain ⟨v1, old, e1, e2, ps, g⟩ :=
      Vector.PushBack_with_old_spec E v a is_rvalue hv hfull1 ha
    refine ⟨v1, old, e1, e2, ?_⟩
    intro i (hi : i < v.size_)
    have := Vector.old_block_get E v old hv ps i hi
    exact ⟨g i hi, this.1, this.2⟩
  · intro (hfull1 : v.size_ = v.data_.capacity_)
    obtain ⟨v1, old, e1, e2, ps, g⟩ := Vector.EmplaceBack_with_old_spec E v x hv hfull1
    refine ⟨v1, old, e1, e2, ?_⟩
    intro i (hi : i < v.size_)
    have := Vector.old_block_get E v old hv ps i hi
    exact ⟨g i hi, this.1, this.2⟩
  · intro (hfull1 : v.size_ = v.data_.capacity_) (hk1 : k ≤ v.size_)
    obtain ⟨v1, old, e1, e2, ps⟩ :=
      Vector.Emplace_growing_with_old_spec E v k x hv hfull1 hk1
    obtain ⟨v2, e3, w, s, _, _, lo, hi2⟩ := Vector.Emplace_grow_sound E v k x hv hfull1 hk1
    have h21 : v2 = v1 := by
      rw [e2] at e3
      simp only [Option.some.injEq, Prod.mk.injEq, true_and] at e3
      exact e3.symm
    subst h21
    refine ⟨v2, old, e1, e2, e2, e2, ?_⟩
    intro i (hi : i < v.size_)
    have := Vector.old_block_get E v old hv ps i hi
    refine ⟨?_, this.1, this.2⟩
    by_cases hik : i < k
    · rw [if_pos hik]
      exact Vector.get_congr w hv (by omega) hi (lo i hik)
    · rw [if_neg hik]
      exact Vector.get_congr w hv (by omega) hi (hi2 i (by omega) hi)
  · intro (hfull1 : v.size_ = v.data_.capacity_)
    obtain ⟨r, e, _, _, _, p⟩ := Vector.EmplaceBack_exc_throw E v hv hfull1
    refine ⟨r, e, ?_⟩
    intro i (hi : i < v.size_)
    rw [p i hi]
    by_cases hp : E.is_nothrow_move_constructible = true ∨ E.is_copy_constructible = false
    · rw [if_pos hp, if_pos (hpol.mpr hp)]
    · rw [if_neg hp, if_neg (fun hh => hp (hpol.mp hh))]

/-- C14 on the full `Vector<std::vector<int>>` holding `{1}` and `{2, 3}`: `Reserve(5)`,
`PushBack(v[0])`, `EmplaceBack` of `{9}` and `Insert` of `{9}` at offset 1. -/
theorem relocation_policy_witness :
    (∀ src first size dst d_first,
      ((vectorTraits.is_nothrow_move_constructible = true ∨
          vectorTraits.is_copy_constructible = false) →
        Vector.CopyOrMoveN vectorTraits src first size dst d_first
          = uninitialized_move_n vectorTraits src first size dst d_first) ∧
      (¬ (vectorTraits.is_nothrow_move_constructible = true ∨
          vectorTraits.is_copy_constructible = false) →
        Vector.CopyOrMoveN vectorTraits src first size dst d_first
          = (uninitialized_copy_n src first size dst d_first).map (fun d => (src, d)))) ∧
    (∃ v1 old, (vec_with [[1], [2, 3]] 2).Reserve_sized vectorTraits 24 5
        = some (v1, some old) ∧
      (vec_with [[1], [2, 3]] 2).Reserve vectorTraits 5 = some v1 ∧
      Vector.CopyOrMoveN vectorTraits (vec_with [[1], [2, 3]] 2).data_.cells 0
        (vec_with [[1], [2, 3]] 2 : Vector (List Int)).Size
        (RawMemory.ctor 5 : RawMemory (List Int)).cells 0 = some (old, v1.data_.cells) ∧
      ∀ i, i < (vec_with [[1], [2, 3]] 2 : Vector (List Int)).Size →
        v1.get i = (vec_with [[1], [2, 3]] 2 : Vector (List Int)).get i ∧
        ((vec_with [[1], [2, 3]] 2 : Vector (List Int)).get i).isSome = true ∧ obj old i =
        if vectorTraits.is_nothrow_move_constructible = true ∨
          vectorTraits.is_copy_constructible = false
        then ((vec_with [[1], [2, 3]] 2 : Vector (List Int)).get i).map vectorTraits.moved_from
        else (vec_with [[1], [2, 3]] 2 : Vector (List Int)).get i) ∧
    (∃ v1 old, (vec_with [[1], [2, 3]] 2).PushBack_with_old vectorTraits (Arg.elem 0) false
        = some (v1, some old) ∧
      (vec_with [[1], [2, 3]] 2).PushBack vectorTraits (Arg.elem 0) false = some v1 ∧
      ∀ i, i < (vec_with [[1], [2, 3]] 2 : Vector (List Int)).Size →
        v1.get i = (if (if false then vectorTraits.is_move_constructible
          else vectorTraits.is_copy_constructible) = true
          then (vec_with [[1], [2, 3]] 2 : Vector (List Int)).get i else obj old i) ∧
        ((vec_with [[1], [2, 3]] 2 : Vector (List Int)).get i).isSome = true ∧ obj old i =
        if vectorTraits.is_nothrow_move_constructible = true ∨
          vectorTraits.is_copy_constructible = false
        then ((vec_with [[1], [2, 3]] 2 : Vector (List Int)).get i).map vectorTraits.moved_from
        else (vec_with [[1], [2, 3]] 2 : Vector (List Int)).get i) ∧
    (∃ v1 old, (vec_with [[1], [2, 3]] 2).EmplaceBack_with_old vectorTraits (Arg.outside [9])
        = some (((vec_with [[1], [2, 3]] 2 : Vector (List Int)).Size, v1), some old) ∧
      (vec_with [[1], [2, 3]] 2).EmplaceBack vectorTraits (Arg.outside [9])
        = some ((vec_with [[1], [2, 3]] 2 : Vector (List Int)).Size, v1) ∧
      ∀ i, i < (vec_with [[1], [2, 3]] 2 : Vector (List Int)).Size →
        v1.get i = (vec_with [[1], [2, 3]] 2 : Vector (List Int)).get i ∧
        ((vec_with [[1], [2, 3]] 2 : Vector (List Int)).get i).isSome = true ∧ obj old i =
        if vectorTraits.is_nothrow_move_constructible = true ∨
          vectorTraits.is_copy_constructible = false
        then ((vec_with [[1], [2, 3]] 2 : Vector (List Int)).get i).map vectorTraits.moved_from
        else (vec_with [[1], [2, 3]] 2 : Vector (List Int)).get i) ∧
    (∃ v1 old, (vec_with [[1], [2, 3]] 2).Emplace_growing_with_old vectorTraits 1 [9]
        = some ((1, v1), old) ∧
      (vec_with [[1], [2, 3]] 2).Emplace vectorTraits 1 [9] = some (1, v1) ∧
      (vec_with [[1], [2, 3]] 2).Insert vectorTraits 1 [9] = some (1, v1) ∧
      (vec_with [[1], [2, 3]] 2).Insert_rvalue vectorTraits 1 [9] = some (1, v1) ∧
      ∀ i, i < (vec_with [[1], [2, 3]] 2 : Vector (List Int)).Size →
        v1.get (if i < 1 then i else i + 1)
          = (vec_with [[1], [2, 3]] 2 : Vector (List Int)).get i ∧
        ((vec_with [[1], [2, 3]] 2 : Vector (List Int)).get i).isSome = true ∧ obj old i =
        if vectorTraits.is_nothrow_move_constructible = true ∨
          vectorTraits.is_copy_constructible = false
        then ((vec_with [[1], [2, 3]] 2 : Vector (List Int)).get i).map vectorTraits.moved_from
        else (vec_with [[1], [2, 3]] 2 : Vector (List Int)).get i) ∧
    (∃ r, (vec_with [[1], [2, 3]] 2).EmplaceBack_exc vectorTraits true none
        = some (Outcome.thrown Exc.element r) ∧
      ∀ i, i < (vec_with [[1], [2, 3]] 2 : Vector (List Int)).Size → r.get i =
        if vectorTraits.is_nothrow_move_constructible = true ∨
          vectorTraits.is_copy_constructible = false
        then ((vec_with [[1], [2, 3]] 2 : Vector (List Int)).get i).map vectorTraits.moved_from
        else (vec_with [[1], [2, 3]] 2 : Vector (List Int)).get i) :=
  have h := relocation_policy vectorTraits 24 (vec_with [[1], [2, 3]] 2) 5 1 (Arg.elem 0) [9]
    false (by decide)
  ⟨h.1, h.2.1 (by decide) (by decide) (by decide), h.2.2.1 (by decide) (by decide),
    h.2.2.2.1 (by decide), h.2.2.2.2.1 (by decide) (by decide), h.2.2.2.2.2 (by decide)⟩

/-- C15: on a full vector, when the constructor of the new element throws in
`Emplace`/`Insert` at an offset `k ≤ size`, the exception leaves the call with the vector
exactly as it was: the construction in the new block comes before the two `CopyOrMoveN`
calls, and the new block is released. -/
theorem Emplace_throw_leaves_vector_unchanged {α : Type} (E : ElemTraits α) (v : Vector α)
    (k : Nat) (hfull : v.Size = v.Capacity) (hk : k ≤ v.Size) :
    v.Emplace_exc E k true none = some (Outcome.thrown Exc.element v) := by
  have hk1 : k ≤ v.size_ := hk
  have hfull1 : v.size_ = v.Capacity := hfull
  have hp : ptr_sub v.size_ k = some (v.size_ - k) := by
    simp only [ptr_sub]; rw [if_pos hk1]
  have hlt : k < (RawMemory.ctor (if v.size_ = 0 then 1 else 2 * v.size_) :
      RawMemory α).cells.length := by
    rw [RawMemory.ctor_cells, List.length_replicate]
    split <;> omega
  unfold Vector.Emplace_exc
  simp only [hp, if_pos hfull1, RawMemory.ctor_exc_true, construct_exc_none _ _ hlt]

/-- C15 on the full `Vector<std::vector<int>>` with the elements `{1}`, `{2, 3}`, inserting at
offset 1. -/
theorem Emplace_throw_leaves_vector_unchanged_witness :
    (vec_with [[1], [2, 3]] 2).Emplace_exc vectorTraits 1 true none
      = some (Outcome.thrown Exc.element (vec_with [[1], [2, 3]] 2)) :=
  Emplace_throw_leaves_vector_unchanged vectorTraits (vec_with [[1], [2, 3]] 2) 1
    (by decide) (by decide)

/-- C16 (the code departs from the claim): on the path without growth, for the empty
`Vector<int>` with capacity 2 the insertion at offset 0 computes `end() - 1`, the slot before
index 0, and has no defined result; for the `Vector<int>` `[1, 2, 3]` with capacity 5 the
insertion at offset `k = S = 3` first puts a copy of the last element into slot 3 and then
calls `std::move_backward(begin() + 3, begin() + 2, begin() + 3)`, whose first bound lies
behind its last one, and has no defined result. At the boundary `k = 0` of the same vector
the insertion works. -/
theorem Insert_without_growth_at_boundary :
    (vec_of [] 2).WF ∧ (vec_of [] 2).Size < (vec_of [] 2).Capacity ∧
    ptr_sub (vec_of [] 2).Size 1 = none ∧
    Vector.Emplace intTraits (vec_of [] 2) 0 7 = none ∧
    (vec_of [1, 2, 3] 5).WF ∧ (vec_of [1, 2, 3] 5).Size < (vec_of [1, 2, 3] 5).Capacity ∧
    Vector.CopyOrMove intTraits (vec_of [1, 2, 3] 5).data_.cells 2 3
      = some [some 1, some 2, some 3, some 3, none] ∧
    move_backward intTraits [some 1, some 2, some 3, some 3, none] 3 2 3 = none ∧
    Vector.Emplace intTraits (vec_of [1, 2, 3] 5) 3 7 = none ∧
    (Vector.Emplace intTraits (vec_of [1, 2, 3] 5) 0 7).map (fun r => (r.1, r.2.values))
      = some (0, [some 7, some 1, some 2, some 3]) := by
  decide

/-- C17 (the code departs from the claim): for the element type `Rec`, whose move assignment
may throw, `Erase` instantiates `std::copy(begin() + cp_pos, end() - pos - 1, ...)` with a
`ptrdiff_t` as second argument: no call is formed, `Erase` has no result. The copy-assignment
branch as the specification words it gives, on the vector `{1}, {2}, {3}` at offset 0, offset
0 and the vector `{2}, {3}` of size 2, which is what the move-assignment branch gives for an
element type with a non-throwing move assignment. -/
theorem Erase_copy_branch_has_no_result :
    (vec_with [[1], [2], [3]] 3 : Vector (List Int)).WF ∧
    recTraits.is_nothrow_move_assignable = false ∧
    Vector.Erase recTraits (vec_with [[1], [2], [3]] 3) 0 = none ∧
    Vector.Erase recTraits (vec_with [[1], [2], [3]] 3) 2 = none ∧
    Vector.Erase_copy_as_specified (vec_with [[1], [2], [3]] 3 : Vector (List Int)) 0
      = some (0, vec_with [[2], [3]] 3) ∧
    Vector.Erase vectorTraits (vec_with [[1], [2], [3]] 3) 0
      = some (0, vec_with [[2], [3]] 3) := by
  decide

/-- C19: on a well-formed vector of size `S`, at every offset `k < S`, with or without
growth, `Emplace` and both `Insert` overloads return `begin() + k` and leave a well-formed
vector of size `S + 1` with `x` at `k`, the elements before `k` as they were and the elements
of `[k, S)` at `[k + 1, S + 1)`. The result is defined whatever lies in the slots from `S` on
(raw storage, which may not be read, included) and no slot before the block is computed;
without growth every slot beyond `S` is left as it was, with growth every slot of the new
block beyond `S` is left raw. -/
theorem Insert_before_end_spec {α : Type} (E : ElemTraits α) (v : Vector α) (k : Nat) (x : α)
    (h : v.WF) (hk : k < v.Size) :
    ∃ v1, v.Emplace E k x = some (k, v1) ∧ v.Insert E k x = some (k, v1) ∧
      v.Insert_rvalue E k x = some (k, v1) ∧ v1.WF ∧ v1.Size = v.Size + 1 ∧
      v1.get k = some x ∧
      (∀ i, i < k → v1.get i = v.get i ∧ (v.get i).isSome = true) ∧
      (∀ i, k ≤ i → i < v.Size → v1.get (i + 1) = v.get i ∧ (v.get i).isSome = true) ∧
      (v.Size = v.Capacity →
        v1.Capacity = max 1 (2 * v.Size) ∧ ∀ j, v.Size < j → obj v1.data_.cells j = none) ∧
      (v.Size ≠ v.Capacity →
        v1.Capacity = v.Capacity ∧
        ∀ j, v.Size < j → v1.data_.cells[j]? = v.data_.cells[j]?) := by
  have hk1 : k < v.size_ := hk
  have main : ∃ v1, v.Emplace E k x = some (k, v1) ∧ v1.WF ∧ v1.size_ = v.size_ + 1 ∧
      v1.data_.cells[k]? = some (some x) ∧
      (∀ j, j < k → v1.data_.cells[j]? = v.data_.cells[j]?) ∧
      (∀ j, k ≤ j → j < v.size_ → v1.data_.cells[j + 1]? = v.data_.cells[j]?) ∧
      (v.size_ = v.data_.capacity_ → v1.data_.capacity_ = max 1 (2 * v.size_) ∧
        ∀ j, v.size_ < j → obj v1.data_.cells j = none) ∧
      (v.size_ ≠ v.data_.capacity_ → v1.data_.capacity_ = v.data_.capacity_ ∧
        ∀ j, v.size_ < j → v1.data_.cells[j]? = v.data_.cells[j]?) := by
    by_cases hfull : v.size_ = v.data_.capacity_
    · obtain ⟨v1, e, w, s, c, a, lo, hi⟩ :=
        Vector.Emplace_grow_sound E v k x h hfull (by omega)
      obtain ⟨v2, e2, f⟩ := Vector.Emplace_grow_frame E v k x h hfull (by omega)
      have hv : v2 = v1 := by
        rw [e] at e2
        simp only [Option.some.injEq, Prod.mk.injEq, true_and] at e2
        exact e2.symm
      subst hv
      exact ⟨v2, e, w, s, a, lo, hi, fun _ => ⟨c, f⟩, fun hne => absurd hfull hne⟩
    · obtain ⟨v1, e, w, s, c, a, lo, hi⟩ := Vector.Emplace_fit_sound E v k x h hfull hk1
      obtain ⟨v2, e2, f⟩ := Vector.Emplace_fit_frame E v k x h hfull hk1
      have hv : v2 = v1 := by
        rw [e] at e2
        simp only [Option.some.injEq, Prod.mk.injEq, true_and] at e2
        exact e2.symm
      subst hv
      exact ⟨v2, e, w, s, a, lo, hi, fun hf => absurd hf hfull, fun _ => ⟨c, f⟩⟩
  obtain ⟨v1, e, w, s, a, lo, hi, g, f⟩ := main
  refine ⟨v1, e, e, e, w, s, Vector.get_of_cell w (by omega) a, ?_, ?_, g, f⟩
  · intro i hi1
    exact ⟨Vector.get_congr w h (by omega) (by omega) (lo i hi1), h.get_isSome (by omega)⟩
  · intro i h1 (h2 : i < v.size_)
    exact ⟨Vector.get_congr w h (by omega) h2 (hi i h1 h2), h.get_isSome h2⟩

/-- C19 on the `Vector<int>` `[1, 2, 3]` with capacity 4, inserting 9 at offset 1. -/
theorem Insert_before_end_spec_witness :
    ∃ v1, (vec_of [1, 2, 3] 4).Emplace intTraits 1 9 = some (1, v1) ∧
      (vec_of [1, 2, 3] 4).Insert intTraits 1 9 = some (1, v1) ∧
      (vec_of [1, 2, 3] 4).Insert_rvalue intTraits 1 9 = some (1, v1) ∧ v1.WF ∧
      v1.Size = (vec_of [1, 2, 3] 4).Size + 1 ∧
      v1.get 1 = some 9 ∧
      (∀ i, i < 1 → v1.get i = (vec_of [1, 2, 3] 4).get i ∧
        ((vec_of [1, 2, 3] 4).get i).isSome = true) ∧
      (∀ i, 1 ≤ i → i < (vec_of [1, 2, 3] 4).Size →
        v1.get (i + 1) = (vec_of [1, 2, 3] 4).get i ∧
        ((vec_of [1, 2, 3] 4).get i).isSome = true) ∧
      ((vec_of [1, 2, 3] 4).Size = (vec_of [1, 2, 3] 4).Capacity →
        v1.Capacity = max 1 (2 * (vec_of [1, 2, 3] 4).Size) ∧
        ∀ j, (vec_of [1, 2, 3] 4).Size < j → obj v1.data_.cells j = none) ∧
      ((vec_of [1, 2, 3] 4).Size ≠ (vec_of [1, 2, 3] 4).Capacity →
        v1.Capacity = (vec_of [1, 2, 3] 4).Capacity ∧
        ∀ j, (vec_of [1, 2, 3] 4).Size < j →
          v1.data_.cells[j]? = (vec_of [1, 2, 3] 4).data_.cells[j]?) :=
  Insert_before_end_spec intTraits (vec_of [1, 2, 3] 4) 1 9 (by decide) (by decide)

/-- C20: when `T` cannot be constructed from the pushed argument (an rvalue of a type that is
not move-constructible, an lvalue of a type that is not copy-constructible), `TryPush`
leaves the block as it is and returns `false`, and `PushBack` on a well-formed vector returns
with size and capacity unchanged; on the path `size == capacity` the vector keeps its old
block, from which the elements have already been relocated into the block that is then
released (they are moved-from when the relocation moves). In every other case `PushBack`
returns with the size increased by one. The argument is any reference to an object: one
outside the vector or one of the vector's own elements. -/
theorem PushBack_without_append {α : Type} (E : ElemTraits α) (v : Vector α) (a : Arg α)
    (is_rvalue : Bool) (h : v.WF) (ha : a.valid v.Size = true) :
    ((if is_rvalue then E.is_move_constructible else E.is_copy_constructible) = false →
      (∀ b n x, Vector.TryPush E b n x is_rvalue = some (b, false)) ∧
      ∃ r, v.PushBack E a is_rvalue = some r ∧ r.Size = v.Size ∧ r.Capacity = v.Capacity ∧
        ∀ i, i < v.Size → (v.get i).isSome = true ∧ r.get i =
          if v.Size = v.Capacity ∧
            (E.is_nothrow_move_constructible = true ∨ E.is_copy_constructible = false)
          then (v.get i).map E.moved_from else v.get i) ∧
    ((if is_rvalue then E.is_move_constructible else E.is_copy_constructible) = true →
      ∃ r, v.PushBack E a is_rvalue = some r ∧ r.Size = v.Size + 1) := by
  have hpol : (E.is_nothrow_move_constructible || !E.is_copy_constructible) = true ↔
      (E.is_nothrow_move_constructible = true ∨ E.is_copy_constructible = false) := by
    cases E.is_nothrow_move_constructible <;> cases E.is_copy_constructible <;> simp
  constructor
  · intro hc
    refine ⟨fun b n x => Vector.TryPush_nothing E b n x is_rvalue hc, ?_⟩
    obtain ⟨r, e, _, s, c, p⟩ := Vector.PushBack_nothing E v a is_rvalue h ha hc
    refine ⟨r, e, s, c, ?_⟩
    intro i (hi : i < v.size_)
    refine ⟨h.get_isSome hi, ?_⟩
    rw [p i hi]
    by_cases hp : v.size_ = v.data_.capacity_ ∧
        (E.is_nothrow_move_constructible || !E.is_copy_constructible) = true
    · rw [if_pos hp, if_pos ⟨hp.1, hpol.mp hp.2⟩]
    · rw [if_neg hp, if_neg (fun hh => hp ⟨hh.1, hpol.mpr hh.2⟩)]
  · intro hc
    exact Vector.PushBack_grows E v a is_rvalue h ha hc

/-- C20 on the full `Vector<std::unique_ptr<int>>` with two non-null pointers and the lvalue
argument. -/
theorem PushBack_without_append_witness :
    ((if false then uniquePtrTraits.is_move_constructible
        else uniquePtrTraits.is_copy_constructible) = false →
      (∀ b n x, Vector.TryPush uniquePtrTraits b n x false = some (b, false)) ∧
      ∃ r, (vec_with [some 1, some 2] 2).PushBack uniquePtrTraits (Arg.outside (some 5))
          false = some r ∧
        r.Size = (vec_with [some 1, some 2] 2 : Vector (Option Int)).Size ∧
        r.Capacity = (vec_with [some 1, some 2] 2 : Vector (Option Int)).Capacity ∧
        ∀ i, i < (vec_with [some 1, some 2] 2 : Vector (Option Int)).Size →
          ((vec_with [some 1, some 2] 2 : Vector (Option Int)).get i).isSome = true ∧
          r.get i =
          if (vec_with [some 1, some 2] 2 : Vector (Option Int)).Size
              = (vec_with [some 1, some 2] 2 : Vector (Option Int)).Capacity ∧
            (uniquePtrTraits.is_nothrow_move_constructible = true ∨
              uniquePtrTraits.is_copy_constructible = false)
          then ((vec_with [some 1, some 2] 2 : Vector (Option Int)).get i).map
            uniquePtrTraits.moved_from
          else (vec_with [some 1, some 2] 2 : Vector (Option Int)).get i) ∧
    ((if false then uniquePtrTraits.is_move_constructible
        else uniquePtrTraits.is_copy_constructible) = true →
      ∃ r, (vec_with [some 1, some 2] 2).PushBack uniquePtrTraits (Arg.outside (some 5))
          false = some r ∧
        r.Size = (vec_with [some 1, some 2] 2 : Vector (Option Int)).Size + 1) :=
  PushBack_without_append uniquePtrTraits (vec_with [some 1, some 2] 2) (Arg.outside (some 5))
    false
    (by decide) (by decide)

end AdvancedVector
